import Mathlib

/-!
Filter engine and batch export of the camera application.

A shallow embedding of `src/src.cpp` (pixel kernels, `filterSlug`,
`applyFilter`, `saveFilteredImages`, `saveFilteredVideos`) and of the two
completion handlers of `src/main.cpp`, followed by the theorems that settle
the claims made about them.

Conventions of the embedding.

* A `QString` is the list of its characters (Qt stores UTF-16 code units; the two
  agree on the Basic Multilingual Plane); a `QRgb` is the 32-bit word
  `0xAARRGGBB` as a natural number; C++ `int` values are `Int` (no
  computation below leaves the 32-bit range).
* What the Qt library decides outside the ASCII range, the string hash and
  the answers of the operating system are fields of `QtEnv`.
* `applyFilter` dispatches to the kernels that compute in binary floating point
  with inexact constants through `FloatKernels`; `sourceKernels` holds those of
  the source: `toSepia`, `warmFilter` and `coldFilter` with every literal,
  product and sum rounded to nearest (`fl64`, `fl32`), and `vintageFilter` with
  its floating-point pipeline and random grain as the parameter `VintageMath`.
* `posterizeEffect` computes in `float`, but every value it forms is exactly
  representable (see `cRound`, `lutEntry`, `RGBf`), so it is embedded with
  exact rational arithmetic.
-/

namespace FilterEngine

/-! ## Strings -/

/-- A `QString`, modelled as the list of its characters. -/
abbrev QString := List Char

/-- The `QString` holding the characters of a literal. -/
def qs (s : String) : QString := s.toList

/-- Library and operating-system answers the code depends on. -/
structure QtEnv where
  /-- The value of `qHash(code)`, an unsigned integer. -/
  qHash : QString → Nat
  /-- The Unicode part of `QChar::isSpace` (separator categories), consulted above 127. -/
  isSpaceHelper : Char → Bool
  /-- The Unicode part of `QChar::isLetterOrNumber`, consulted above 127. -/
  isLetterOrNumberHelper : Char → Bool
  /-- The text of `QDateTime::currentDateTime().toString("yyyyMMdd_HHmmss")`. -/
  baseName : QString
  /-- The answer of `targetDir.exists()`. -/
  dirExists : Bool
  /-- The answer of `targetDir.mkpath(".")`. -/
  mkpathOk : Bool
  /-- The answer of `QFile::exists(videoPath)`. -/
  videoExists : Bool
  /-- The result of `QStandardPaths::findExecutable("ffmpeg")`. -/
  ffmpegPath : QString

/-- Qt: `QChar::isSpace`. -/
def isSpace (env : QtEnv) (c : Char) : Bool :=
  c.toNat == 0x20 || (c.toNat ≤ 0x0d && c.toNat ≥ 0x09)
    || (c.toNat > 127 && (c.toNat == 0x85 || c.toNat == 0xa0 || env.isSpaceHelper c))

/-- Qt: `QChar::isLetterOrNumber`. -/
def isLetterOrNumber (env : QtEnv) (c : Char) : Bool :=
  (c.toNat ≥ 65 && c.toNat ≤ 122 && (c.toNat ≥ 97 || c.toNat ≤ 90))
    || (c.toNat ≥ 48 && c.toNat ≤ 57)
    || (c.toNat > 127 && env.isLetterOrNumberHelper c)

/-- Qt: `QString::simplified`: whitespace removed from both ends, every internal run of
whitespace replaced by one space. -/
def qSimplified (env : QtEnv) (s : QString) : QString :=
  (qs " ").intercalate ((s.splitOnP (isSpace env)).filter (fun w => !w.isEmpty))

/-- Qt: `QString::replace(QChar before, QChar after)`. -/
def replaceChar (before after : Char) (s : QString) : QString :=
  s.map (fun c => if c = before then after else c)

/-- The decimal digit `d` as a character. -/
def digitChar (d : Nat) : Char := Char.ofNat (48 + d)

/-- Decimal digits of `n`, most significant first, with `fuel` bounding the recursion. -/
def decimalFuel : Nat → Nat → QString
  | 0, _ => []
  | fuel + 1, n =>
    if n < 10 then [digitChar n] else decimalFuel fuel (n / 10) ++ [digitChar (n % 10)]

/-- Qt: `QString::number` of a non-negative integer, base 10. -/
def number (n : Nat) : QString := decimalFuel (n + 1) n

/-- Qt: the effect of a positive field width with a fill character in `QString::arg`:
the text is right-aligned, padded on the left up to `width` characters. -/
def padLeft (width : Nat) (fill : Char) (s : QString) : QString :=
  List.replicate (width - s.length) fill ++ s

/-! ## Slugs -/

/-- The table `mapping` of `filterSlug`; an absent key gives the empty string. -/
def mappingValue (code : QString) : QString :=
  if code = qs "бф" then qs "no_filter"
  else if code = qs "чб" then qs "bw"
  else if code = qs "нег" then qs "negative"
  else if code = qs "сеп" then qs "sepia"
  else if code = qs "пос" then qs "posterize"
  else if code = qs "сол" then qs "solarize"
  else if code = qs "хол" then qs "cold"
  else if code = qs "теп" then qs "warm"
  else if code = qs "вин" then qs "vintage"
  else []

/-- The nine identifiers of the table. -/
def knownCodes : List QString :=
  [qs "бф", qs "чб", qs "нег", qs "сеп", qs "пос", qs "сол", qs "хол", qs "теп", qs "вин"]

/-- Source: `filterSlug`. -/
def filterSlug (env : QtEnv) (code : QString) : QString :=
  let slug := mappingValue code
  if !slug.isEmpty then slug
  else
    let simplified := qSimplified env code
    let simplified := replaceChar ' ' '_' simplified
    let sanitized := simplified.filter (fun ch => isLetterOrNumber env ch && ch.toNat < 128)
    if sanitized.isEmpty then number (env.qHash code) else sanitized

/-! ## Selections -/

/-- Qt: the loop of `QList::removeDuplicates`: an element is kept unless it is in `seen`. -/
def removeDuplicatesAux (seen : List QString) : List QString → List QString
  | [] => []
  | x :: xs =>
    if x ∈ seen then removeDuplicatesAux seen xs
    else x :: removeDuplicatesAux (x :: seen) xs

/-- Qt: `QList::removeDuplicates`. -/
def removeDuplicates (l : List QString) : List QString := removeDuplicatesAux [] l

/-- The distinct identifiers of a selection in the order of their first occurrence: the
entry at position `i` is kept when it does not occur among the `i` entries before it. -/
def firstOccurrences (l : List QString) : List QString :=
  ((List.range l.length).filter (fun i => decide (l.getD i [] ∉ l.take i))).map
    (fun i => l.getD i [])

/-! ## Pixels and rasters -/

/-- A `QRgb` value: the 32-bit word `0xAARRGGBB`. -/
abbrev QRgb := Nat

/-- Qt: `qAlpha(rgb) = rgb >> 24`, on a 32-bit unsigned word. -/
def qAlpha (rgb : QRgb) : Nat := (rgb % 4294967296) / 16777216

/-- Qt: `qRed(rgb) = (rgb >> 16) & 0xff`. -/
def qRed (rgb : QRgb) : Nat := (rgb / 65536) % 256

/-- Qt: `qGreen(rgb) = (rgb >> 8) & 0xff`. -/
def qGreen (rgb : QRgb) : Nat := (rgb / 256) % 256

/-- Qt: `qBlue(rgb) = rgb & 0xff`. -/
def qBlue (rgb : QRgb) : Nat := rgb % 256

/-- Qt: `qRgba(r, g, b, a) = ((a & 0xffu) << 24) | ((r & 0xffu) << 16) | ((g & 0xffu) << 8)
| (b & 0xffu)`: each `int` argument is reduced to its low eight bits. -/
def qRgba (r g b a : Int) : QRgb :=
  (a % 256).toNat * 16777216 + (r % 256).toNat * 65536 + (g % 256).toNat * 256 + (b % 256).toNat

/-- Qt: `qGray(rgb) = (qRed * 11 + qGreen * 16 + qBlue * 5) / 32`. -/
def qGray (rgb : QRgb) : Nat := (qRed rgb * 11 + qGreen rgb * 16 + qBlue rgb * 5) / 32

/-- Source: `clampInt`. -/
def clampInt (v : Int) : Int := if v < 0 then 0 else (if v > 255 then 255 else v)

/-- Qt: `qBound(min, val, max)`. -/
def qBound (lo val hi : Int) : Int := max lo (min hi val)

/-- The two pixel formats the code names. -/
inductive Format where
  | ARGB32
  | Grayscale8
deriving DecidableEq, Repr

/-- A `QImage`: `data` holds `width * height` samples in row-major order, a `QRgb` word per
pixel in `ARGB32` and one byte per pixel in `Grayscale8`. -/
structure QImage where
  width : Nat
  height : Nat
  format : Format
  data : List Nat
deriving DecidableEq, Repr

/-- Qt: `QImage::isNull`; an image without pixels is null. -/
def QImage.isNull (img : QImage) : Bool := img.width == 0 || img.height == 0

/-- The representation invariant of `QImage`. -/
def QImage.WellFormed (img : QImage) : Prop := img.data.length = img.width * img.height

/-- Qt: `QImage::convertToFormat` between the two formats: a gray sample `g` becomes the
opaque pixel `(g, g, g)`; an ARGB pixel becomes its `qGray` value and loses its alpha, the
format `Grayscale8` having none (for a pixel that is not opaque Qt takes the gray value
from the premultiplied form, which may differ from `qGray` of the pixel; no result below
depends on the gray value of such a pixel). -/
def QImage.convertToFormat (img : QImage) (f : Format) : QImage :=
  match img.format, f with
  | .ARGB32, .ARGB32 => img
  | .Grayscale8, .Grayscale8 => img
  | .Grayscale8, .ARGB32 =>
    { width := img.width, height := img.height, format := .ARGB32,
      data := img.data.map (fun g : Nat => qRgba g g g 255) }
  | .ARGB32, .Grayscale8 =>
    { width := img.width, height := img.height, format := .Grayscale8,
      data := img.data.map qGray }

/-- Qt: `QImage::invertPixels(QImage::InvertRgb)`: a 32-bit word is xor-ed with
`0x00ffffff`, which leaves the alpha byte alone; a sample of less than 32 bits has all
its bits inverted. -/
def QImage.invertPixels (img : QImage) : QImage :=
  match img.format with
  | .ARGB32 =>
    { width := img.width, height := img.height, format := img.format,
      data := img.data.map (fun p => p ^^^ 0x00ffffff) }
  | .Grayscale8 =>
    { width := img.width, height := img.height, format := img.format,
      data := img.data.map (fun g => g ^^^ 0xff) }

/-! ## Posterize -/

/-- C: `std::round`, halfway cases away from zero, on an exactly known value. -/
def cRound (x : ℚ) : Int :=
  if 0 ≤ x then (x + 1 / 2).floor else -((-x + 1 / 2).floor)

/-- Source: the body of the table loop of `posterizeEffect`.  The products `v * steps` and
`idx * 255` are integers below `2 ^ 24`, the two quotients are correctly rounded `float`
divisions, and a quotient that is not itself half an odd integer is at least `1 / 510` away
from one, much more than the rounding error; so `std::round` of the `float` quotient is
`cRound` of the exact quotient. -/
def lutEntry (steps : Int) (v : Nat) : Int :=
  let idx : Int := cRound (((v : ℚ) * 1 * (steps : ℚ)) / 255)
  let quant : Int := cRound (((idx : ℚ) * 255) / (steps : ℚ))
  clampInt quant

/-- Source: the vector `lut` of `posterizeEffect`, 256 entries. -/
def buildLUT (steps : Int) : List Int := (List.range 256).map (lutEntry steps)

/-- Source: `quantizeLUTValue`. -/
def quantizeLUTValue (v : Nat) (lut : List Int) : Int := lut.getD v 0

/-- Source: `struct RGBf`.  The `float` fields hold integers plus sums of at most four
terms `err * k / 16` with `|err| ≤ 255`, all exactly representable, so they are embedded
as rationals. -/
structure RGBf where
  r : ℚ
  g : ℚ
  b : ℚ
  a : Nat
deriving DecidableEq

/-- Source: the lambda `quantizeChannel` of `posterizeEffect`. -/
def quantizeChannel (v : ℚ) (lut : List Int) : Int :=
  let vi := clampInt (cRound v)
  lut.getD vi.toNat 0

/-- Source: the lambda `addError` of `posterizeEffect`. -/
def addError (w h : Nat) (errR errG errB : ℚ) (buf : List RGBf) (nx ny : Int) (factor : ℚ) :
    List RGBf :=
  if nx < 0 ∨ nx ≥ w ∨ ny < 0 ∨ ny ≥ h then buf
  else
    buf.modify (fun nc => { r := nc.r + errR * factor, g := nc.g + errG * factor,
                            b := nc.b + errB * factor, a := nc.a }) (ny * w + nx).toNat

/-- Source: the body of the error-diffusion loop of `posterizeEffect` at pixel `(x, y)`;
the state is the `float` buffer and the pixels written to `dst` so far, in scan order. -/
def ditherStep (w h : Nat) (lut : List Int) (st : List RGBf × List QRgb) (y x : Nat) :
    List RGBf × List QRgb :=
  let buf := st.1
  let c := buf.getD (y * w + x) { r := 0, g := 0, b := 0, a := 0 }
  let oldR := clampInt (cRound c.r)
  let oldG := clampInt (cRound c.g)
  let oldB := clampInt (cRound c.b)
  let newR := quantizeChannel c.r lut
  let newG := quantizeChannel c.g lut
  let newB := quantizeChannel c.b lut
  let dst := st.2 ++ [qRgba newR newG newB c.a]
  let errR : ℚ := oldR - newR
  let errG : ℚ := oldG - newG
  let errB : ℚ := oldB - newB
  let buf := addError w h errR errG errB buf (x + 1) y (7 / 16)
  let buf := addError w h errR errG errB buf (x - 1) (y + 1) (3 / 16)
  let buf := addError w h errR errG errB buf x (y + 1) (5 / 16)
  let buf := addError w h errR errG errB buf (x + 1) (y + 1) (1 / 16)
  (buf, dst)

/-- Source: the error-diffusion loops of `posterizeEffect`, rows outside, columns inside. -/
def ditherLoop (w h : Nat) (lut : List Int) (buf : List RGBf) : List RGBf × List QRgb :=
  (List.range h).foldl
    (fun st y => (List.range w).foldl (fun st x => ditherStep w h lut st y x) st) (buf, [])

/-- Source: `posterizeEffect`.  With `dither` the buffer is seeded from the scan lines of
`srcImage` itself, read as `QRgb` words (for a source that is not stored in 32-bit words
the C++ reads raw bytes there; the embedding reads `data`), and `dst` is the list of the
pixels set, which is its row-major content. -/
def posterizeEffect (srcImage : QImage) (levels : Int) (dither : Bool) : QImage :=
  let levels := if levels < 2 then 2 else levels
  let img := srcImage.convertToFormat .ARGB32
  let w := img.width
  let h := img.height
  let steps := levels - 1
  let lut := buildLUT steps
  if !dither then
    { width := img.width, height := img.height, format := img.format,
      data := img.data.map (fun p =>
        let a := qAlpha p
        let r := quantizeLUTValue (qRed p) lut
        let g := quantizeLUTValue (qGreen p) lut
        let b := quantizeLUTValue (qBlue p) lut
        qRgba r g b a) }
  else
    let buf : List RGBf := (List.range (w * h)).map (fun i =>
      let p := srcImage.data.getD i 0
      { r := qRed p, g := qGreen p, b := qBlue p, a := qAlpha p % 256 })
    { width := w, height := h, format := .ARGB32, data := (ditherLoop w h lut buf).2 }

/-! ## Solarize, negative and the dispatcher -/

/-- Source: the loop body of `hardSolarizeInvert`. -/
def hardSolarizeInvertPixel (threshold : Int) (p : QRgb) : QRgb :=
  let a := qAlpha p
  let r := qRed p
  let g := qGreen p
  let b := qBlue p
  let lum := qGray p
  if (lum : Int) > threshold then qRgba (255 - 3 * r) (255 - 3 * g) (255 - 3 * b) a else p

/-- Source: `hardSolarizeInvert`. -/
def hardSolarizeInvert (src : QImage) (threshold : Int) : QImage :=
  let img := src.convertToFormat .ARGB32
  { width := img.width, height := img.height, format := img.format,
    data := img.data.map (hardSolarizeInvertPixel threshold) }

/-- The kernels of the source that compute with inexact floating-point constants (and, for
`vintageFilter`, a random generator); `applyFilter` calls them with their default
arguments. -/
structure FloatKernels where
  toSepia : QImage → QImage
  coldFilter : QImage → QImage
  warmFilter : QImage → QImage
  vintageFilter : QImage → QImage

/-- Source: `applyFilter`. -/
def applyFilter (K : FloatKernels) (source : QImage) (type : QString) : QImage :=
  if source.isNull then source
  else if type = qs "чб" then source.convertToFormat .Grayscale8
  else if type = qs "нег" then (source.convertToFormat .ARGB32).invertPixels
  else if type = qs "сеп" then K.toSepia source
  else if type = qs "пос" then posterizeEffect source 12 false
  else if type = qs "сол" then hardSolarizeInvert source 128
  else if type = qs "хол" then K.coldFilter source
  else if type = qs "теп" then K.warmFilter source
  else if type = qs "вин" then K.vintageFilter source
  else source

/-! ## Batch export -/

/-- Qt: `QDir::filePath` of a relative file name (the names built below start with the
time stamp): the directory path, a `/` unless the path is empty or already ends in one,
then the name. -/
def dirFilePath (directory fileName : QString) : QString :=
  if directory.isEmpty ∨ directory.getLast? = some '/' then directory ++ fileName
  else directory ++ qs "/" ++ fileName

/-- Qt: `QStringLiteral("%1_%2_%3" ext).arg(baseName).arg(index, 2, 10, QLatin1Char('0'))
.arg(name)`; neither the time stamp nor the digits hold a place marker, so the three
markers are filled in turn. -/
def exportFileName (baseName : QString) (index : Nat) (name ext : QString) : QString :=
  baseName ++ qs "_" ++ padLeft 2 '0' (number index) ++ qs "_" ++ name ++ ext

/-- What one task of `saveFilteredImages` captures, with the name its path was built from
and the identifier it was created for. -/
structure ImageJob where
  code : QString
  fileName : QString
  filePath : QString
  processed : QImage
deriving DecidableEq

/-- What one task of `saveFilteredVideos` captures, with the name its path was built
from. -/
structure VideoJob where
  code : QString
  fileName : QString
  filePath : QString
  videoPath : QString
  ffmpegPath : QString
deriving DecidableEq

/-- Source: the `for` loop of `saveFilteredImages`, entered with the current `index`. -/
def imageJobsFrom (env : QtEnv) (K : FloatKernels) (sourceImage : QImage)
    (directory : QString) : Nat → List QString → List ImageJob
  | _, [] => []
  | index, code :: rest =>
    let slug := filterSlug env code
    let fileName := exportFileName env.baseName index
      (if slug.isEmpty then qs "image" else slug) (qs ".png")
    let filePath := dirFilePath directory fileName
    let processed := (applyFilter K sourceImage code).convertToFormat .ARGB32
    { code := code, fileName := fileName, filePath := filePath, processed := processed }
      :: imageJobsFrom env K sourceImage directory (index + 1) rest

/-- Source: `saveFilteredImages`.  The directory is created when it is missing, and the
answer of `mkpath` is not looked at, so the tasks do not depend on it. -/
def saveFilteredImages (env : QtEnv) (K : FloatKernels) (sourceImage : QImage)
    (filters : List QString) (directory : QString) : List ImageJob :=
  if sourceImage.isNull then []
  else if filters.isEmpty then []
  else
    let filters := removeDuplicates filters
    imageJobsFrom env K sourceImage directory 0 filters

/-- Source: the `for` loop of `saveFilteredVideos`, entered with the current `index`. -/
def videoJobsFrom (env : QtEnv) (videoPath directory : QString) :
    Nat → List QString → List VideoJob
  | _, [] => []
  | index, code :: rest =>
    let slug := filterSlug env code
    let fileName := exportFileName env.baseName index
      (if slug.isEmpty then qs "video" else slug) (qs ".mp4")
    let filePath := dirFilePath directory fileName
    { code := code, fileName := fileName, filePath := filePath, videoPath := videoPath,
      ffmpegPath := env.ffmpegPath }
      :: videoJobsFrom env videoPath directory (index + 1) rest

/-- Source: `saveFilteredVideos`. -/
def saveFilteredVideos (env : QtEnv) (videoPath : QString) (filters : List QString)
    (directory : QString) : List VideoJob :=
  if videoPath.isEmpty || !env.videoExists then []
  else if filters.isEmpty then []
  else
    let filters := removeDuplicates filters
    videoJobsFrom env videoPath directory 0 filters

/-! ## Completion handlers -/

/-- What a finished `QFutureWatcher<bool>` answers. -/
structure WatcherResult where
  isCanceled : Bool
  result : Bool
deriving DecidableEq

/-- The three message boxes of a completion handler: information, critical, warning. -/
inductive BatchOutcome where
  | allSucceeded
  | allFailed
  | partiallySaved
deriving DecidableEq, Repr

/-- The counters shared by the handlers of one batch, and the message boxes shown. -/
structure HandlerState where
  completed : Int
  failures : Int
  reported : List BatchOutcome
deriving DecidableEq

/-- Source: the `finished` handler connected in `main` (the image and the video handler
have the same body). -/
def onFinished (totalTasks : Int) (st : HandlerState) (watcher : WatcherResult) :
    HandlerState :=
  let ok := !watcher.isCanceled && watcher.result
  let failures := if !ok then st.failures + 1 else st.failures
  let completed := st.completed + 1
  if completed = totalTasks then
    { completed := completed, failures := failures,
      reported := st.reported ++
        [if failures = 0 then BatchOutcome.allSucceeded
         else if failures = totalTasks then BatchOutcome.allFailed
         else BatchOutcome.partiallySaved] }
  else { completed := completed, failures := failures, reported := st.reported }

/-- The handlers of a batch of `totalTasks` tasks run on the watcher answers in the order
in which the tasks finish, from both counters at zero. -/
def runHandlers (totalTasks : Int) (finished : List WatcherResult) : HandlerState :=
  finished.foldl (onFinished totalTasks) { completed := 0, failures := 0, reported := [] }

/-- The number of failed tasks: those cancelled or with result `false`. -/
def failedCount (finished : List WatcherResult) : Nat :=
  finished.countP (fun w => w.isCanceled || !w.result)

/-! ## Helpers for stating the results -/

/-- The number a decimal text denotes. -/
def decValue (s : QString) : Nat := s.foldl (fun acc c => acc * 10 + (c.toNat - 48)) 0

/-- An ASCII letter, an ASCII digit or the underscore. -/
def isSlugChar (c : Char) : Bool :=
  (97 ≤ c.toNat && c.toNat ≤ 122) || (65 ≤ c.toNat && c.toNat ≤ 90)
    || (48 ≤ c.toNat && c.toNat ≤ 57) || c = '_'

/-- An ASCII decimal digit. -/
def isDigitChar (c : Char) : Bool := 48 ≤ c.toNat && c.toNat ≤ 57

/-- A pixel whose three colour channels are values of the table for `steps`. -/
def InTable (steps : Int) (p : QRgb) : Prop :=
  (∃ v, v < 256 ∧ (qRed p : Int) = (buildLUT steps).getD v 0)
  ∧ (∃ v, v < 256 ∧ (qGreen p : Int) = (buildLUT steps).getD v 0)
  ∧ (∃ v, v < 256 ∧ (qBlue p : Int) = (buildLUT steps).getD v 0)

/-! ## Sample inputs -/

/-- A sample environment: hash 42, no Unicode class beyond ASCII, an existing directory. -/
def sampleEnv : QtEnv :=
  { qHash := fun _ => 42, isSpaceHelper := fun _ => false,
    isLetterOrNumberHelper := fun _ => false, baseName := qs "20240131_235959",
    dirExists := true, mkpathOk := true, videoExists := true,
    ffmpegPath := qs "/usr/bin/ffmpeg" }

/-- Sample floating-point kernels (they leave the image alone). -/
def sampleKernels : FloatKernels :=
  { toSepia := id, coldFilter := id, warmFilter := id, vintageFilter := id }

/-- A sample raster, half bright and half dark: two bright opaque pixels `(200, 200, 200)`
on top of two dark opaque pixels `(32, 32, 32)`. -/
def sampleImage : QImage :=
  { width := 2, height := 2, format := .ARGB32,
    data := [0xffc8c8c8, 0xffc8c8c8, 0xff202020, 0xff202020] }

/-! ## Video jobs -/

/-- Source: `ffmpegFilterForCode`. -/
def ffmpegFilterForCode (code : QString) : QString :=
  if code = qs "чб" then qs "format=gray"
  else if code = qs "нег" then qs "negate"
  else if code = qs "сеп" then
    qs "colorchannelmixer=.393:.769:.189:0:.349:.686:.168:0:.272:.534:.131"
  else if code = qs "пос" then
    qs "lutrgb=r='floor(val/64)*64':g='floor(val/64)*64':b='floor(val/64)*64'"
  else if code = qs "сол" then qs "lutyuv=y='if(lt(val,128),val,255-val)'"
  else if code = qs "хол" then qs "colorbalance=bs=0.35:rs=-0.25"
  else if code = qs "теп" then qs "colorbalance=rs=0.35:bs=-0.25"
  else if code = qs "вин" then qs "curves=blue='0/0 0.5/0.4 1/1',vignette=PI/3"
  else []

/-- What the file system and the encoder process answer to one video task. -/
structure JobAnswers where
  /-- The answer of `QFile::exists(filePath)` in `cleanTarget`. -/
  targetExists : Bool
  /-- The answer of `QFile::remove(filePath)`. -/
  removeOk : Bool
  /-- The answer of `QFile::copy(videoPath, filePath)`. -/
  copyOk : Bool
  /-- The answer of `process.waitForStarted()`. -/
  started : Bool
  /-- The answer of `process.waitForFinished(-1)`. -/
  finished : Bool
  /-- The value of `process.exitCode()`. -/
  exitCode : Int
  /-- The answer of the final `QFile::exists(filePath)`. -/
  existsAfter : Bool

/-- What a video task does to the outside world. -/
inductive JobAction where
  | remove (path : QString)
  | copy (source target : QString)
  | startProcess (program : QString) (arguments : List QString)
deriving DecidableEq

/-- Source: the list `arguments` built in the task of `saveFilteredVideos`. -/
def ffmpegArguments (videoPath filterExpr filePath : QString) : List QString :=
  [qs "-y", qs "-i", videoPath, qs "-vf", filterExpr, qs "-c:v", qs "libx264",
   qs "-preset", qs "veryfast", qs "-crf", qs "22", qs "-c:a", qs "copy", filePath]

/-- Source: the lambda run by `QtConcurrent::run` in `saveFilteredVideos`: its result and
what it did, in order. -/
def runVideoJob (ans : JobAnswers) (job : VideoJob) : Bool × List JobAction :=
  if job.filePath.isEmpty then (false, [])
  else if ans.targetExists && !ans.removeOk then (false, [JobAction.remove job.filePath])
  else
    let cleaned := if ans.targetExists then [JobAction.remove job.filePath] else []
    let filterExpr := ffmpegFilterForCode job.code
    if job.ffmpegPath.isEmpty || filterExpr.isEmpty then
      if !ans.copyOk then (false, cleaned ++ [JobAction.copy job.videoPath job.filePath])
      else (true, cleaned ++ [JobAction.copy job.videoPath job.filePath])
    else
      let arguments := ffmpegArguments job.videoPath filterExpr job.filePath
      let done := cleaned ++ [JobAction.startProcess job.ffmpegPath arguments]
      if !ans.started then (false, done)
      else if !ans.finished then (false, done)
      else if ans.exitCode ≠ 0 then (false, done)
      else (ans.existsAfter, done)

/-! ## Binary floating point -/

/-- Rounding to the nearest integer, halfway cases to the even one. -/
def roundHalfEven (x : ℚ) : Int :=
  let f := x.floor
  if x - f < 1 / 2 then f
  else if 1 / 2 < x - f then f + 1
  else if f % 2 = 0 then f else f + 1

/-- IEEE 754 round-to-nearest-even of a real value to a binary format with `prec`
significant bits (exponent range not modelled; all values below are far inside it). -/
def roundToPrecision (prec : Nat) (x : ℚ) : ℚ :=
  if x = 0 then 0
  else
    let e : Int := Int.log 2 |x|
    let ulp : ℚ := (2 : ℚ) ^ (e - (prec : Int) + 1)
    (roundHalfEven (x / ulp) : ℚ) * ulp

/-- The `float` nearest to a value: 24 significant bits. -/
def fl32 (x : ℚ) : ℚ := roundToPrecision 24 x

/-- The `double` nearest to a value: 53 significant bits. -/
def fl64 (x : ℚ) : ℚ := roundToPrecision 53 x

/-- C++: conversion of a floating-point value to `int`, which drops the fraction. -/
def cTrunc (x : ℚ) : Int := if 0 ≤ x then x.floor else -((-x).floor)

/-! ## Sepia, warm, cold, vintage -/

/-- Source: the loop body of `toSepia`; the literals and every product and sum are
`double`s. -/
def toSepiaPixel (p : QRgb) : QRgb :=
  let a := qAlpha p
  let r := qRed p
  let g := qGreen p
  let b := qBlue p
  let tr := qBound 0 (cTrunc (fl64 (fl64 (fl64 (fl64 (393 / 1000) * r)
    + fl64 (fl64 (769 / 1000) * g)) + fl64 (fl64 (189 / 1000) * b)))) 255
  let tg := qBound 0 (cTrunc (fl64 (fl64 (fl64 (fl64 (349 / 1000) * r)
    + fl64 (fl64 (686 / 1000) * g)) + fl64 (fl64 (168 / 1000) * b)))) 255
  let tb := qBound 0 (cTrunc (fl64 (fl64 (fl64 (fl64 (272 / 1000) * r)
    + fl64 (fl64 (534 / 1000) * g)) + fl64 (fl64 (131 / 1000) * b)))) 255
  qRgba tr tg tb a

/-- Source: `toSepia`. -/
def toSepia (srcImage : QImage) : QImage :=
  let img := srcImage.convertToFormat .ARGB32
  { width := img.width, height := img.height, format := img.format,
    data := img.data.map toSepiaPixel }

/-- Source: the loop body of `warmFilter`; `intensity` is a `float`, the literals, products
and sums are `float`s. -/
def warmFilterPixel (intensity : ℚ) (p : QRgb) : QRgb :=
  let a := qAlpha p
  let r := qRed p
  let g := qGreen p
  let b := qBlue p
  let nr := cRound (fl32 (r + fl32 (((255 : ℚ) - r) * fl32 (fl32 (45 / 100) * intensity))))
  let ng := cRound (fl32 (g + fl32 (((255 : ℚ) - g) * fl32 (fl32 (20 / 100) * intensity))))
  let nb := cRound (fl32 (b * fl32 (1 - fl32 (fl32 (25 / 100) * intensity))))
  qRgba (qBound 0 nr 255) (qBound 0 ng 255) (qBound 0 nb 255) a

/-- Source: `warmFilter`. -/
def warmFilter (src : QImage) (intensity : ℚ) : QImage :=
  if intensity ≤ 0 then src
  else
    let intensity := if intensity > 1 then 1 else intensity
    let img := src.convertToFormat .ARGB32
    { width := img.width, height := img.height, format := img.format,
      data := img.data.map (warmFilterPixel intensity) }

/-- Source: the loop body of `coldFilter`. -/
def coldFilterPixel (intensity : ℚ) (p : QRgb) : QRgb :=
  let a := qAlpha p
  let r := qRed p
  let g := qGreen p
  let b := qBlue p
  let nb := cRound (fl32 (b + fl32 (((255 : ℚ) - b) * fl32 (fl32 (45 / 100) * intensity))))
  let ng := cRound (fl32 (g + fl32 (((255 : ℚ) - g) * fl32 (fl32 (12 / 100) * intensity))))
  let nr := cRound (fl32 (r * fl32 (1 - fl32 (fl32 (30 / 100) * intensity))))
  qRgba (qBound 0 nr 255) (qBound 0 ng 255) (qBound 0 nb 255) a

/-- Source: `coldFilter`. -/
def coldFilter (src : QImage) (intensity : ℚ) : QImage :=
  if intensity ≤ 0 then src
  else
    let intensity := if intensity > 1 then 1 else intensity
    let img := src.convertToFormat .ARGB32
    { width := img.width, height := img.height, format := img.format,
      data := img.data.map (coldFilterPixel intensity) }

/-- The floating-point pipeline of `vintageFilter` at its default arguments: the values
`int(std::round(r))`, `int(std::round(g))`, `int(std::round(b))` it reaches at column `x`,
row `y` for the pixel there (desaturation, tone, contrast, vignette, and the grain drawn
from the generator seeded for the call). -/
structure VintageMath where
  rounded : Nat → Nat → QRgb → Int × Int × Int

/-- Source: `vintageFilter` at its default arguments (with them the early return is not
taken). -/
def vintageFilter (V : VintageMath) (src : QImage) : QImage :=
  let img := src.convertToFormat .ARGB32
  let w := img.width
  { width := img.width, height := img.height, format := img.format,
    data := img.data.enum.map (fun ip =>
      let x := ip.1 % w
      let y := ip.1 / w
      let a := qAlpha ip.2
      let n := V.rounded x y ip.2
      qRgba (qBound 0 n.1 255) (qBound 0 n.2.1 255) (qBound 0 n.2.2 255) a) }

/-- The four floating-point kernels as `applyFilter` calls them: with their default
arguments, `0.6f` for the warm and the cold intensity. -/
def sourceKernels (V : VintageMath) : FloatKernels :=
  { toSepia := toSepia,
    coldFilter := fun source => coldFilter source (fl32 (6 / 10)),
    warmFilter := fun source => warmFilter source (fl32 (6 / 10)),
    vintageFilter := vintageFilter V }

/-- The pixel with the red and the blue channel exchanged. -/
def swapRedBlue (p : QRgb) : QRgb := qRgba (qBlue p) (qGreen p) (qRed p) (qAlpha p)

/-- A sample environment in which the destination directory is missing and cannot be
created. -/
def noDirectoryEnv : QtEnv :=
  { qHash := fun _ => 42, isSpaceHelper := fun _ => false,
    isLetterOrNumberHelper := fun _ => false, baseName := qs "20240131_235959",
    dirExists := false, mkpathOk := false, videoExists := true,
    ffmpegPath := qs "/usr/bin/ffmpeg" }

/-- What `toSepia` gives a channel whose exact sum is `N / 1000`: the sum with its fraction
dropped, at most 255, when the sum is no integer; that or the integer just below it when
the sum is an integer (the `double` sum may fall just short of it). -/
def SepiaValue (N out : Nat) : Prop :=
  (N % 1000 ≠ 0 → out = min 255 (N / 1000))
  ∧ (out = min 255 (N / 1000) ∨ out = min 255 (N / 1000 - 1))

/-- The alpha values a raster shows once it is in the format `ARGB32`, which is how
`saveFilteredImages` stores the result of `applyFilter`. -/
def alphaValues (img : QImage) : List Nat := (img.convertToFormat .ARGB32).data.map qAlpha

/-- A sample pipeline for `vintageFilter`. -/
def sampleVintage : VintageMath := { rounded := fun _ _ p => (qRed p, qGreen p, qBlue p) }

/-- The table of `posterizeEffect` at the default twelve levels, in integer arithmetic (see
`lutEntry_eq`). -/
def lut12 (v : Nat) : Nat := (510 * ((2 * (v * 11) + 255) / 510) + 11) / 22

/-- The buffer entry `posterizeEffect` makes of a source pixel. -/
def seedPixel (p : QRgb) : RGBf :=
  { r := qRed p, g := qGreen p, b := qBlue p, a := qAlpha p % 256 }

/-- The `float` buffer `posterizeEffect` fills from the source before the diffusion loop. -/
def seedBuffer (srcImage : QImage) (w h : Nat) : List RGBf :=
  (List.range (w * h)).map (fun i => seedPixel (srcImage.data.getD i 0))

/-- The pixel the diffusion loop writes for a buffer entry. -/
def ditherOut (lut : List Int) (c : RGBf) : QRgb :=
  qRgba (quantizeChannel c.r lut) (quantizeChannel c.g lut) (quantizeChannel c.b lut) c.a

/-- A buffer entry whose three channels the table leaves as they are, so that the loop has
no error to diffuse from it. -/
def ZeroError (lut : List Int) (c : RGBf) : Prop :=
  clampInt (cRound c.r) = quantizeChannel c.r lut
  ∧ clampInt (cRound c.g) = quantizeChannel c.g lut
  ∧ clampInt (cRound c.b) = quantizeChannel c.b lut

/-- A sample raster whose channel values are all values of the table at twelve levels: the
pixels `(0, 46, 255)`, opaque, and `(23, 23, 23)`, half transparent. -/
def tableImage : QImage :=
  { width := 2, height := 1, format := .ARGB32, data := [0xff002eff, 0x80171717] }

/-! ## Decimal text -/

theorem digitChar_toNat (d : Nat) (h : d < 10) : (digitChar d).toNat = 48 + d := by
  interval_cases d <;> rfl

theorem isDigitChar_digitChar (d : Nat) (h : d < 10) : isDigitChar (digitChar d) = true := by
  interval_cases d <;> rfl

theorem decValue_append_singleton (s : QString) (c : Char) :
    decValue (s ++ [c]) = decValue s * 10 + (c.toNat - 48) := by
  simp [decValue, List.foldl_append]

theorem decimalFuel_ne_nil (fuel n : Nat) : decimalFuel (fuel + 1) n ≠ [] := by
  unfold decimalFuel
  split <;> simp

theorem decValue_decimalFuel : ∀ (fuel n : Nat), n < fuel → decValue (decimalFuel fuel n) = n
  | 0, _, h => by omega
  | fuel + 1, n, h => by
    unfold decimalFuel
    split
    · rename_i hn
      simp [decValue, digitChar_toNat n hn]
    · rename_i hn
      rw [decValue_append_singleton, decValue_decimalFuel fuel (n / 10) (by omega),
        digitChar_toNat (n % 10) (Nat.mod_lt _ (by decide))]
      omega

theorem isDigitChar_of_mem_decimalFuel :
    ∀ (fuel n : Nat) (c : Char), c ∈ decimalFuel fuel n → isDigitChar c = true
  | 0, _, c, h => by simp [decimalFuel] at h
  | fuel + 1, n, c, h => by
    unfold decimalFuel at h
    split at h
    · rename_i hn
      simp at h
      subst h
      exact isDigitChar_digitChar n hn
    · simp at h
      rcases h with h | h
      · exact isDigitChar_of_mem_decimalFuel fuel (n / 10) c h
      · subst h
        exact isDigitChar_digitChar (n % 10) (Nat.mod_lt _ (by decide))

theorem number_ne_nil (n : Nat) : number n ≠ [] := decimalFuel_ne_nil n n

theorem decValue_number (n : Nat) : decValue (number n) = n :=
  decValue_decimalFuel (n + 1) n (by omega)

theorem isDigitChar_of_mem_number (n : Nat) (c : Char) (h : c ∈ number n) :
    isDigitChar c = true :=
  isDigitChar_of_mem_decimalFuel (n + 1) n c h

theorem decValue_replicate_zero_append (k : Nat) (s : QString) :
    decValue (List.replicate k '0' ++ s) = decValue s := by
  induction k with
  | zero => simp
  | succ k ih =>
    have h0 : ∀ t : QString, decValue ('0' :: t) = decValue t := by
      intro t
      simp [decValue]
    rw [List.replicate_succ, List.cons_append, h0, ih]

theorem decValue_padLeft_number (n : Nat) : decValue (padLeft 2 '0' (number n)) = n := by
  rw [padLeft, decValue_replicate_zero_append, decValue_number]

theorem isDigitChar_of_mem_padLeft_number (n : Nat) (c : Char)
    (h : c ∈ padLeft 2 '0' (number n)) : isDigitChar c = true := by
  rw [padLeft, List.mem_append] at h
  rcases h with h | h
  · rw [List.eq_of_mem_replicate h]
    rfl
  · exact isDigitChar_of_mem_number n c h

theorem padLeft_number_injective (i j : Nat)
    (h : padLeft 2 '0' (number i) = padLeft 2 '0' (number j)) : i = j := by
  have := congrArg decValue h
  rwa [decValue_padLeft_number, decValue_padLeft_number] at this

/-! ## Slugs -/

theorem mappingValue_eq_nil_of_not_known (code : QString) (h : code ∉ knownCodes) :
    mappingValue code = [] := by
  simp only [knownCodes, List.mem_cons, List.mem_singleton, not_or, List.not_mem_nil,
    or_false] at h
  obtain ⟨h1, h2, h3, h4, h5, h6, h7, h8, h9⟩ := h
  simp [mappingValue, h1, h2, h3, h4, h5, h6, h7, h8, h9]

theorem filterSlug_of_not_known (env : QtEnv) (code : QString) (h : code ∉ knownCodes) :
    filterSlug env code =
      (if ((replaceChar ' ' '_' (qSimplified env code)).filter
            (fun ch => isLetterOrNumber env ch && decide (ch.toNat < 128))).isEmpty
       then number (env.qHash code)
       else (replaceChar ' ' '_' (qSimplified env code)).filter
            (fun ch => isLetterOrNumber env ch && decide (ch.toNat < 128))) := by
  simp [filterSlug, mappingValue_eq_nil_of_not_known code h]

theorem isSlugChar_of_letterOrNumber (env : QtEnv) (c : Char)
    (h : (isLetterOrNumber env c && decide (c.toNat < 128)) = true) : isSlugChar c = true := by
  simp only [isLetterOrNumber, Bool.and_eq_true, Bool.or_eq_true, decide_eq_true_eq] at h
  simp only [isSlugChar, Bool.or_eq_true, Bool.and_eq_true, decide_eq_true_eq]
  omega

theorem isSlugChar_of_isDigitChar (c : Char) (h : isDigitChar c = true) :
    isSlugChar c = true := by
  simp only [isDigitChar, Bool.and_eq_true, decide_eq_true_eq] at h
  simp only [isSlugChar, Bool.or_eq_true, Bool.and_eq_true, decide_eq_true_eq]
  omega

theorem filterSlug_ne_nil (env : QtEnv) (code : QString) : filterSlug env code ≠ [] := by
  unfold filterSlug
  simp only
  split
  · rename_i h
    intro hnil
    simp [hnil] at h
  · split
    · exact number_ne_nil _
    · rename_i h
      intro hnil
      simp [hnil] at h

/-! ## Selections -/

theorem removeDuplicatesAux_eq (l : List QString) : ∀ seen : List QString,
    removeDuplicatesAux seen l =
      ((List.range l.length).filter
        (fun i => decide (l.getD i [] ∉ seen ∧ l.getD i [] ∉ l.take i))).map
        (fun i => l.getD i []) := by
  induction l with
  | nil => intro seen; simp [removeDuplicatesAux]
  | cons x xs ih =>
    intro seen
    rw [List.length_cons, List.range_succ_eq_map, List.filter_cons, List.filter_map]
    by_cases hx : x ∈ seen
    · simp only [removeDuplicatesAux, hx, if_true, ih seen]
      simp only [List.getD_cons_zero, hx, not_true_eq_false, false_and, decide_False,
        Bool.false_eq_true, if_false, List.map_map]
      congr 1
      apply List.filter_congr
      intro i _
      simp only [Function.comp, List.getD_cons_succ, List.take_succ_cons, List.mem_cons, not_or]
      congr 1
      apply propext
      constructor
      · rintro ⟨h1, h2⟩
        exact ⟨h1, fun h => h1 (h ▸ hx), h2⟩
      · rintro ⟨h1, _, h2⟩
        exact ⟨h1, h2⟩
    · simp only [removeDuplicatesAux, hx, if_false, ih (x :: seen)]
      simp only [List.getD_cons_zero, hx, not_false_eq_true, List.take_zero, List.not_mem_nil,
        and_self, decide_True, if_true, List.map_cons, List.map_map]
      congr 1
      congr 1
      apply List.filter_congr
      intro i _
      simp only [Function.comp, List.getD_cons_succ, List.take_succ_cons, List.mem_cons, not_or]
      congr 1
      apply propext
      constructor
      · rintro ⟨⟨h0, h1⟩, h2⟩
        exact ⟨h1, h0, h2⟩
      · rintro ⟨h1, h0, h2⟩
        exact ⟨⟨h0, h1⟩, h2⟩

theorem removeDuplicates_eq_firstOccurrences (l : List QString) :
    removeDuplicates l = firstOccurrences l := by
  rw [removeDuplicates, removeDuplicatesAux_eq, firstOccurrences]
  simp

theorem mem_removeDuplicatesAux (l : List QString) : ∀ (seen : List QString) (a : QString),
    a ∈ removeDuplicatesAux seen l ↔ a ∈ l ∧ a ∉ seen := by
  induction l with
  | nil => intro seen a; simp [removeDuplicatesAux]
  | cons x xs ih =>
    intro seen a
    by_cases hx : x ∈ seen
    · simp only [removeDuplicatesAux, hx, if_true, ih, List.mem_cons]
      constructor
      · rintro ⟨h1, h2⟩
        exact ⟨Or.inr h1, h2⟩
      · rintro ⟨h1 | h1, h2⟩
        · exact absurd (h1 ▸ hx) h2
        · exact ⟨h1, h2⟩
    · simp only [removeDuplicatesAux, hx, if_false, ih, List.mem_cons, not_or]
      constructor
      · rintro (h | ⟨h1, h2, h3⟩)
        · exact ⟨Or.inl h, h ▸ hx⟩
        · exact ⟨Or.inr h1, h3⟩
      · rintro ⟨h1 | h1, h2⟩
        · exact Or.inl h1
        · by_cases hax : a = x
          · exact Or.inl hax
          · exact Or.inr ⟨h1, hax, h2⟩

theorem nodup_removeDuplicatesAux (l : List QString) : ∀ seen : List QString,
    (removeDuplicatesAux seen l).Nodup := by
  induction l with
  | nil => intro seen; simp [removeDuplicatesAux]
  | cons x xs ih =>
    intro seen
    by_cases hx : x ∈ seen
    · simp only [removeDuplicatesAux, hx, if_true]
      exact ih seen
    · simp only [removeDuplicatesAux, hx, if_false, List.nodup_cons]
      refine ⟨?_, ih _⟩
      rw [mem_removeDuplicatesAux]
      simp

theorem mem_firstOccurrences (l : List QString) (a : QString) :
    a ∈ firstOccurrences l ↔ a ∈ l := by
  rw [← removeDuplicates_eq_firstOccurrences, removeDuplicates, mem_removeDuplicatesAux]
  simp

theorem nodup_firstOccurrences (l : List QString) : (firstOccurrences l).Nodup := by
  rw [← removeDuplicates_eq_firstOccurrences]
  exact nodup_removeDuplicatesAux l []

/-! ## File names -/

theorem imageJobsFrom_map_code (env : QtEnv) (K : FloatKernels) (src : QImage)
    (dir : QString) (l : List QString) : ∀ i : Nat,
    (imageJobsFrom env K src dir i l).map (fun j => j.code) = l := by
  induction l with
  | nil => intro i; rfl
  | cons c rest ih => intro i; simp [imageJobsFrom, ih]

theorem videoJobsFrom_map_code (env : QtEnv) (vp dir : QString) (l : List QString) :
    ∀ i : Nat, (videoJobsFrom env vp dir i l).map (fun j => j.code) = l := by
  induction l with
  | nil => intro i; rfl
  | cons c rest ih => intro i; simp [videoJobsFrom, ih]

theorem imageJobsFrom_fileName (env : QtEnv) (K : FloatKernels) (src : QImage)
    (dir : QString) (l : List QString) : ∀ (i k : Nat) (c : QString), l[k]? = some c →
    ((imageJobsFrom env K src dir i l).map (fun j => j.fileName))[k]? =
      some (exportFileName env.baseName (i + k) (filterSlug env c) (qs ".png")) := by
  induction l with
  | nil => intro i k c h; simp at h
  | cons x rest ih =>
    intro i k c h
    cases k with
    | zero =>
      simp only [List.getElem?_cons_zero, Option.some.injEq] at h
      subst h
      simp [imageJobsFrom, filterSlug_ne_nil]
    | succ k =>
      simp only [List.getElem?_cons_succ] at h
      have := ih (i + 1) k c h
      simp only [imageJobsFrom, List.map_cons, List.getElem?_cons_succ]
      rw [this]
      congr 2
      omega

theorem videoJobsFrom_fileName (env : QtEnv) (vp dir : QString) (l : List QString) :
    ∀ (i k : Nat) (c : QString), l[k]? = some c →
    ((videoJobsFrom env vp dir i l).map (fun j => j.fileName))[k]? =
      some (exportFileName env.baseName (i + k) (filterSlug env c) (qs ".mp4")) := by
  induction l with
  | nil => intro i k c h; simp at h
  | cons x rest ih =>
    intro i k c h
    cases k with
    | zero =>
      simp only [List.getElem?_cons_zero, Option.some.injEq] at h
      subst h
      simp [videoJobsFrom, filterSlug_ne_nil]
    | succ k =>
      simp only [List.getElem?_cons_succ] at h
      have := ih (i + 1) k c h
      simp only [videoJobsFrom, List.map_cons, List.getElem?_cons_succ]
      rw [this]
      congr 2
      omega

theorem imageJobsFrom_filePath (env : QtEnv) (K : FloatKernels) (src : QImage)
    (dir : QString) (l : List QString) : ∀ i : Nat,
    (imageJobsFrom env K src dir i l).map (fun j => j.filePath) =
      ((imageJobsFrom env K src dir i l).map (fun j => j.fileName)).map (dirFilePath dir) := by
  induction l with
  | nil => intro i; rfl
  | cons c rest ih => intro i; simp [imageJobsFrom, ih]

theorem videoJobsFrom_filePath (env : QtEnv) (vp dir : QString) (l : List QString) :
    ∀ i : Nat, (videoJobsFrom env vp dir i l).map (fun j => j.filePath) =
      ((videoJobsFrom env vp dir i l).map (fun j => j.fileName)).map (dirFilePath dir) := by
  induction l with
  | nil => intro i; rfl
  | cons c rest ih => intro i; simp [videoJobsFrom, ih]

/-- Two texts that agree after a digit prefix and an underscore have the same prefix. -/
theorem digits_prefix_unique : ∀ (p q r r' : QString),
    (∀ c ∈ p, isDigitChar c = true) → (∀ c ∈ q, isDigitChar c = true) →
    p ++ '_' :: r = q ++ '_' :: r' → p = q
  | [], [], _, _, _, _, _ => rfl
  | [], b :: q, r, r', _, hq, h => by
    simp only [List.nil_append, List.cons_append, List.cons.injEq] at h
    have := hq b (List.mem_cons_self _ _)
    rw [← h.1] at this
    exact absurd this (by decide)
  | a :: p, [], r, r', hp, _, h => by
    simp only [List.nil_append, List.cons_append, List.cons.injEq] at h
    have := hp a (List.mem_cons_self _ _)
    rw [h.1] at this
    exact absurd this (by decide)
  | a :: p, b :: q, r, r', hp, hq, h => by
    simp only [List.cons_append, List.cons.injEq] at h
    rw [h.1, digits_prefix_unique p q r r' (fun c hc => hp c (List.mem_cons_of_mem _ hc))
      (fun c hc => hq c (List.mem_cons_of_mem _ hc)) h.2]

theorem exportFileName_index_injective (base : QString) (i j : Nat)
    (n n' ext ext' : QString)
    (h : exportFileName base i n ext = exportFileName base j n' ext') : i = j := by
  simp only [exportFileName, qs, List.append_assoc] at h
  have h1 := List.append_cancel_left h
  have h2 : padLeft 2 '0' (number i) ++ '_' :: (n ++ ext) =
      padLeft 2 '0' (number j) ++ '_' :: (n' ++ ext') := by
    simpa using h1
  exact padLeft_number_injective i j
    (digits_prefix_unique _ _ _ _ (isDigitChar_of_mem_padLeft_number i)
      (isDigitChar_of_mem_padLeft_number j) h2)

theorem dirFilePath_injective (dir a b : QString) (h : dirFilePath dir a = dirFilePath dir b) :
    a = b := by
  unfold dirFilePath at h
  split at h
  · exact List.append_cancel_left h
  · rw [List.append_assoc, List.append_assoc] at h
    exact List.append_cancel_left (List.append_cancel_left h)

theorem nodup_of_indexed_names (names : List QString) (base : QString)
    (name : Nat → QString) (ext : QString)
    (h : ∀ k, k < names.length → names[k]? = some (exportFileName base k (name k) ext)) :
    names.Nodup := by
  rw [List.nodup_iff_getElem?_ne_getElem?]
  intro i j hij hj heq
  rw [h i (by omega), h j hj, Option.some.injEq] at heq
  have := exportFileName_index_injective _ _ _ _ _ _ _ heq
  omega

theorem imageJobsFrom_names_nodup (env : QtEnv) (K : FloatKernels) (src : QImage)
    (dir : QString) (l : List QString) :
    ((imageJobsFrom env K src dir 0 l).map (fun j => j.fileName)).Nodup := by
  have hlen : ((imageJobsFrom env K src dir 0 l).map (fun j => j.fileName)).length
      = l.length := by
    rw [List.length_map, ← List.length_map (imageJobsFrom env K src dir 0 l) (fun j => j.code),
      imageJobsFrom_map_code]
  apply nodup_of_indexed_names _ env.baseName (fun k => filterSlug env (l.getD k [])) (qs ".png")
  intro k hk
  rw [hlen] at hk
  have := imageJobsFrom_fileName env K src dir l 0 k (l.getD k [])
    (by rw [List.getD_eq_getElem?_getD, List.getElem?_eq_getElem hk]; rfl)
  simpa using this

theorem videoJobsFrom_names_nodup (env : QtEnv) (vp dir : QString) (l : List QString) :
    ((videoJobsFrom env vp dir 0 l).map (fun j => j.fileName)).Nodup := by
  have hlen : ((videoJobsFrom env vp dir 0 l).map (fun j => j.fileName)).length
      = l.length := by
    rw [List.length_map, ← List.length_map (videoJobsFrom env vp dir 0 l) (fun j => j.code),
      videoJobsFrom_map_code]
  apply nodup_of_indexed_names _ env.baseName (fun k => filterSlug env (l.getD k [])) (qs ".mp4")
  intro k hk
  rw [hlen] at hk
  have := videoJobsFrom_fileName env vp dir l 0 k (l.getD k [])
    (by rw [List.getD_eq_getElem?_getD, List.getElem?_eq_getElem hk]; rfl)
  simpa using this

theorem filterSlug_bw (env : QtEnv) : filterSlug env (qs "чб") = qs "bw" := by
  have h : mappingValue (qs "чб") = qs "bw" := by decide
  unfold filterSlug
  rw [h]
  rfl

theorem filterSlug_sepia (env : QtEnv) : filterSlug env (qs "сеп") = qs "sepia" := by
  have h : mappingValue (qs "сеп") = qs "sepia" := by decide
  unfold filterSlug
  rw [h]
  rfl

/-! ## Claims on the batch export -/

/-- C1: for a non-empty selection and a non-null source image `saveFilteredImages` creates
one job per distinct identifier, in the order of first occurrence, and job `k` is named
`<time stamp>_<k, at least two digits>_<filterSlug identifier>.png`; `saveFilteredVideos`
does the same with `.mp4` for an existing video path; the selection grayscale, sepia,
grayscale gives the two jobs `_00_bw` and `_01_sepia`. -/
theorem saveFiltered_one_job_per_identifier (env : QtEnv) (K : FloatKernels)
    (sourceImage : QImage) (videoPath : QString) (filters : List QString)
    (directory : QString) (hsel : filters ≠ []) :
    ((firstOccurrences filters).Nodup ∧ (∀ c, c ∈ firstOccurrences filters ↔ c ∈ filters))
    ∧ (sourceImage.isNull = false →
        (saveFilteredImages env K sourceImage filters directory).map (fun j => j.code)
          = firstOccurrences filters
        ∧ (∀ (k : Nat) (c : QString), (firstOccurrences filters)[k]? = some c →
            ((saveFilteredImages env K sourceImage filters directory).map
                (fun j => j.fileName))[k]?
              = some (env.baseName ++ qs "_" ++ padLeft 2 '0' (number k) ++ qs "_"
                  ++ filterSlug env c ++ qs ".png"))
        ∧ (saveFilteredImages env K sourceImage [qs "чб", qs "сеп", qs "чб"] directory).map
              (fun j => j.fileName)
            = [env.baseName ++ qs "_00_bw.png", env.baseName ++ qs "_01_sepia.png"])
    ∧ (videoPath ≠ [] → env.videoExists = true →
        (saveFilteredVideos env videoPath filters directory).map (fun j => j.code)
          = firstOccurrences filters
        ∧ (∀ (k : Nat) (c : QString), (firstOccurrences filters)[k]? = some c →
            ((saveFilteredVideos env videoPath filters directory).map
                (fun j => j.fileName))[k]?
              = some (env.baseName ++ qs "_" ++ padLeft 2 '0' (number k) ++ qs "_"
                  ++ filterSlug env c ++ qs ".mp4"))
        ∧ (saveFilteredVideos env videoPath [qs "чб", qs "сеп", qs "чб"] directory).map
              (fun j => j.fileName)
            = [env.baseName ++ qs "_00_bw.mp4", env.baseName ++ qs "_01_sepia.mp4"]) := by
  have hfo : firstOccurrences [qs "чб", qs "сеп", qs "чб"] = [qs "чб", qs "сеп"] := by decide
  refine ⟨⟨nodup_firstOccurrences filters, mem_firstOccurrences filters⟩, ?_, ?_⟩
  · intro hsrc
    have hI : ∀ fs : List QString, fs ≠ [] → saveFilteredImages env K sourceImage fs directory
        = imageJobsFrom env K sourceImage directory 0 (firstOccurrences fs) := by
      intro fs hfs
      simp [saveFilteredImages, hsrc, hfs, removeDuplicates_eq_firstOccurrences]
    refine ⟨?_, ?_, ?_⟩
    · rw [hI filters hsel, imageJobsFrom_map_code]
    · intro k c hk
      rw [hI filters hsel]
      have h1 := imageJobsFrom_fileName env K sourceImage directory _ 0 k c hk
      rw [Nat.zero_add] at h1
      exact h1
    · rw [hI _ (by simp), hfo]
      simp only [imageJobsFrom, filterSlug_bw, filterSlug_sepia]
      simp [exportFileName, qs, padLeft, number, decimalFuel, digitChar]
  · intro hvp hve
    have hV : ∀ fs : List QString, fs ≠ [] → saveFilteredVideos env videoPath fs directory
        = videoJobsFrom env videoPath directory 0 (firstOccurrences fs) := by
      intro fs hfs
      simp [saveFilteredVideos, hvp, hve, hfs, removeDuplicates_eq_firstOccurrences]
    refine ⟨?_, ?_, ?_⟩
    · rw [hV filters hsel, videoJobsFrom_map_code]
    · intro k c hk
      rw [hV filters hsel]
      have h2 := videoJobsFrom_fileName env videoPath directory _ 0 k c hk
      rw [Nat.zero_add] at h2
      exact h2
    · rw [hV _ (by simp), hfo]
      simp only [videoJobsFrom, filterSlug_bw, filterSlug_sepia]
      simp [exportFileName, qs, padLeft, number, decimalFuel, digitChar]

/-- Witness of C1 on the sample inputs with the selection grayscale, sepia, grayscale. -/
theorem saveFiltered_one_job_per_identifier_witness :
    [qs "чб", qs "сеп", qs "чб"] ≠ [] ∧ sampleImage.isNull = false
    ∧ qs "/tmp/in.mp4" ≠ [] ∧ sampleEnv.videoExists = true
    ∧ (saveFilteredImages sampleEnv sampleKernels sampleImage
        [qs "чб", qs "сеп", qs "чб"] (qs "/tmp/out")).map (fun j => j.fileName)
      = [qs "20240131_235959_00_bw.png", qs "20240131_235959_01_sepia.png"]
    ∧ (saveFilteredVideos sampleEnv (qs "/tmp/in.mp4")
        [qs "чб", qs "сеп", qs "чб"] (qs "/tmp/out")).map (fun j => j.fileName)
      = [qs "20240131_235959_00_bw.mp4", qs "20240131_235959_01_sepia.mp4"] :=
  ⟨by decide, by decide, by decide, by decide,
    ((saveFiltered_one_job_per_identifier sampleEnv sampleKernels sampleImage
      (qs "/tmp/in.mp4") [qs "чб", qs "сеп", qs "чб"] (qs "/tmp/out")
      (by decide)).2.1 (by decide)).2.2,
    ((saveFiltered_one_job_per_identifier sampleEnv sampleKernels sampleImage
      (qs "/tmp/in.mp4") [qs "чб", qs "сеп", qs "чб"] (qs "/tmp/out")
      (by decide)).2.2 (by decide) (by decide)).2.2⟩

/-- C2: within one batch the destination file names, and with them the destination paths,
of different jobs are different, whatever the slugs and however long the selection. -/
theorem saveFiltered_destinations_unique (env : QtEnv) (K : FloatKernels)
    (sourceImage : QImage) (videoPath : QString) (filters : List QString)
    (directory : QString) :
    ((saveFilteredImages env K sourceImage filters directory).map (fun j => j.fileName)).Nodup
    ∧ ((saveFilteredImages env K sourceImage filters directory).map (fun j => j.filePath)).Nodup
    ∧ ((saveFilteredVideos env videoPath filters directory).map (fun j => j.fileName)).Nodup
    ∧ ((saveFilteredVideos env videoPath filters directory).map (fun j => j.filePath)).Nodup
    := by
  have hinj : Function.Injective (dirFilePath directory) :=
    fun a b h => dirFilePath_injective directory a b h
  have hI : ((saveFilteredImages env K sourceImage filters directory).map
      (fun j => j.fileName)).Nodup := by
    unfold saveFilteredImages
    split
    · simp
    · split
      · simp
      · exact imageJobsFrom_names_nodup _ _ _ _ _
  have hV : ((saveFilteredVideos env videoPath filters directory).map
      (fun j => j.fileName)).Nodup := by
    unfold saveFilteredVideos
    split
    · simp
    · split
      · simp
      · exact videoJobsFrom_names_nodup _ _ _ _
  refine ⟨hI, ?_, hV, ?_⟩
  · have : (saveFilteredImages env K sourceImage filters directory).map (fun j => j.filePath)
        = ((saveFilteredImages env K sourceImage filters directory).map
            (fun j => j.fileName)).map (dirFilePath directory) := by
      unfold saveFilteredImages
      split
      · simp
      · split
        · simp
        · exact imageJobsFrom_filePath _ _ _ _ _ _
    rw [this]
    exact hI.map hinj
  · have : (saveFilteredVideos env videoPath filters directory).map (fun j => j.filePath)
        = ((saveFilteredVideos env videoPath filters directory).map
            (fun j => j.fileName)).map (dirFilePath directory) := by
      unfold saveFilteredVideos
      split
      · simp
      · split
        · simp
        · exact videoJobsFrom_filePath _ _ _ _ _
    rw [this]
    exact hV.map hinj

/-! ## Claims on the completion handler -/

theorem runHandlers_concat (n : Int) (ws : List WatcherResult) (w : WatcherResult) :
    runHandlers n (ws ++ [w]) = onFinished n (runHandlers n ws) w := by
  simp [runHandlers, List.foldl_append]

theorem failedCount_concat (ws : List WatcherResult) (w : WatcherResult) :
    failedCount (ws ++ [w]) = failedCount ws + (if w.isCanceled || !w.result then 1 else 0) := by
  simp [failedCount, List.countP_append, List.countP_cons]

theorem runHandlers_counters (n : Int) (ws : List WatcherResult) :
    (runHandlers n ws).completed = ws.length ∧ (runHandlers n ws).failures = failedCount ws := by
  induction ws using List.reverseRecOn with
  | nil => simp [runHandlers, failedCount]
  | append_singleton ws w ih =>
    rw [runHandlers_concat, failedCount_concat]
    obtain ⟨h1, h2⟩ := ih
    have hc : (onFinished n (runHandlers n ws) w).completed = (runHandlers n ws).completed + 1 := by
      unfold onFinished
      simp only
      split <;> rfl
    have hf : (onFinished n (runHandlers n ws) w).failures
        = (if (!(!w.isCanceled && w.result)) = true then (runHandlers n ws).failures + 1
            else (runHandlers n ws).failures) := by
      unfold onFinished
      simp only
      split <;> rfl
    refine ⟨by rw [hc, h1]; simp, ?_⟩
    rw [hf, h2]
    cases w.isCanceled <;> cases w.result <;> simp

theorem runHandlers_silent (n : Int) (ws : List WatcherResult) (h : (ws.length : Int) < n) :
    (runHandlers n ws).reported = [] := by
  induction ws using List.reverseRecOn with
  | nil => simp [runHandlers]
  | append_singleton ws w ih =>
    rw [runHandlers_concat]
    have hlen : ((ws ++ [w]).length : Int) = ws.length + 1 := by simp
    have ih' := ih (by omega)
    have hc := (runHandlers_counters n ws).1
    unfold onFinished
    simp only
    rw [if_neg (by omega)]
    exact ih'

theorem runHandlers_report (ws : List WatcherResult) (w : WatcherResult) :
    (runHandlers ((ws ++ [w]).length : Nat) (ws ++ [w])).reported =
      [if failedCount (ws ++ [w]) = 0 then BatchOutcome.allSucceeded
       else if failedCount (ws ++ [w]) = (ws ++ [w]).length then BatchOutcome.allFailed
       else BatchOutcome.partiallySaved] := by
  have hs := runHandlers_silent ((ws ++ [w]).length : Nat) ws (by simp)
  have hc := runHandlers_counters ((ws ++ [w]).length : Nat) (ws ++ [w])
  rw [runHandlers_concat] at hc ⊢
  obtain ⟨hc1, hc2⟩ := hc
  have hcompl := (runHandlers_counters ((ws ++ [w]).length : Nat) ws).1
  unfold onFinished at hc2 ⊢
  simp only at hc2 ⊢
  rw [if_pos (by rw [hcompl]; simp)] at hc2 ⊢
  simp only at hc2 ⊢
  rw [hs, hc2]
  simp only [List.nil_append, Nat.cast_eq_zero, Nat.cast_inj]

theorem runHandlers_report_of_ne_nil (ws : List WatcherResult) (h : ws ≠ []) :
    (runHandlers (ws.length : Nat) ws).reported =
      [if failedCount ws = 0 then BatchOutcome.allSucceeded
       else if failedCount ws = ws.length then BatchOutcome.allFailed
       else BatchOutcome.partiallySaved] := by
  rcases List.eq_nil_or_concat ws with h0 | ⟨init, last, h1⟩
  · exact absurd h0 h
  · rw [List.concat_eq_append] at h1
    subst h1
    exact runHandlers_report init last

/-- C3: for a batch of `n ≥ 1` results arriving in any order the handler reports nothing
before the `n`-th completion and exactly one outcome at it; the outcome is all-succeeded
iff no job failed, all-failed iff all `n` failed, partial iff the number of failures is
strictly between; the failure counter is the number of results that are false or
cancelled; one success and one failure give partial. -/
theorem completion_handler_classifies (ws : List WatcherResult) (hn : 1 ≤ ws.length) :
    (∀ k, k < ws.length → (runHandlers (ws.length : Nat) (ws.take k)).reported = [])
    ∧ (∃ o, (runHandlers (ws.length : Nat) ws).reported = [o]
        ∧ (o = BatchOutcome.allSucceeded ↔ failedCount ws = 0)
        ∧ (o = BatchOutcome.allFailed ↔ failedCount ws = ws.length)
        ∧ (o = BatchOutcome.partiallySaved ↔ 0 < failedCount ws ∧ failedCount ws < ws.length))
    ∧ (runHandlers (ws.length : Nat) ws).failures = failedCount ws
    ∧ (runHandlers (ws.length : Nat) ws).completed = ws.length
    ∧ (∀ ws' : List WatcherResult, ws'.Perm ws →
        (runHandlers (ws.length : Nat) ws').reported = (runHandlers (ws.length : Nat) ws).reported)
    ∧ ((∀ w ∈ ws, (w.isCanceled || !w.result) = true) →
        (runHandlers (ws.length : Nat) ws).reported = [BatchOutcome.allFailed])
    ∧ (runHandlers 2 [{ isCanceled := false, result := true },
          { isCanceled := false, result := false }]).reported = [BatchOutcome.partiallySaved]
      := by
  have hne : ws ≠ [] := by
    intro h
    rw [h] at hn
    simp at hn
  have hle : failedCount ws ≤ ws.length := List.countP_le_length _
  have hrep := runHandlers_report_of_ne_nil ws hne
  refine ⟨?_, ?_, (runHandlers_counters _ ws).2, (runHandlers_counters _ ws).1, ?_, ?_, ?_⟩
  · intro k hk
    apply runHandlers_silent
    rw [List.length_take]
    have : min k ws.length = k := by omega
    rw [this]
    exact_mod_cast hk
  · refine ⟨_, hrep, ?_, ?_, ?_⟩
    · by_cases h0 : failedCount ws = 0
      · simp [h0]
      · by_cases h1 : failedCount ws = ws.length <;> simp [h0, h1]
    · by_cases h0 : failedCount ws = 0
      · simp only [h0, if_true]
        constructor
        · intro h
          cases h
        · intro h
          omega
      · by_cases h1 : failedCount ws = ws.length
        · rw [if_neg h0, if_pos h1]
          simp [h1]
        · rw [if_neg h0, if_neg h1]
          simp [h1]
    · by_cases h0 : failedCount ws = 0
      · simp [h0]
      · by_cases h1 : failedCount ws = ws.length
        · rw [if_neg h0, if_pos h1]
          constructor
          · intro h
            cases h
          · intro h
            omega
        · rw [if_neg h0, if_neg h1]
          simp only [true_iff]
          omega
  · intro ws' hp
    have hne' : ws' ≠ [] := by
      intro h
      rw [h] at hp
      exact hne hp.symm.eq_nil
    have hl : ws'.length = ws.length := hp.length_eq
    have hf : failedCount ws' = failedCount ws := hp.countP_eq _
    have hrep' := runHandlers_report_of_ne_nil ws' hne'
    rw [hl, hf] at hrep'
    rw [hrep', hrep]
  · intro hall
    have hf : failedCount ws = ws.length := by
      unfold failedCount
      rw [List.countP_eq_length]
      exact hall
    rw [hrep, hf]
    have : ws.length ≠ 0 := by omega
    simp [this]
  · decide

/-- Witness of C3: two jobs, the first saved, the second cancelled. -/
theorem completion_handler_classifies_witness :
    1 ≤ [WatcherResult.mk false true, WatcherResult.mk true true].length
    ∧ (runHandlers 2 [WatcherResult.mk false true, WatcherResult.mk true true]).failures = 1 :=
  ⟨by decide, (completion_handler_classifies
    [WatcherResult.mk false true, WatcherResult.mk true true] (by decide)).2.2.1⟩

/-! ## Pixels -/

theorem xor_byte (p m s : Nat) :
    ((p ^^^ m) / 2 ^ s) % 2 ^ 8 = ((p / 2 ^ s) % 2 ^ 8) ^^^ ((m / 2 ^ s) % 2 ^ 8) := by
  apply Nat.eq_of_testBit_eq
  intro i
  simp only [← Nat.shiftRight_eq_div_pow, Nat.testBit_mod_two_pow, Nat.testBit_shiftRight,
    Nat.testBit_xor]
  cases decide (i < 8) <;> simp

theorem xor_255 (x : Nat) (h : x < 256) : x ^^^ 255 = 255 - x := by
  interval_cases x <;> rfl

theorem qRed_invert (p : QRgb) : qRed (p ^^^ 0x00ffffff) = 255 - qRed p := by
  have h := xor_byte p 0x00ffffff 16
  have hm : (0x00ffffff / 2 ^ 16) % 2 ^ 8 = 255 := by norm_num
  rw [hm] at h
  have hlt : (p / 2 ^ 16) % 2 ^ 8 < 256 := Nat.mod_lt _ (by norm_num)
  rw [xor_255 _ hlt] at h
  simpa [qRed] using h

theorem qGreen_invert (p : QRgb) : qGreen (p ^^^ 0x00ffffff) = 255 - qGreen p := by
  have h := xor_byte p 0x00ffffff 8
  have hm : (0x00ffffff / 2 ^ 8) % 2 ^ 8 = 255 := by norm_num
  rw [hm] at h
  have hlt : (p / 2 ^ 8) % 2 ^ 8 < 256 := Nat.mod_lt _ (by norm_num)
  rw [xor_255 _ hlt] at h
  simpa [qGreen] using h

theorem qBlue_invert (p : QRgb) : qBlue (p ^^^ 0x00ffffff) = 255 - qBlue p := by
  have h := xor_byte p 0x00ffffff 0
  have hm : (0x00ffffff / 2 ^ 0) % 2 ^ 8 = 255 := by norm_num
  rw [hm] at h
  have hlt : (p / 2 ^ 0) % 2 ^ 8 < 256 := Nat.mod_lt _ (by norm_num)
  rw [xor_255 _ hlt] at h
  simpa [qBlue] using h

theorem qAlpha_invert (p : QRgb) : qAlpha (p ^^^ 0x00ffffff) = qAlpha p := by
  unfold qAlpha
  apply Nat.eq_of_testBit_eq
  intro i
  have e1 : (4294967296 : Nat) = 2 ^ 32 := by norm_num
  have e2 : (16777216 : Nat) = 2 ^ 24 := by norm_num
  have e3 : (0x00ffffff : Nat) = 2 ^ 24 - 1 := by norm_num
  rw [e1, e2, e3]
  simp only [← Nat.shiftRight_eq_div_pow, Nat.testBit_mod_two_pow, Nat.testBit_shiftRight,
    Nat.testBit_xor, Nat.testBit_two_pow_sub_one]
  have : decide (24 + i < 24) = false := by simp
  rw [this]
  simp

theorem invert_invert (p : QRgb) : (p ^^^ 0x00ffffff) ^^^ 0x00ffffff = p := by
  rw [Nat.xor_assoc, Nat.xor_self, Nat.xor_zero]

theorem qRed_qRgba (r g b a : Int) : qRed (qRgba r g b a) = (r % 256).toNat := by
  unfold qRed qRgba
  omega

theorem qGreen_qRgba (r g b a : Int) : qGreen (qRgba r g b a) = (g % 256).toNat := by
  unfold qGreen qRgba
  omega

theorem qBlue_qRgba (r g b a : Int) : qBlue (qRgba r g b a) = (b % 256).toNat := by
  unfold qBlue qRgba
  omega

theorem qAlpha_qRgba (r g b a : Int) : qAlpha (qRgba r g b a) = (a % 256).toNat := by
  unfold qAlpha qRgba
  omega

/-! ## Claims on the negative and the solarize kernels -/

theorem applyFilter_negative (K : FloatKernels) (x : QImage) (hfmt : x.format = .ARGB32)
    (hnull : x.isNull = false) :
    applyFilter K x (qs "нег") =
      { width := x.width, height := x.height, format := .ARGB32,
        data := x.data.map (fun p => p ^^^ 0x00ffffff) } := by
  have h1 : qs "нег" ≠ qs "чб" := by decide
  simp only [applyFilter, hnull, Bool.false_eq_true, if_false, h1, if_true]
  simp only [QImage.convertToFormat, hfmt, QImage.invertPixels]

/-- C4: the negative filter is self-inverse on every ARGB raster, and one application
turns each colour channel `c` into `255 - c` and keeps alpha. -/
theorem negative_self_inverse (K : FloatKernels) (x : QImage) (hfmt : x.format = .ARGB32) :
    applyFilter K (applyFilter K x (qs "нег")) (qs "нег") = x
    ∧ (x.isNull = false →
        (applyFilter K x (qs "нег")).width = x.width
        ∧ (applyFilter K x (qs "нег")).height = x.height
        ∧ (applyFilter K x (qs "нег")).data.length = x.data.length
        ∧ ∀ (i : Nat) (p : QRgb), x.data[i]? = some p →
            ∃ p', (applyFilter K x (qs "нег")).data[i]? = some p'
              ∧ qRed p' = 255 - qRed p ∧ qGreen p' = 255 - qGreen p
              ∧ qBlue p' = 255 - qBlue p ∧ qAlpha p' = qAlpha p) := by
  cases hnull : x.isNull with
  | true =>
    have h : applyFilter K x (qs "нег") = x := by simp [applyFilter, hnull]
    rw [h, h]
    exact ⟨rfl, fun h => absurd h (by simp)⟩
  | false =>
    have h := applyFilter_negative K x hfmt hnull
    constructor
    · rw [h, applyFilter_negative K _ rfl (by simpa [QImage.isNull] using hnull)]
      cases x with
      | mk w hh f d =>
        simp only at hfmt
        subst hfmt
        simp only [List.map_map, QImage.mk.injEq, true_and]
        have : ((fun p => p ^^^ 0x00ffffff) ∘ fun p => p ^^^ 0x00ffffff) = (id : Nat → Nat) := by
          funext p
          exact invert_invert p
        rw [this, List.map_id]
    · intro _
      rw [h]
      refine ⟨rfl, rfl, by simp, ?_⟩
      intro i p hp
      refine ⟨p ^^^ 0x00ffffff, by simp [hp], qRed_invert p, qGreen_invert p, qBlue_invert p,
        qAlpha_invert p⟩

/-- Witness of C4 on the sample raster. -/
theorem negative_self_inverse_witness :
    sampleImage.format = Format.ARGB32
    ∧ applyFilter sampleKernels (applyFilter sampleKernels sampleImage (qs "нег")) (qs "нег")
        = sampleImage :=
  ⟨rfl, (negative_self_inverse sampleKernels sampleImage rfl).1⟩

/-- C5: `hardSolarizeInvert` leaves every pixel whose luma `qGray` is at most the threshold
as it is in the source, for every raster and every threshold. -/
theorem solarize_keeps_pixels_at_or_below_threshold (src : QImage) (threshold : Int)
    (i : Nat) (p : QRgb) (hp : (src.convertToFormat .ARGB32).data[i]? = some p)
    (hl : (qGray p : Int) ≤ threshold) :
    (hardSolarizeInvert src threshold).data[i]? = some p
    ∧ (hardSolarizeInvert src threshold).width = src.width
    ∧ (hardSolarizeInvert src threshold).height = src.height := by
  refine ⟨?_, ?_, ?_⟩
  · simp only [hardSolarizeInvert, List.getElem?_map, hp, Option.map_some', Option.some.injEq]
    unfold hardSolarizeInvertPixel
    simp only
    rw [if_neg (by omega)]
  · unfold hardSolarizeInvert QImage.convertToFormat
    cases src.format <;> rfl
  · unfold hardSolarizeInvert QImage.convertToFormat
    cases src.format <;> rfl

/-- Witness of C5: threshold 128 on the half bright, half dark sample raster; the dark
pixel at position 2 has luma 32. -/
theorem solarize_keeps_pixels_at_or_below_threshold_witness :
    (sampleImage.convertToFormat .ARGB32).data[2]? = some 0xff202020
    ∧ (qGray 0xff202020 : Int) ≤ 128
    ∧ (hardSolarizeInvert sampleImage 128).data[2]? = some 0xff202020 :=
  ⟨by decide, by decide,
    (solarize_keeps_pixels_at_or_below_threshold sampleImage 128 2 0xff202020
      (by decide) (by decide)).1⟩

/-- C6 (what the code does): above the threshold each colour channel `c` becomes
`255 - 3 * c` reduced to its low eight bits by `qRgba`, not clamped to `0..255`: the pixel
`(200, 200, 200)` at threshold 128 becomes `(167, 167, 167)`, not `(0, 0, 0)`. -/
theorem solarize_bright_channels_wrap :
    (hardSolarizeInvert { width := 1, height := 1, format := .ARGB32, data := [0xffc8c8c8] }
        128).data = [0xffa7a7a7]
    ∧ (hardSolarizeInvert sampleImage 128).data
        = [0xffa7a7a7, 0xffa7a7a7, 0xff202020, 0xff202020]
    ∧ qRed 0xffc8c8c8 = 200 ∧ qGreen 0xffc8c8c8 = 200 ∧ qBlue 0xffc8c8c8 = 200
    ∧ qGray 0xffc8c8c8 = 200
    ∧ qRed 0xffa7a7a7 = 167 ∧ qGreen 0xffa7a7a7 = 167 ∧ qBlue 0xffa7a7a7 = 167
    ∧ (∀ (threshold : Int) (p : QRgb), qRed (hardSolarizeInvertPixel threshold p)
        = if (qGray p : Int) > threshold then ((255 - 3 * (qRed p : Int)) % 256).toNat
          else qRed p) := by
  refine ⟨by decide, by decide, by decide, by decide, by decide, by decide, by decide,
    by decide, by decide, ?_⟩
  intro threshold p
  unfold hardSolarizeInvertPixel
  simp only
  split
  · rw [qRed_qRgba]
  · rfl

/-! ## The posterize table -/

theorem cRound_natCast_div (n d : Nat) (hd : 0 < d) :
    cRound ((n : ℚ) / (d : ℚ)) = (((2 * n + d) / (2 * d) : Nat) : Int) := by
  have hd' : (d : ℚ) ≠ 0 := by exact_mod_cast hd.ne'
  have hnn : (0 : ℚ) ≤ (n : ℚ) / (d : ℚ) := by positivity
  have heq : (n : ℚ) / (d : ℚ) + 1 / 2 = ((2 * n + d : Nat) : ℚ) / ((2 * d : Nat) : ℚ) := by
    push_cast
    field_simp
    ring
  unfold cRound
  rw [if_pos hnn, heq]
  exact Rat.floor_natCast_div_natCast _ _

theorem idx_eq (s v : Nat) :
    cRound (((v : ℚ) * 1 * ((s : Int) : ℚ)) / 255) = (((2 * (v * s) + 255) / 510 : Nat) : Int) := by
  have h := cRound_natCast_div (v * s) 255 (by norm_num)
  have e : ((v : ℚ) * 1 * ((s : Int) : ℚ)) / 255 = ((v * s : Nat) : ℚ) / ((255 : Nat) : ℚ) := by
    push_cast
    ring
  rw [e, h]

theorem quant_eq (s j : Nat) (hs : 0 < s) :
    cRound ((((j : Int) : ℚ) * 255) / ((s : Int) : ℚ))
      = (((510 * j + s) / (2 * s) : Nat) : Int) := by
  have h := cRound_natCast_div (j * 255) s hs
  have e : (((j : Int) : ℚ) * 255) / ((s : Int) : ℚ) = ((j * 255 : Nat) : ℚ) / (s : ℚ) := by
    push_cast
    ring
  rw [e, h]
  congr 2
  ring

theorem idx_le (s v : Nat) (hv : v ≤ 255) : (2 * (v * s) + 255) / 510 ≤ s := by
  have h : v * s ≤ 255 * s := Nat.mul_le_mul_right s hv
  omega

theorem quant_le (s j : Nat) (hs : 0 < s) (hj : j ≤ s) : (510 * j + s) / (2 * s) ≤ 255 := by
  have h : (510 * j + s) / (2 * s) < 256 := by
    rw [Nat.div_lt_iff_lt_mul (by omega)]
    omega
  omega

theorem lutEntry_eq (s v : Nat) (hs : 0 < s) (hv : v ≤ 255) :
    lutEntry (s : Int) v
      = (((510 * ((2 * (v * s) + 255) / 510) + s) / (2 * s) : Nat) : Int) := by
  unfold lutEntry
  simp only
  rw [idx_eq, quant_eq _ _ hs]
  have h := quant_le s _ hs (idx_le s v hv)
  generalize (510 * ((2 * (v * s) + 255) / 510) + s) / (2 * s) = q at h
  unfold clampInt
  rw [if_neg (by omega), if_neg (by omega)]

theorem quant_strictMono (s j j' : Nat) (hs : 0 < s) (hs' : s ≤ 255) (hj : j < j') :
    (510 * j + s) / (2 * s) < (510 * j' + s) / (2 * s) := by
  have h1 : (510 * j + s + 2 * s) / (2 * s) = (510 * j + s) / (2 * s) + 1 :=
    Nat.add_div_right _ (by omega)
  have h2 : (510 * j + s + 2 * s) / (2 * s) ≤ (510 * j' + s) / (2 * s) :=
    Nat.div_le_div_right (by omega)
  omega

theorem idx_quant (s j : Nat) (hs : 0 < s) (hs' : s ≤ 255) :
    (2 * ((510 * j + s) / (2 * s) * s) + 255) / 510 = j := by
  have h1 : 2 * s * ((510 * j + s) / (2 * s)) ≤ 510 * j + s := Nat.mul_div_le _ _
  have h2 : 510 * j + s < 2 * s * ((510 * j + s) / (2 * s) + 1) := by
    have := Nat.lt_mul_div_succ (510 * j + s) (show 0 < 2 * s by omega)
    simpa [Nat.mul_add] using this
  generalize (510 * j + s) / (2 * s) = q at h1 h2
  have e1 : 2 * s * q = 2 * (q * s) := by ring
  have e2 : 2 * s * (q + 1) = 2 * (q * s) + 2 * s := by ring
  rw [e1] at h1
  rw [e2] at h2
  rcases Nat.lt_or_ge s 255 with hlt | hge
  · omega
  · have hs255 : s = 255 := by omega
    subst hs255
    omega

theorem clampInt_range (v : Int) : 0 ≤ clampInt v ∧ clampInt v ≤ 255 := by
  unfold clampInt
  split
  · omega
  · split <;> omega

theorem lutEntry_range (steps : Int) (v : Nat) :
    0 ≤ lutEntry steps v ∧ lutEntry steps v ≤ 255 := clampInt_range _

theorem buildLUT_getD (steps : Int) (v : Nat) (hv : v < 256) :
    (buildLUT steps).getD v 0 = lutEntry steps v := by
  simp [buildLUT, List.getD_eq_getElem?_getD, List.getElem?_map, List.getElem?_range hv]

theorem qRed_lt (p : QRgb) : qRed p < 256 := Nat.mod_lt _ (by norm_num)

theorem qGreen_lt (p : QRgb) : qGreen p < 256 := Nat.mod_lt _ (by norm_num)

theorem qBlue_lt (p : QRgb) : qBlue p < 256 := Nat.mod_lt _ (by norm_num)

theorem qAlpha_lt (p : QRgb) : qAlpha p < 256 := by
  unfold qAlpha
  omega

theorem lut_image_card (s : Nat) (hs : 0 < s) (hs' : s ≤ 255) :
    ((Finset.range 256).image (lutEntry (s : Int))).card = s + 1 := by
  have himg : (Finset.range 256).image (lutEntry (s : Int))
      = (Finset.range (s + 1)).image
          (fun j : Nat => (((510 * j + s) / (2 * s) : Nat) : Int)) := by
    ext x
    simp only [Finset.mem_image, Finset.mem_range]
    constructor
    · rintro ⟨v, hv, rfl⟩
      refine ⟨(2 * (v * s) + 255) / 510, ?_, ?_⟩
      · have := idx_le s v (by omega)
        omega
      · rw [lutEntry_eq s v hs (by omega)]
    · rintro ⟨j, hj, rfl⟩
      refine ⟨(510 * j + s) / (2 * s), ?_, ?_⟩
      · have := quant_le s j hs (by omega)
        omega
      · rw [lutEntry_eq s _ hs (quant_le s j hs (by omega)), idx_quant s j hs hs']
  rw [himg, Finset.card_image_of_injOn, Finset.card_range]
  intro j _ j' _ h
  simp only [Nat.cast_inj] at h
  rcases Nat.lt_trichotomy j j' with hlt | heq | hgt
  · exact absurd h (Nat.ne_of_lt (quant_strictMono s j j' hs hs' hlt))
  · exact heq
  · exact absurd h.symm (Nat.ne_of_lt (quant_strictMono s j' j hs hs' hgt))

theorem posterizeEffect_plain_data (src : QImage) (levels : Int) (h2 : 2 ≤ levels) :
    (posterizeEffect src levels false).data
      = (src.convertToFormat .ARGB32).data.map (fun p =>
          qRgba ((buildLUT (levels - 1)).getD (qRed p) 0)
            ((buildLUT (levels - 1)).getD (qGreen p) 0)
            ((buildLUT (levels - 1)).getD (qBlue p) 0) (qAlpha p)) := by
  have hlev : (if levels < 2 then (2 : Int) else levels) = levels := by
    rw [if_neg (by omega)]
  simp only [posterizeEffect, Bool.not_false, if_true, hlev, quantizeLUTValue]

/-! ## Claims on posterize -/

/-- C7: for `2 ≤ levels ≤ 256` the table `lut[v] = round(round(v·steps/255)·255/steps)`,
`steps = levels - 1`, takes exactly `levels` distinct values over `v` in `0..255`, with
`lut[0] = 0` and `lut[255] = 255`, and every R, G, B value of `posterizeEffect` without
dithering is the table applied to the source channel (alpha is kept). -/
theorem posterize_table_has_levels_values (levels : Int) (h2 : 2 ≤ levels)
    (h256 : levels ≤ 256) :
    (∀ v, v < 256 → (buildLUT (levels - 1)).getD v 0
        = cRound ((((cRound (((v : ℚ) * 1 * ((levels - 1 : Int) : ℚ)) / 255) : Int) : ℚ) * 255)
            / ((levels - 1 : Int) : ℚ)))
    ∧ (((Finset.range 256).image (fun v => (buildLUT (levels - 1)).getD v 0)).card : Int)
        = levels
    ∧ (buildLUT (levels - 1)).getD 0 0 = 0
    ∧ (buildLUT (levels - 1)).getD 255 0 = 255
    ∧ (∀ (src : QImage) (i : Nat) (p : QRgb),
        (src.convertToFormat .ARGB32).data[i]? = some p →
        ∃ p', (posterizeEffect src levels false).data[i]? = some p'
          ∧ (qRed p' : Int) = (buildLUT (levels - 1)).getD (qRed p) 0
          ∧ (qGreen p' : Int) = (buildLUT (levels - 1)).getD (qGreen p) 0
          ∧ (qBlue p' : Int) = (buildLUT (levels - 1)).getD (qBlue p) 0
          ∧ qAlpha p' = qAlpha p) := by
  obtain ⟨s, hs⟩ := Int.eq_ofNat_of_zero_le (show 0 ≤ levels - 1 by omega)
  have hs0 : 0 < s := by omega
  have hs1 : s ≤ 255 := by omega
  rw [hs]
  refine ⟨?_, ?_, ?_, ?_, ?_⟩
  · intro v hv
    rw [buildLUT_getD _ v hv]
    have h := lutEntry_eq s v hs0 (by omega)
    rw [h, idx_eq, quant_eq _ _ hs0]
  · have himg : (Finset.range 256).image (fun v => (buildLUT (s : Int)).getD v 0)
        = (Finset.range 256).image (lutEntry (s : Int)) := by
      apply Finset.image_congr
      intro v hv
      exact buildLUT_getD _ v (by simpa using hv)
    rw [himg, lut_image_card s hs0 hs1]
    push_cast
    omega
  · rw [buildLUT_getD _ 0 (by norm_num), lutEntry_eq s 0 hs0 (by norm_num)]
    have : (510 * ((2 * (0 * s) + 255) / 510) + s) / (2 * s) = 0 := by
      rw [Nat.div_eq_zero_iff (by omega)]
      omega
    rw [this]
    rfl
  · rw [buildLUT_getD _ 255 (by norm_num), lutEntry_eq s 255 hs0 (by norm_num)]
    have h1 : (2 * (255 * s) + 255) / 510 = s := by omega
    rw [h1]
    have h2 : (510 * s + s) / (2 * s) = 255 := by
      have := quant_le s s hs0 (le_refl s)
      have hge : 255 ≤ (510 * s + s) / (2 * s) := by
        rw [Nat.le_div_iff_mul_le (by omega)]
        omega
      omega
    rw [h2]
    rfl
  · intro src i p hp
    refine ⟨qRgba ((buildLUT (s : Int)).getD (qRed p) 0) ((buildLUT (s : Int)).getD (qGreen p) 0)
      ((buildLUT (s : Int)).getD (qBlue p) 0) (qAlpha p), ?_, ?_, ?_, ?_, ?_⟩
    · rw [posterizeEffect_plain_data src levels h2, hs, List.getElem?_map, hp]
      rfl
    · have hr := lutEntry_range (s : Int) (qRed p)
      rw [qRed_qRgba, buildLUT_getD _ _ (qRed_lt p)]
      omega
    · have hr := lutEntry_range (s : Int) (qGreen p)
      rw [qGreen_qRgba, buildLUT_getD _ _ (qGreen_lt p)]
      omega
    · have hr := lutEntry_range (s : Int) (qBlue p)
      rw [qBlue_qRgba, buildLUT_getD _ _ (qBlue_lt p)]
      omega
    · have := qAlpha_lt p
      rw [qAlpha_qRgba]
      omega

theorem foldl_invariant {σ α : Type} (P : σ → Prop) (f : σ → α → σ)
    (hf : ∀ st a, P st → P (f st a)) : ∀ (l : List α) (init : σ), P init → P (l.foldl f init)
  | [], _, h => h
  | a :: l, init, h => foldl_invariant P f hf l (f init a) (hf init a h)

theorem foldl_length_add {σ α : Type} (len : σ → Nat) (f : σ → α → σ) (k : Nat)
    (hf : ∀ st a, len (f st a) = len st + k) :
    ∀ (l : List α) (init : σ), len (l.foldl f init) = len init + l.length * k
  | [], _ => by simp
  | a :: l, init => by
    rw [List.foldl_cons, foldl_length_add len f k hf l (f init a), hf, List.length_cons]
    ring

theorem quantizeChannel_in_table (steps : Int) (v : ℚ) :
    ∃ i, i < 256 ∧ quantizeChannel v (buildLUT steps) = lutEntry steps i := by
  have h := clampInt_range (cRound v)
  refine ⟨(clampInt (cRound v)).toNat, by omega, ?_⟩
  unfold quantizeChannel
  exact buildLUT_getD steps _ (by omega)

theorem ditherStep_dst (w h : Nat) (lut : List Int) (st : List RGBf × List QRgb) (y x : Nat) :
    ∃ c : RGBf, (ditherStep w h lut st y x).2
      = st.2 ++ [qRgba (quantizeChannel c.r lut) (quantizeChannel c.g lut)
          (quantizeChannel c.b lut) c.a] :=
  ⟨_, rfl⟩

theorem ditherLoop_length (w h : Nat) (lut : List Int) (buf : List RGBf) :
    (ditherLoop w h lut buf).2.length = w * h := by
  unfold ditherLoop
  have hinner : ∀ (st : List RGBf × List QRgb) (y : Nat),
      ((List.range w).foldl (fun st x => ditherStep w h lut st y x) st).2.length
        = st.2.length + w := by
    intro st y
    have := foldl_length_add (fun st : List RGBf × List QRgb => st.2.length)
      (fun st x => ditherStep w h lut st y x) 1
      (by
        intro st a
        obtain ⟨c, hc⟩ := ditherStep_dst w h lut st y a
        simp only [hc, List.length_append, List.length_singleton])
      (List.range w) st
    simpa using this
  have := foldl_length_add (fun st : List RGBf × List QRgb => st.2.length)
    (fun st y => (List.range w).foldl (fun st x => ditherStep w h lut st y x) st) w hinner
    (List.range h) (buf, [])
  simp only [List.length_nil, List.length_range, Nat.zero_add] at this
  rw [this, Nat.mul_comm]

theorem inTable_of_quantized (steps : Int) (c : RGBf) :
    InTable steps (qRgba (quantizeChannel c.r (buildLUT steps))
      (quantizeChannel c.g (buildLUT steps)) (quantizeChannel c.b (buildLUT steps)) c.a) := by
  obtain ⟨vr, hvr, hr⟩ := quantizeChannel_in_table steps c.r
  obtain ⟨vg, hvg, hg⟩ := quantizeChannel_in_table steps c.g
  obtain ⟨vb, hvb, hb⟩ := quantizeChannel_in_table steps c.b
  have h1 := lutEntry_range steps vr
  have h2 := lutEntry_range steps vg
  have h3 := lutEntry_range steps vb
  refine ⟨⟨vr, hvr, ?_⟩, ⟨vg, hvg, ?_⟩, ⟨vb, hvb, ?_⟩⟩
  · rw [qRed_qRgba, hr, buildLUT_getD _ _ hvr]
    omega
  · rw [qGreen_qRgba, hg, buildLUT_getD _ _ hvg]
    omega
  · rw [qBlue_qRgba, hb, buildLUT_getD _ _ hvb]
    omega

theorem ditherLoop_inTable (w h : Nat) (steps : Int) (buf : List RGBf) :
    ∀ p ∈ (ditherLoop w h (buildLUT steps) buf).2, InTable steps p := by
  unfold ditherLoop
  have hstep : ∀ (y : Nat) (st : List RGBf × List QRgb) (x : Nat),
      (∀ p ∈ st.2, InTable steps p) →
      ∀ p ∈ (ditherStep w h (buildLUT steps) st y x).2, InTable steps p := by
    intro y st x hst p hp
    obtain ⟨c, hc⟩ := ditherStep_dst w h (buildLUT steps) st y x
    rw [hc, List.mem_append, List.mem_singleton] at hp
    rcases hp with hp | hp
    · exact hst p hp
    · rw [hp]
      exact inTable_of_quantized steps c
  apply foldl_invariant (fun st : List RGBf × List QRgb => ∀ p ∈ st.2, InTable steps p)
  · intro st y hst
    exact foldl_invariant (fun st : List RGBf × List QRgb => ∀ p ∈ st.2, InTable steps p)
      _ (hstep y) (List.range w) st hst
  · intro p hp
    simp at hp

/-- Witness of C7: the default twelve levels. -/
theorem posterize_table_has_levels_values_witness :
    (2 : Int) ≤ 12 ∧ (12 : Int) ≤ 256 ∧ (buildLUT (12 - 1)).getD 255 0 = 255 :=
  ⟨by decide, by decide,
    (posterize_table_has_levels_values 12 (by decide) (by decide)).2.2.2.1⟩

theorem convertToFormat_width (img : QImage) (f : Format) :
    (img.convertToFormat f).width = img.width := by
  unfold QImage.convertToFormat
  cases img.format <;> cases f <;> rfl

theorem convertToFormat_height (img : QImage) (f : Format) :
    (img.convertToFormat f).height = img.height := by
  unfold QImage.convertToFormat
  cases img.format <;> cases f <;> rfl

/-- C8: with dithering `posterizeEffect` writes one pixel per position, and every colour
channel it writes lies in `0..255` and is a value of the same table as without dithering,
whatever the buffer holds: the buffered value is rounded and clamped to `0..255` before
it indexes the table. -/
theorem posterize_dither_values_in_table (src : QImage) (levels : Int) (h2 : 2 ≤ levels)
    (h256 : levels ≤ 256) :
    (posterizeEffect src levels true).data.length = src.width * src.height
    ∧ (∀ p ∈ (posterizeEffect src levels true).data,
        InTable (levels - 1) p ∧ qRed p ≤ 255 ∧ qGreen p ≤ 255 ∧ qBlue p ≤ 255)
    ∧ (∀ p ∈ (posterizeEffect src levels false).data, InTable (levels - 1) p)
    ∧ (∀ v : ℚ, 0 ≤ clampInt (cRound v) ∧ clampInt (cRound v) ≤ 255
        ∧ (clampInt (cRound v)).toNat < (buildLUT (levels - 1)).length) := by
  have hlev : (if levels < 2 then (2 : Int) else levels) = levels := by
    rw [if_neg (by omega)]
  refine ⟨?_, ?_, ?_, ?_⟩
  · simp only [posterizeEffect, hlev, Bool.not_true, Bool.false_eq_true, if_false]
    rw [ditherLoop_length, convertToFormat_width, convertToFormat_height]
  · intro p hp
    simp only [posterizeEffect, hlev, Bool.not_true, Bool.false_eq_true, if_false] at hp
    refine ⟨ditherLoop_inTable _ _ _ _ p hp, ?_, ?_, ?_⟩
    · have := qRed_lt p
      omega
    · have := qGreen_lt p
      omega
    · have := qBlue_lt p
      omega
  · intro p hp
    rw [posterizeEffect_plain_data src levels h2, List.mem_map] at hp
    obtain ⟨q, _, rfl⟩ := hp
    have h1 := lutEntry_range (levels - 1) (qRed q)
    have h2 := lutEntry_range (levels - 1) (qGreen q)
    have h3 := lutEntry_range (levels - 1) (qBlue q)
    refine ⟨⟨qRed q, qRed_lt q, ?_⟩, ⟨qGreen q, qGreen_lt q, ?_⟩, ⟨qBlue q, qBlue_lt q, ?_⟩⟩
    · rw [qRed_qRgba, buildLUT_getD _ _ (qRed_lt q)]
      omega
    · rw [qGreen_qRgba, buildLUT_getD _ _ (qGreen_lt q)]
      omega
    · rw [qBlue_qRgba, buildLUT_getD _ _ (qBlue_lt q)]
      omega
  · intro v
    have h := clampInt_range (cRound v)
    refine ⟨h.1, h.2, ?_⟩
    simp only [buildLUT, List.length_map, List.length_range]
    omega

/-- Witness of C8: twelve levels on the sample raster. -/
theorem posterize_dither_values_in_table_witness :
    (2 : Int) ≤ 12 ∧ (12 : Int) ≤ 256
    ∧ (posterizeEffect sampleImage 12 true).data.length
        = sampleImage.width * sampleImage.height :=
  ⟨by decide, by decide,
    (posterize_dither_values_in_table sampleImage 12 (by decide) (by decide)).1⟩

/-! ## Claims on the slug of an unknown identifier -/

/-- C9: for every identifier outside the nine known ones (the empty text and texts without
any ASCII letter or digit included) `filterSlug` returns a non-empty text made of ASCII
letters, ASCII digits and underscores only. -/
theorem filterSlug_unknown_is_safe (env : QtEnv) (code : QString) (h : code ∉ knownCodes) :
    filterSlug env code ≠ [] ∧ ∀ c ∈ filterSlug env code, isSlugChar c = true := by
  refine ⟨filterSlug_ne_nil env code, ?_⟩
  intro c hc
  rw [filterSlug_of_not_known env code h] at hc
  split at hc
  · exact isSlugChar_of_isDigitChar c (isDigitChar_of_mem_number _ c hc)
  · exact isSlugChar_of_letterOrNumber env c (List.mem_filter.mp hc).2

/-- Witness of C9: a text of two spaces gets the decimal text of its hash. -/
theorem filterSlug_unknown_is_safe_witness :
    qs "  " ∉ knownCodes
    ∧ filterSlug sampleEnv (qs "  ") ≠ []
    ∧ ∀ c ∈ filterSlug sampleEnv (qs "  "), isSlugChar c = true :=
  ⟨by decide, filterSlug_unknown_is_safe sampleEnv (qs "  ") (by decide)⟩

/-- C10 (what the code does): the underscores that `replace` puts in place of the spaces
are removed again by the filter that follows, as `_` is no letter and no digit; the
identifier `my  filter` gets the slug `myfilter`, not `my_filter`. -/
theorem filterSlug_drops_underscores :
    ∀ env : QtEnv,
      replaceChar ' ' '_' (qSimplified env (qs "my  filter")) = qs "my_filter"
      ∧ filterSlug env (qs "my  filter") = qs "myfilter"
      ∧ filterSlug env (qs "my  filter") ≠ qs "my_filter" := by
  intro env
  have h1 : replaceChar ' ' '_' (qSimplified env (qs "my  filter")) = qs "my_filter" := rfl
  have h2 : filterSlug env (qs "my  filter") = qs "myfilter" := rfl
  refine ⟨h1, h2, ?_⟩
  rw [h2]
  decide


/-! ## Claims on validation, the directory and the video job -/

theorem removeDuplicates_ne_nil (l : List QString) (h : l ≠ []) : removeDuplicates l ≠ [] := by
  cases l with
  | nil => exact absurd rfl h
  | cons x xs => simp [removeDuplicates, removeDuplicatesAux]

theorem imageJobsFrom_eq_nil (env : QtEnv) (K : FloatKernels) (src : QImage) (dir : QString)
    (i : Nat) (l : List QString) : imageJobsFrom env K src dir i l = [] ↔ l = [] := by
  cases l with
  | nil => simp [imageJobsFrom]
  | cons x xs => simp [imageJobsFrom]

theorem videoJobsFrom_eq_nil (env : QtEnv) (vp dir : QString) (i : Nat) (l : List QString) :
    videoJobsFrom env vp dir i l = [] ↔ l = [] := by
  cases l with
  | nil => simp [videoJobsFrom]
  | cons x xs => simp [videoJobsFrom]

/-- C11: `saveFilteredImages` returns no job exactly when the source image is null or the
selection is empty, and `saveFilteredVideos` returns no job exactly when the video path is
empty, the file does not exist or the selection is empty; so for a valid source and a
non-empty selection the list is non-empty. -/
theorem saveFiltered_empty_iff_nothing_to_do (env : QtEnv) (K : FloatKernels)
    (sourceImage : QImage) (videoPath : QString) (filters : List QString)
    (directory : QString) :
    (saveFilteredImages env K sourceImage filters directory = []
        ↔ (sourceImage.isNull = true ∨ filters = []))
    ∧ (saveFilteredVideos env videoPath filters directory = []
        ↔ (videoPath = [] ∨ env.videoExists = false ∨ filters = [])) := by
  constructor
  · unfold saveFilteredImages
    cases hn : sourceImage.isNull with
    | true => simp
    | false =>
      cases filters with
      | nil => simp
      | cons x xs =>
        simp only [Bool.false_eq_true, if_false, List.isEmpty_cons, imageJobsFrom_eq_nil,
          false_or]
        constructor
        · intro h
          exact absurd h (removeDuplicates_ne_nil _ (by simp))
        · intro h
          exact absurd h (by simp)
  · unfold saveFilteredVideos
    cases videoPath with
    | nil => simp
    | cons c cs =>
      cases hv : env.videoExists with
      | false => simp
      | true =>
        cases filters with
        | nil => simp
        | cons x xs =>
          simp only [List.isEmpty_cons, Bool.not_true, Bool.or_self, Bool.false_eq_true,
            if_false, videoJobsFrom_eq_nil]
          constructor
          · intro h
            exact absurd h (removeDuplicates_ne_nil _ (by simp))
          · intro h
            simp at h

theorem filterSlug_congr (e e' : QtEnv) (h1 : e.qHash = e'.qHash)
    (h2 : e.isSpaceHelper = e'.isSpaceHelper)
    (h3 : e.isLetterOrNumberHelper = e'.isLetterOrNumberHelper) (c : QString) :
    filterSlug e c = filterSlug e' c := by
  have hsp : isSpace e = isSpace e' := by
    funext ch
    simp only [isSpace, h2]
  have hln : isLetterOrNumber e = isLetterOrNumber e' := by
    funext ch
    simp only [isLetterOrNumber, h3]
  simp only [filterSlug, qSimplified, hsp, hln, h1]

theorem imageJobsFrom_congr (e e' : QtEnv) (K : FloatKernels) (src : QImage) (dir : QString)
    (h1 : e.qHash = e'.qHash) (h2 : e.isSpaceHelper = e'.isSpaceHelper)
    (h3 : e.isLetterOrNumberHelper = e'.isLetterOrNumberHelper)
    (h4 : e.baseName = e'.baseName) (l : List QString) : ∀ i : Nat,
    imageJobsFrom e K src dir i l = imageJobsFrom e' K src dir i l := by
  induction l with
  | nil => intro i; rfl
  | cons c rest ih =>
    intro i
    simp only [imageJobsFrom, filterSlug_congr e e' h1 h2 h3 c, h4, ih]

theorem videoJobsFrom_congr (e e' : QtEnv) (vp dir : QString)
    (h1 : e.qHash = e'.qHash) (h2 : e.isSpaceHelper = e'.isSpaceHelper)
    (h3 : e.isLetterOrNumberHelper = e'.isLetterOrNumberHelper)
    (h4 : e.baseName = e'.baseName) (h5 : e.ffmpegPath = e'.ffmpegPath)
    (l : List QString) : ∀ i : Nat,
    videoJobsFrom e vp dir i l = videoJobsFrom e' vp dir i l := by
  induction l with
  | nil => intro i; rfl
  | cons c rest ih =>
    intro i
    simp only [videoJobsFrom, filterSlug_congr e e' h1 h2 h3 c, h4, h5, ih]

/-- C12 (as stated, refuted): with the destination directory missing and `mkpath` failing,
both export functions still submit a job for the selection grayscale. -/
theorem saveFiltered_submits_without_directory :
    noDirectoryEnv.dirExists = false ∧ noDirectoryEnv.mkpathOk = false
    ∧ (saveFilteredImages noDirectoryEnv sampleKernels sampleImage [qs "чб"]
        (qs "/missing")).map (fun j => j.filePath)
      = [qs "/missing/20240131_235959_00_bw.png"]
    ∧ (saveFilteredVideos noDirectoryEnv (qs "/tmp/in.mp4") [qs "чб"]
        (qs "/missing")).map (fun j => j.filePath)
      = [qs "/missing/20240131_235959_00_bw.mp4"] := by
  refine ⟨rfl, rfl, ?_, ?_⟩ <;> decide

/-- C12 (amended): whether the destination directory exists and whatever `mkpath` answers,
the export functions return the same jobs, and for a valid source and a non-empty
selection they return at least one: a directory that cannot be created does not abort the
batch. -/
theorem saveFiltered_ignores_mkpath_answer (env : QtEnv) (K : FloatKernels)
    (sourceImage : QImage) (videoPath : QString) (filters : List QString)
    (directory : QString) (dirExists mkpathOk : Bool) :
    saveFilteredImages { env with dirExists := dirExists, mkpathOk := mkpathOk } K sourceImage
        filters directory
      = saveFilteredImages env K sourceImage filters directory
    ∧ saveFilteredVideos { env with dirExists := dirExists, mkpathOk := mkpathOk } videoPath
        filters directory
      = saveFilteredVideos env videoPath filters directory
    ∧ (saveFilteredImages { env with dirExists := false, mkpathOk := false } K sourceImage
        filters directory = [] ↔ (sourceImage.isNull = true ∨ filters = []))
    ∧ (saveFilteredVideos { env with dirExists := false, mkpathOk := false } videoPath
        filters directory = [] ↔ (videoPath = [] ∨ env.videoExists = false ∨ filters = []))
    := by
  refine ⟨?_, ?_, ?_, ?_⟩
  · have h := imageJobsFrom_congr { env with dirExists := dirExists, mkpathOk := mkpathOk }
      env K sourceImage directory rfl rfl rfl rfl
    simp only [saveFilteredImages, h]
  · have h := videoJobsFrom_congr { env with dirExists := dirExists, mkpathOk := mkpathOk }
      env videoPath directory rfl rfl rfl rfl rfl
    simp only [saveFilteredVideos, h]
  · exact (saveFiltered_empty_iff_nothing_to_do _ K sourceImage videoPath filters directory).1
  · exact (saveFiltered_empty_iff_nothing_to_do
      { env with dirExists := false, mkpathOk := false } K sourceImage videoPath filters
      directory).2

theorem exportFileName_ne_nil (base : QString) (i : Nat) (n : QString) :
    exportFileName base i n (qs ".mp4") ≠ [] := by
  simp [exportFileName, qs]

theorem dirFilePath_ne_nil (dir name : QString) (h : name ≠ []) : dirFilePath dir name ≠ [] := by
  unfold dirFilePath
  split <;> simp [h]

theorem videoJobsFrom_filePath_ne_nil (env : QtEnv) (vp dir : QString) (l : List QString) :
    ∀ (i : Nat) (job : VideoJob), job ∈ videoJobsFrom env vp dir i l →
      job.filePath ≠ [] ∧ job.videoPath = vp ∧ job.ffmpegPath = env.ffmpegPath := by
  induction l with
  | nil => intro i job h; simp [videoJobsFrom] at h
  | cons c rest ih =>
    intro i job h
    simp only [videoJobsFrom, List.mem_cons] at h
    rcases h with h | h
    · subst h
      exact ⟨dirFilePath_ne_nil _ _ (exportFileName_ne_nil _ _ _), rfl, rfl⟩
    · exact ih (i + 1) job h

theorem mem_saveFilteredVideos (env : QtEnv) (vp dir : QString) (filters : List QString)
    (job : VideoJob) (h : job ∈ saveFilteredVideos env vp filters dir) :
    job.filePath ≠ [] ∧ job.videoPath = vp ∧ job.ffmpegPath = env.ffmpegPath := by
  unfold saveFilteredVideos at h
  split at h
  · simp at h
  · split at h
    · simp at h
    · exact videoJobsFrom_filePath_ne_nil env vp dir _ 0 job h

theorem ffmpegFilterForCode_of_not_known (code : QString) (h : code ∉ knownCodes) :
    ffmpegFilterForCode code = [] := by
  simp only [knownCodes, List.mem_cons, List.mem_singleton, not_or, List.not_mem_nil,
    or_false] at h
  obtain ⟨h1, h2, h3, h4, h5, h6, h7, h8, h9⟩ := h
  simp [ffmpegFilterForCode, h2, h3, h4, h5, h6, h7, h8, h9]

/-- C13: a video job of `saveFilteredVideos` fails, without copying and without starting
the encoder, when a file at its destination cannot be removed; otherwise, when no encoder
was found or the filter expression of its identifier is empty (the no-op identifier and
every unknown one), its result is the success of copying the source to the destination;
otherwise the encoder is started with the fixed argument list and the job succeeds iff the
process started, finished, exited with status 0 and the destination exists afterwards. -/
theorem video_job_result (env : QtEnv) (videoPath directory : QString)
    (filters : List QString) (job : VideoJob) (ans : JobAnswers)
    (hjob : job ∈ saveFilteredVideos env videoPath filters directory) :
    (ans.targetExists = true ∧ ans.removeOk = false →
        runVideoJob ans job = (false, [JobAction.remove job.filePath]))
    ∧ (¬ (ans.targetExists = true ∧ ans.removeOk = false) →
        (env.ffmpegPath = [] ∨ ffmpegFilterForCode job.code = [] →
          (runVideoJob ans job).1 = ans.copyOk
          ∧ (runVideoJob ans job).2
            = (if ans.targetExists then [JobAction.remove job.filePath] else [])
              ++ [JobAction.copy videoPath job.filePath])
        ∧ (¬ (env.ffmpegPath = [] ∨ ffmpegFilterForCode job.code = []) →
          (runVideoJob ans job).2
            = (if ans.targetExists then [JobAction.remove job.filePath] else [])
              ++ [JobAction.startProcess env.ffmpegPath
                  [qs "-y", qs "-i", videoPath, qs "-vf", ffmpegFilterForCode job.code,
                   qs "-c:v", qs "libx264", qs "-preset", qs "veryfast", qs "-crf", qs "22",
                   qs "-c:a", qs "copy", job.filePath]]
          ∧ ((runVideoJob ans job).1 = true
              ↔ (ans.started = true ∧ ans.finished = true ∧ ans.exitCode = 0
                  ∧ ans.existsAfter = true))))
    ∧ ffmpegFilterForCode (qs "бф") = []
    ∧ (∀ code, code ∉ knownCodes → ffmpegFilterForCode code = [])
    ∧ (∀ code, code ∈ knownCodes → code ≠ qs "бф" → ffmpegFilterForCode code ≠ []) := by
  obtain ⟨hfp, hvp, hff⟩ := mem_saveFilteredVideos env videoPath directory filters job hjob
  have hfp' : job.filePath.isEmpty = false := by
    cases h : job.filePath with
    | nil => exact absurd h hfp
    | cons a t => rfl
  refine ⟨?_, ?_, by decide, ffmpegFilterForCode_of_not_known, ?_⟩
  · rintro ⟨h1, h2⟩
    simp [runVideoJob, hfp', h1, h2]
  · intro hclean
    have hc : (ans.targetExists && !ans.removeOk) = false := by
      cases h1 : ans.targetExists <;> cases h2 : ans.removeOk <;> simp_all
    constructor
    · intro hcopy
      have hcond : (job.ffmpegPath.isEmpty || (ffmpegFilterForCode job.code).isEmpty) = true := by
        rw [hff]
        rcases hcopy with h | h <;> simp [h]
      simp only [runVideoJob, hfp', hc, hcond, Bool.false_eq_true, if_false, if_true, hvp]
      cases ans.copyOk <;> simp
    · intro hno
      have hcond : (job.ffmpegPath.isEmpty || (ffmpegFilterForCode job.code).isEmpty) = false := by
        rw [hff]
        simp only [not_or] at hno
        cases h1 : env.ffmpegPath with
        | nil => exact absurd h1 hno.1
        | cons a t =>
          cases h2 : ffmpegFilterForCode job.code with
          | nil => exact absurd h2 hno.2
          | cons b u => rfl
      simp only [runVideoJob, hfp', hc, hcond, Bool.false_eq_true, if_false, hvp, hff,
        ffmpegArguments]
      cases ans.started <;> cases ans.finished <;> cases ans.existsAfter <;>
        by_cases he : ans.exitCode = 0 <;> simp [he, hno]
  · intro code hk hne
    simp only [knownCodes, List.mem_cons, List.mem_singleton, List.not_mem_nil, or_false] at hk
    rcases hk with h | h | h | h | h | h | h | h | h
    · exact absurd h hne
    all_goals (subst h; decide)

/-- Witness of C13: the grayscale job of a batch whose encoder exits with status 0 and leaves
the destination file succeeds. -/
theorem video_job_result_witness :
    ({ code := qs "чб", fileName := qs "20240131_235959_00_bw.mp4",
       filePath := qs "/tmp/out/20240131_235959_00_bw.mp4", videoPath := qs "/tmp/in.mp4",
       ffmpegPath := qs "/usr/bin/ffmpeg" } : VideoJob)
      ∈ saveFilteredVideos sampleEnv (qs "/tmp/in.mp4") [qs "чб"] (qs "/tmp/out")
    ∧ (runVideoJob
        { targetExists := false, removeOk := true, copyOk := true, started := true,
          finished := true, exitCode := 0, existsAfter := true }
        { code := qs "чб", fileName := qs "20240131_235959_00_bw.mp4",
          filePath := qs "/tmp/out/20240131_235959_00_bw.mp4", videoPath := qs "/tmp/in.mp4",
          ffmpegPath := qs "/usr/bin/ffmpeg" }).1 = true :=
  ⟨by decide,
    ((((video_job_result sampleEnv (qs "/tmp/in.mp4") (qs "/tmp/out") [qs "чб"]
      { code := qs "чб", fileName := qs "20240131_235959_00_bw.mp4",
        filePath := qs "/tmp/out/20240131_235959_00_bw.mp4", videoPath := qs "/tmp/in.mp4",
        ffmpegPath := qs "/usr/bin/ffmpeg" }
      { targetExists := false, removeOk := true, copyOk := true, started := true,
        finished := true, exitCode := 0, existsAfter := true } (by decide)).2.1
      (by decide)).2 (by decide)).2).mpr ⟨rfl, rfl, rfl, rfl⟩⟩

/-! ## Rounding -/

theorem rat_floor_le (x : ℚ) : ((x.floor : Int) : ℚ) ≤ x := Int.floor_le x

theorem rat_lt_floor_add_one (x : ℚ) : x < ((x.floor : Int) : ℚ) + 1 := Int.lt_floor_add_one x

theorem rat_floor_eq (x : ℚ) (n : Int) (h1 : (n : ℚ) ≤ x) (h2 : x < (n : ℚ) + 1) :
    x.floor = n := Int.floor_eq_iff.mpr ⟨h1, h2⟩

theorem roundHalfEven_err (x : ℚ) : |((roundHalfEven x : Int) : ℚ) - x| ≤ 1 / 2 := by
  have h1 := rat_floor_le x
  have h2 := rat_lt_floor_add_one x
  unfold roundHalfEven
  simp only
  rw [abs_le]
  split
  · constructor <;> linarith
  · split
    · push_cast
      constructor <;> linarith
    · split
      · constructor <;> linarith
      · push_cast
        constructor <;> linarith

theorem roundToPrecision_err (prec : Nat) (x : ℚ) :
    |roundToPrecision prec x - x| ≤ |x| / 2 ^ prec := by
  unfold roundToPrecision
  split
  · rename_i h0
    simp [h0]
  · rename_i h0
    simp only
    have hpos : 0 < |x| := abs_pos.mpr h0
    have hle : (2 : ℚ) ^ (Int.log 2 |x|) ≤ |x| := by
      have := Int.zpow_log_le_self (b := 2) (r := |x|) (by norm_num) hpos
      simpa using this
    set e : Int := Int.log 2 |x| with he
    have hulp : (0 : ℚ) < (2 : ℚ) ^ (e - (prec : Int) + 1) := by positivity
    set ulp : ℚ := (2 : ℚ) ^ (e - (prec : Int) + 1) with hu
    have herr := roundHalfEven_err (x / ulp)
    have hx : x = x / ulp * ulp := by field_simp
    have key : |((roundHalfEven (x / ulp) : Int) : ℚ) * ulp - x|
        = |((roundHalfEven (x / ulp) : Int) : ℚ) - x / ulp| * ulp := by
      rw [← abs_of_pos hulp, ← abs_mul, abs_of_pos hulp, sub_mul, ← hx]
    rw [key]
    have hhalf : ulp / 2 = (2 : ℚ) ^ e / 2 ^ prec := by
      rw [hu, zpow_add₀ (by norm_num), zpow_sub₀ (by norm_num)]
      simp only [zpow_natCast, zpow_one]
      field_simp
      ring
    calc |((roundHalfEven (x / ulp) : Int) : ℚ) - x / ulp| * ulp
        ≤ 1 / 2 * ulp := by
          exact mul_le_mul_of_nonneg_right herr hulp.le
      _ = (2 : ℚ) ^ e / 2 ^ prec := by rw [← hhalf]; ring
      _ ≤ |x| / 2 ^ prec := by
          apply div_le_div_of_nonneg_right hle
          positivity

theorem fl32_err (x : ℚ) : |fl32 x - x| ≤ |x| / 16777216 := by
  have := roundToPrecision_err 24 x
  norm_num at this
  exact this

theorem fl64_err (x : ℚ) : |fl64 x - x| ≤ |x| / 9007199254740992 := by
  have := roundToPrecision_err 53 x
  norm_num at this
  exact this

theorem cRound_eq_of_abs_lt (x : ℚ) (n : Int) (h : |x - n| < 1 / 2) : cRound x = n := by
  rw [abs_lt] at h
  unfold cRound
  split
  · exact rat_floor_eq _ _ (by linarith) (by linarith)
  · have : (-x + 1 / 2).floor = -n := rat_floor_eq _ _ (by push_cast; linarith)
      (by push_cast; linarith)
    rw [this]
    ring

theorem cRound_err (x : ℚ) : |((cRound x : Int) : ℚ) - x| ≤ 1 / 2 := by
  unfold cRound
  rw [abs_le]
  split
  · have h1 := rat_floor_le (x + 1 / 2)
    have h2 := rat_lt_floor_add_one (x + 1 / 2)
    constructor <;> linarith
  · have h1 := rat_floor_le (-x + 1 / 2)
    have h2 := rat_lt_floor_add_one (-x + 1 / 2)
    push_cast
    constructor <;> linarith

theorem cTrunc_of_nonneg (x : ℚ) (h : 0 ≤ x) : cTrunc x = x.floor := by
  unfold cTrunc
  rw [if_pos h]

/-! ## Error bounds for the sepia sums -/

theorem fl64_nonneg (x : ℚ) (h : 0 ≤ x) : 0 ≤ fl64 x := by
  have he := fl64_err x
  rw [abs_of_nonneg h, abs_le] at he
  have : x / 9007199254740992 ≤ x := by
    apply div_le_self h
    norm_num
  linarith [he.1]

theorem fl64_close (x y d m : ℚ) (hxy : |x - y| ≤ d) (hm : |x| ≤ m) :
    |fl64 x - y| ≤ d + m / 9007199254740992 := by
  have he := fl64_err x
  have h1 : |x| / 9007199254740992 ≤ m / 9007199254740992 :=
    div_le_div_of_nonneg_right hm (by norm_num)
  have h2 : |fl64 x - y| ≤ |fl64 x - x| + |x - y| := by
    have := abs_add (fl64 x - x) (x - y)
    simpa using this
  linarith

theorem sepia_term (c x : ℚ) (hc0 : 0 ≤ c) (hc1 : c ≤ 1) (hx0 : 0 ≤ x) (hx1 : x ≤ 255) :
    0 ≤ fl64 (fl64 c * x) ∧ |fl64 (fl64 c * x) - c * x| ≤ 1 / 10000000000 := by
  have hcc := fl64_err c
  rw [abs_of_nonneg hc0] at hcc
  have hcn := fl64_nonneg c hc0
  have hcb : |fl64 c - c| ≤ 1 / 9007199254740992 := by
    have : c / 9007199254740992 ≤ 1 / 9007199254740992 :=
      div_le_div_of_nonneg_right hc1 (by norm_num)
    linarith
  have hp : |fl64 c * x - c * x| ≤ 255 / 9007199254740992 := by
    have e : fl64 c * x - c * x = (fl64 c - c) * x := by ring
    rw [e, abs_mul, abs_of_nonneg hx0]
    calc |fl64 c - c| * x ≤ 1 / 9007199254740992 * 255 :=
          mul_le_mul hcb hx1 hx0 (by norm_num)
      _ = 255 / 9007199254740992 := by ring
  have hcx : c * x ≤ 255 := by
    calc c * x ≤ 1 * 255 := mul_le_mul hc1 hx1 hx0 (by norm_num)
      _ = 255 := by ring
  have hcx0 : 0 ≤ c * x := mul_nonneg hc0 hx0
  have hpn : 0 ≤ fl64 c * x := mul_nonneg hcn hx0
  have hpm : |fl64 c * x| ≤ 256 := by
    rw [abs_of_nonneg hpn]
    rw [abs_le] at hp
    have : (255 : ℚ) / 9007199254740992 ≤ 1 := by norm_num
    linarith [hp.2]
  have h := fl64_close (fl64 c * x) (c * x) _ _ hp hpm
  refine ⟨fl64_nonneg _ hpn, le_trans h (by norm_num)⟩

theorem sepia_sum (c1 c2 c3 r g b : ℚ) (h1 : 0 ≤ c1 ∧ c1 ≤ 1) (h2 : 0 ≤ c2 ∧ c2 ≤ 1)
    (h3 : 0 ≤ c3 ∧ c3 ≤ 1) (hr : 0 ≤ r ∧ r ≤ 255) (hg : 0 ≤ g ∧ g ≤ 255)
    (hb : 0 ≤ b ∧ b ≤ 255) :
    0 ≤ fl64 (fl64 (fl64 (fl64 c1 * r) + fl64 (fl64 c2 * g)) + fl64 (fl64 c3 * b))
    ∧ |fl64 (fl64 (fl64 (fl64 c1 * r) + fl64 (fl64 c2 * g)) + fl64 (fl64 c3 * b))
        - (c1 * r + c2 * g + c3 * b)| ≤ 1 / 1000000 := by
  obtain ⟨n1, e1⟩ := sepia_term c1 r h1.1 h1.2 hr.1 hr.2
  obtain ⟨n2, e2⟩ := sepia_term c2 g h2.1 h2.2 hg.1 hg.2
  obtain ⟨n3, e3⟩ := sepia_term c3 b h3.1 h3.2 hb.1 hb.2
  set t1 := fl64 (fl64 c1 * r)
  set t2 := fl64 (fl64 c2 * g)
  set t3 := fl64 (fl64 c3 * b)
  have p1 : c1 * r ≤ 255 := by
    calc c1 * r ≤ 1 * 255 := mul_le_mul h1.2 hr.2 hr.1 (by norm_num)
      _ = 255 := by ring
  have p2 : c2 * g ≤ 255 := by
    calc c2 * g ≤ 1 * 255 := mul_le_mul h2.2 hg.2 hg.1 (by norm_num)
      _ = 255 := by ring
  have p3 : c3 * b ≤ 255 := by
    calc c3 * b ≤ 1 * 255 := mul_le_mul h3.2 hb.2 hb.1 (by norm_num)
      _ = 255 := by ring
  rw [abs_le] at e1 e2 e3
  have hs1 : |t1 + t2 - (c1 * r + c2 * g)| ≤ 2 / 10000000000 := by
    rw [abs_le]
    constructor <;> linarith [e1.1, e1.2, e2.1, e2.2]
  have hm1 : |t1 + t2| ≤ 511 := by
    rw [abs_of_nonneg (add_nonneg n1 n2)]
    linarith [e1.2, e2.2]
  have c1' := fl64_close (t1 + t2) (c1 * r + c2 * g) _ _ hs1 hm1
  have ns1 : 0 ≤ fl64 (t1 + t2) := fl64_nonneg _ (add_nonneg n1 n2)
  set s1 := fl64 (t1 + t2)
  rw [abs_le] at c1'
  have hs2 : |s1 + t3 - (c1 * r + c2 * g + c3 * b)| ≤ 4 / 10000000000 := by
    rw [abs_le]
    constructor
    · have : (2 : ℚ) / 10000000000 + 511 / 9007199254740992 ≤ 3 / 10000000000 := by norm_num
      linarith [c1'.1, e3.1]
    · have : (2 : ℚ) / 10000000000 + 511 / 9007199254740992 ≤ 3 / 10000000000 := by norm_num
      linarith [c1'.2, e3.2]
  have hm2 : |s1 + t3| ≤ 767 := by
    rw [abs_of_nonneg (add_nonneg ns1 n3)]
    have : (2 : ℚ) / 10000000000 + 511 / 9007199254740992 ≤ 1 := by norm_num
    linarith [c1'.2, e3.2]
  have c2' := fl64_close (s1 + t3) (c1 * r + c2 * g + c3 * b) _ _ hs2 hm2
  exact ⟨fl64_nonneg _ (add_nonneg ns1 n3), le_trans c2' (by norm_num)⟩

theorem trunc_of_close (D : ℚ) (N : Nat) (h0 : 0 ≤ D)
    (h : |D - (N : ℚ) / 1000| ≤ 1 / 1000000) :
    ∃ t : Nat, cTrunc D = (t : Int) ∧ (N % 1000 ≠ 0 → t = N / 1000)
      ∧ (t = N / 1000 ∨ t = N / 1000 - 1) := by
  rw [cTrunc_of_nonneg D h0]
  rw [abs_le] at h
  have hN : (N : ℚ) = 1000 * ((N / 1000 : Nat) : ℚ) + ((N % 1000 : Nat) : ℚ) := by
    exact_mod_cast (Nat.div_add_mod N 1000).symm
  have hm : ((N % 1000 : Nat) : ℚ) ≤ 999 := by
    have : N % 1000 ≤ 999 := by omega
    exact_mod_cast this
  have hm0 : (0 : ℚ) ≤ ((N % 1000 : Nat) : ℚ) := by positivity
  by_cases hmod : N % 1000 = 0
  · have hmq : ((N % 1000 : Nat) : ℚ) = 0 := by exact_mod_cast hmod
    by_cases hD : ((N / 1000 : Nat) : ℚ) ≤ D
    · refine ⟨N / 1000, ?_, fun _ => rfl, Or.inl rfl⟩
      apply rat_floor_eq
      · rw [Int.cast_natCast]
        exact hD
      · rw [Int.cast_natCast]
        linarith [h.2]
    · push_neg at hD
      have hq : 1 ≤ N / 1000 := by
        by_contra hcon
        have : N / 1000 = 0 := by omega
        rw [this] at hD
        simp only [Nat.cast_zero] at hD
        linarith
      refine ⟨N / 1000 - 1, ?_, fun hne => absurd hmod hne, Or.inr rfl⟩
      have hcast : ((N / 1000 - 1 : Nat) : ℚ) = ((N / 1000 : Nat) : ℚ) - 1 := by
        rw [Nat.cast_sub hq]
        simp
      apply rat_floor_eq
      · rw [Int.cast_natCast, hcast]
        linarith [h.1]
      · rw [Int.cast_natCast, hcast]
        linarith
  · have hm1 : (1 : ℚ) ≤ ((N % 1000 : Nat) : ℚ) := by
      have : 1 ≤ N % 1000 := by omega
      exact_mod_cast this
    refine ⟨N / 1000, ?_, fun _ => rfl, Or.inl rfl⟩
    apply rat_floor_eq
    · rw [Int.cast_natCast]
      linarith [h.1]
    · rw [Int.cast_natCast]
      linarith [h.2]

theorem qBound_natCast (t : Nat) : qBound 0 (t : Int) 255 = ((min 255 t : Nat) : Int) := by
  unfold qBound
  omega

theorem qRed_qRgba_nat (r : Nat) (g b a : Int) (h : r ≤ 255) : qRed (qRgba r g b a) = r := by
  rw [qRed_qRgba]
  omega

theorem qGreen_qRgba_nat (g : Nat) (r b a : Int) (h : g ≤ 255) :
    qGreen (qRgba r g b a) = g := by
  rw [qGreen_qRgba]
  omega

theorem qBlue_qRgba_nat (b : Nat) (r g a : Int) (h : b ≤ 255) : qBlue (qRgba r g b a) = b := by
  rw [qBlue_qRgba]
  omega

theorem qAlpha_qRgba_nat (a : Nat) (r g b : Int) (h : a ≤ 255) :
    qAlpha (qRgba r g b a) = a := by
  rw [qAlpha_qRgba]
  omega

theorem sepia_channel (k1 k2 k3 : ℚ) (n1 n2 n3 r g b : Nat)
    (e1 : k1 = (n1 : ℚ) / 1000) (e2 : k2 = (n2 : ℚ) / 1000) (e3 : k3 = (n3 : ℚ) / 1000)
    (h1 : n1 ≤ 1000) (h2 : n2 ≤ 1000) (h3 : n3 ≤ 1000)
    (hr : r ≤ 255) (hg : g ≤ 255) (hb : b ≤ 255) :
    ∃ out : Nat, out ≤ 255
      ∧ qBound 0 (cTrunc (fl64 (fl64 (fl64 (fl64 k1 * r) + fl64 (fl64 k2 * g))
          + fl64 (fl64 k3 * b)))) 255 = (out : Int)
      ∧ SepiaValue (n1 * r + n2 * g + n3 * b) out := by
  have c1 : 0 ≤ k1 ∧ k1 ≤ 1 := by
    rw [e1]
    constructor
    · positivity
    · rw [div_le_one (by norm_num)]
      exact_mod_cast h1
  have c2 : 0 ≤ k2 ∧ k2 ≤ 1 := by
    rw [e2]
    constructor
    · positivity
    · rw [div_le_one (by norm_num)]
      exact_mod_cast h2
  have c3 : 0 ≤ k3 ∧ k3 ≤ 1 := by
    rw [e3]
    constructor
    · positivity
    · rw [div_le_one (by norm_num)]
      exact_mod_cast h3
  have br : (0 : ℚ) ≤ (r : ℚ) ∧ (r : ℚ) ≤ 255 := ⟨by positivity, by exact_mod_cast hr⟩
  have bg : (0 : ℚ) ≤ (g : ℚ) ∧ (g : ℚ) ≤ 255 := ⟨by positivity, by exact_mod_cast hg⟩
  have bb : (0 : ℚ) ≤ (b : ℚ) ∧ (b : ℚ) ≤ 255 := ⟨by positivity, by exact_mod_cast hb⟩
  obtain ⟨hD0, hD⟩ := sepia_sum k1 k2 k3 r g b c1 c2 c3 br bg bb
  have hE : k1 * r + k2 * g + k3 * b = ((n1 * r + n2 * g + n3 * b : Nat) : ℚ) / 1000 := by
    rw [e1, e2, e3]
    push_cast
    ring
  rw [hE] at hD
  obtain ⟨t, ht, hne, hor⟩ := trunc_of_close _ _ hD0 hD
  refine ⟨min 255 t, by omega, ?_, ?_, ?_⟩
  · rw [ht, qBound_natCast]
  · intro h
    rw [hne h]
  · rcases hor with h | h
    · exact Or.inl (by rw [h])
    · exact Or.inr (by rw [h])

theorem toSepiaPixel_channels (p : QRgb) :
    qAlpha (toSepiaPixel p) = qAlpha p
    ∧ SepiaValue (393 * qRed p + 769 * qGreen p + 189 * qBlue p) (qRed (toSepiaPixel p))
    ∧ SepiaValue (349 * qRed p + 686 * qGreen p + 168 * qBlue p) (qGreen (toSepiaPixel p))
    ∧ SepiaValue (272 * qRed p + 534 * qGreen p + 131 * qBlue p) (qBlue (toSepiaPixel p)) := by
  have hr : qRed p ≤ 255 := by have := qRed_lt p; omega
  have hg : qGreen p ≤ 255 := by have := qGreen_lt p; omega
  have hb : qBlue p ≤ 255 := by have := qBlue_lt p; omega
  have ha : qAlpha p ≤ 255 := by have := qAlpha_lt p; omega
  obtain ⟨oR, hR, eR, vR⟩ := sepia_channel (393 / 1000) (769 / 1000) (189 / 1000) 393 769 189
    (qRed p) (qGreen p) (qBlue p) (by norm_num) (by norm_num) (by norm_num)
    (by norm_num) (by norm_num) (by norm_num) hr hg hb
  obtain ⟨oG, hG, eG, vG⟩ := sepia_channel (349 / 1000) (686 / 1000) (168 / 1000) 349 686 168
    (qRed p) (qGreen p) (qBlue p) (by norm_num) (by norm_num) (by norm_num)
    (by norm_num) (by norm_num) (by norm_num) hr hg hb
  obtain ⟨oB, hB, eB, vB⟩ := sepia_channel (272 / 1000) (534 / 1000) (131 / 1000) 272 534 131
    (qRed p) (qGreen p) (qBlue p) (by norm_num) (by norm_num) (by norm_num)
    (by norm_num) (by norm_num) (by norm_num) hr hg hb
  unfold toSepiaPixel
  simp only
  rw [eR, eG, eB]
  refine ⟨qAlpha_qRgba_nat _ _ _ _ ha, ?_, ?_, ?_⟩
  · rw [qRed_qRgba_nat _ _ _ _ hR]
    exact vR
  · rw [qGreen_qRgba_nat _ _ _ _ hG]
    exact vG
  · rw [qBlue_qRgba_nat _ _ _ _ hB]
    exact vB

/-! ## Claims on sepia -/

theorem toSepiaPixel_red_2_0_0 : qRed (toSepiaPixel (qRgba 2 0 0 255)) = 0 := by
  have h := (toSepiaPixel_channels (qRgba 2 0 0 255)).2.1
  have e1 : qRed (qRgba 2 0 0 255) = 2 := by decide
  have e2 : qGreen (qRgba 2 0 0 255) = 0 := by decide
  have e3 : qBlue (qRgba 2 0 0 255) = 0 := by decide
  rw [e1, e2, e3] at h
  have := h.1 (by decide)
  rw [this]
  decide

/-- C15 (as stated, refuted): for the pixel `(2, 0, 0)` the claimed red value
`clamp(round(0.786))` is 1, but `toSepia` gives 0: the `double` sum is converted to `int`
by dropping the fraction. -/
theorem toSepia_does_not_round :
    qRed (qRgba 2 0 0 255) = 2 ∧ qGreen (qRgba 2 0 0 255) = 0 ∧ qBlue (qRgba 2 0 0 255) = 0
    ∧ clampInt (cRound ((393 : ℚ) / 1000 * 2 + 769 / 1000 * 0 + 189 / 1000 * 0)) = 1
    ∧ qRed (toSepiaPixel (qRgba 2 0 0 255)) = 0
    ∧ (qRed (toSepiaPixel (qRgba 2 0 0 255)) : Int)
        ≠ clampInt (cRound ((393 : ℚ) / 1000 * 2 + 769 / 1000 * 0 + 189 / 1000 * 0)) := by
  have hround : cRound ((393 : ℚ) / 1000 * 2 + 769 / 1000 * 0 + 189 / 1000 * 0) = 1 := by
    apply cRound_eq_of_abs_lt
    rw [abs_lt]
    constructor <;> norm_num
  refine ⟨by decide, by decide, by decide, ?_, toSepiaPixel_red_2_0_0, ?_⟩
  · rw [hround]
    decide
  · rw [hround, toSepiaPixel_red_2_0_0]
    decide

/-- C15 (amended): for every pixel `(r, g, b, a)` `toSepia` keeps alpha and gives each
colour channel the sum `.393r + .769g + .189b` (and likewise with `.349, .686, .168` and
`.272, .534, .131`) with its fraction dropped, not rounded to nearest, clamped to at most
255, each channel on its own; the sum is computed in `double`, so where the exact sum is
an integer the result is that integer or the one just below.  The pixel `(2, 0, 0)` has
`R' = 0`. -/
theorem toSepia_truncates (srcImage : QImage) (i : Nat) (p : QRgb)
    (hp : (srcImage.convertToFormat .ARGB32).data[i]? = some p) :
    ∃ p', (toSepia srcImage).data[i]? = some p'
      ∧ qAlpha p' = qAlpha p
      ∧ SepiaValue (393 * qRed p + 769 * qGreen p + 189 * qBlue p) (qRed p')
      ∧ SepiaValue (349 * qRed p + 686 * qGreen p + 168 * qBlue p) (qGreen p')
      ∧ SepiaValue (272 * qRed p + 534 * qGreen p + 131 * qBlue p) (qBlue p')
      ∧ qRed (toSepiaPixel (qRgba 2 0 0 255)) = 0 := by
  refine ⟨toSepiaPixel p, ?_, ?_⟩
  · simp only [toSepia, List.getElem?_map, hp, Option.map_some']
  · obtain ⟨h1, h2, h3, h4⟩ := toSepiaPixel_channels p
    exact ⟨h1, h2, h3, h4, toSepiaPixel_red_2_0_0⟩

/-- Witness of C15 (amended): the first pixel of the sample raster. -/
theorem toSepia_truncates_witness :
    (sampleImage.convertToFormat .ARGB32).data[0]? = some 0xffc8c8c8
    ∧ ∃ p', (toSepia sampleImage).data[0]? = some p' ∧ qAlpha p' = qAlpha 0xffc8c8c8 :=
  ⟨by decide,
    (toSepia_truncates sampleImage 0 0xffc8c8c8 (by decide)).imp
      (fun _ h => ⟨h.1, h.2.1⟩)⟩

/-! ## Error bounds for the warm and the cold channels -/

theorem fl32_nonneg (x : ℚ) (h : 0 ≤ x) : 0 ≤ fl32 x := by
  have he := fl32_err x
  rw [abs_of_nonneg h, abs_le] at he
  have : x / 16777216 ≤ x := by
    apply div_le_self h
    norm_num
  linarith [he.1]

theorem fl32_close (x y d m : ℚ) (hxy : |x - y| ≤ d) (hm : |x| ≤ m) :
    |fl32 x - y| ≤ d + m / 16777216 := by
  have he := fl32_err x
  have h1 : |x| / 16777216 ≤ m / 16777216 :=
    div_le_div_of_nonneg_right hm (by norm_num)
  have h2 : |fl32 x - y| ≤ |fl32 x - x| + |x - y| := by
    have := abs_add (fl32 x - x) (x - y)
    simpa using this
  linarith

/-- The `float` product of a literal `c` in `[0, 1/2]` and an intensity in `(0, 1]`. -/
theorem strength_err (c i : ℚ) (hc0 : 0 ≤ c) (hc1 : c ≤ 1 / 2) (hi0 : 0 < i) (hi1 : i ≤ 1) :
    0 ≤ fl32 (fl32 c * i) ∧ fl32 (fl32 c * i) ≤ 51 / 100
    ∧ |fl32 (fl32 c * i) - c * i| ≤ 2 / 16777216 := by
  have hcn := fl32_nonneg c hc0
  have hcc := fl32_err c
  rw [abs_of_nonneg hc0] at hcc
  have hcb : |fl32 c - c| ≤ 1 / 16777216 := by
    have : c / 16777216 ≤ 1 / 16777216 :=
      div_le_div_of_nonneg_right (by linarith) (by norm_num)
    linarith
  have hp : |fl32 c * i - c * i| ≤ 1 / 16777216 := by
    have e : fl32 c * i - c * i = (fl32 c - c) * i := by ring
    rw [e, abs_mul, abs_of_pos hi0]
    calc |fl32 c - c| * i ≤ 1 / 16777216 * 1 :=
          mul_le_mul hcb hi1 hi0.le (by norm_num)
      _ = 1 / 16777216 := by ring
  have hci : c * i ≤ 1 / 2 := by
    calc c * i ≤ 1 / 2 * 1 := mul_le_mul hc1 hi1 hi0.le (by norm_num)
      _ = 1 / 2 := by ring
  have hpn : 0 ≤ fl32 c * i := mul_nonneg hcn hi0.le
  have hpm : |fl32 c * i| ≤ 1 := by
    rw [abs_of_nonneg hpn]
    rw [abs_le] at hp
    have : (1 : ℚ) / 16777216 ≤ 1 / 2 := by norm_num
    linarith [hp.2]
  have h := fl32_close (fl32 c * i) (c * i) _ _ hp hpm
  have h' : |fl32 (fl32 c * i) - c * i| ≤ 2 / 16777216 := le_trans h (by norm_num)
  refine ⟨fl32_nonneg _ hpn, ?_, h'⟩
  rw [abs_le] at h'
  have : (2 : ℚ) / 16777216 ≤ 1 / 100 := by norm_num
  linarith [h'.2]

/-- The `float` value of `x + (255 - x) * (c * intensity)` is within `1 / 10000` of the
exact one. -/
theorem push_err (c i : ℚ) (x : Nat) (hc0 : 0 ≤ c) (hc1 : c ≤ 1 / 2) (hi0 : 0 < i)
    (hi1 : i ≤ 1) (hx : x ≤ 255) :
    |fl32 ((x : ℚ) + fl32 (((255 : ℚ) - x) * fl32 (fl32 c * i)))
      - ((x : ℚ) + (255 - x) * (c * i))| ≤ 1 / 10000 := by
  obtain ⟨k0, k1, ke⟩ := strength_err c i hc0 hc1 hi0 hi1
  set k := fl32 (fl32 c * i)
  have hx0 : (0 : ℚ) ≤ (x : ℚ) := by positivity
  have hx1 : (x : ℚ) ≤ 255 := by exact_mod_cast hx
  have hd0 : (0 : ℚ) ≤ 255 - (x : ℚ) := by linarith
  have hd1 : (255 : ℚ) - (x : ℚ) ≤ 255 := by linarith
  have hp : |((255 : ℚ) - x) * k - (255 - x) * (c * i)| ≤ 510 / 16777216 := by
    have e : ((255 : ℚ) - x) * k - (255 - x) * (c * i) = (255 - x) * (k - c * i) := by ring
    rw [e, abs_mul, abs_of_nonneg hd0]
    calc ((255 : ℚ) - x) * |k - c * i| ≤ 255 * (2 / 16777216) :=
          mul_le_mul hd1 ke (abs_nonneg _) (by norm_num)
      _ = 510 / 16777216 := by ring
  have hpn : 0 ≤ ((255 : ℚ) - x) * k := mul_nonneg hd0 k0
  have hpu : ((255 : ℚ) - x) * k ≤ 255 := by
    calc ((255 : ℚ) - x) * k ≤ 255 * 1 := mul_le_mul hd1 (by linarith) k0 (by norm_num)
      _ = 255 := by ring
  have hpm : |((255 : ℚ) - x) * k| ≤ 255 := by
    rw [abs_of_nonneg hpn]
    exact hpu
  have hm := fl32_close (((255 : ℚ) - x) * k) ((255 - x) * (c * i)) _ _ hp hpm
  have mn := fl32_nonneg _ hpn
  set m := fl32 (((255 : ℚ) - x) * k)
  have hmu : m ≤ 256 := by
    have hci : (255 - (x : ℚ)) * (c * i) ≤ 255 := by
      have : c * i ≤ 1 := by
        calc c * i ≤ 1 / 2 * 1 := mul_le_mul hc1 hi1 hi0.le (by norm_num)
          _ ≤ 1 := by norm_num
      calc (255 - (x : ℚ)) * (c * i) ≤ 255 * 1 :=
            mul_le_mul hd1 this (mul_nonneg hc0 hi0.le) (by norm_num)
        _ = 255 := by ring
    rw [abs_le] at hm
    have : (510 : ℚ) / 16777216 + 255 / 16777216 ≤ 1 := by norm_num
    linarith [hm.2]
  have hs : |(x : ℚ) + m - ((x : ℚ) + (255 - x) * (c * i))| ≤ 765 / 16777216 := by
    have e : (x : ℚ) + m - ((x : ℚ) + (255 - x) * (c * i)) = m - (255 - x) * (c * i) := by ring
    rw [e]
    exact le_trans hm (by norm_num)
  have hsm : |(x : ℚ) + m| ≤ 511 := by
    rw [abs_of_nonneg (add_nonneg hx0 mn)]
    linarith
  have h := fl32_close ((x : ℚ) + m) ((x : ℚ) + (255 - x) * (c * i)) _ _ hs hsm
  exact le_trans h (by norm_num)

/-- The `float` value of `x * (1 - c * intensity)` is within `1 / 10000` of the exact
one. -/
theorem pull_err (c i : ℚ) (x : Nat) (hc0 : 0 ≤ c) (hc1 : c ≤ 1 / 2) (hi0 : 0 < i)
    (hi1 : i ≤ 1) (hx : x ≤ 255) :
    |fl32 ((x : ℚ) * fl32 (1 - fl32 (fl32 c * i))) - (x : ℚ) * (1 - c * i)| ≤ 1 / 10000 := by
  obtain ⟨k0, k1, ke⟩ := strength_err c i hc0 hc1 hi0 hi1
  set k := fl32 (fl32 c * i)
  have hx0 : (0 : ℚ) ≤ (x : ℚ) := by positivity
  have hx1 : (x : ℚ) ≤ 255 := by exact_mod_cast hx
  have hd : |(1 - k) - (1 - c * i)| ≤ 2 / 16777216 := by
    have e : (1 - k) - (1 - c * i) = -(k - c * i) := by ring
    rw [e, abs_neg]
    exact ke
  have hdn : 0 ≤ 1 - k := by linarith
  have hdm : |1 - k| ≤ 1 := by
    rw [abs_of_nonneg hdn]
    linarith
  have hq := fl32_close (1 - k) (1 - c * i) _ _ hd hdm
  have qn := fl32_nonneg _ hdn
  set q := fl32 (1 - k)
  have hq' : |q - (1 - c * i)| ≤ 3 / 16777216 := le_trans hq (by norm_num)
  have hqu : q ≤ 1 + 3 / 16777216 := by
    have : 0 ≤ c * i := mul_nonneg hc0 hi0.le
    rw [abs_le] at hq'
    linarith [hq'.2]
  have hp : |(x : ℚ) * q - (x : ℚ) * (1 - c * i)| ≤ 765 / 16777216 := by
    have e : (x : ℚ) * q - (x : ℚ) * (1 - c * i) = (x : ℚ) * (q - (1 - c * i)) := by ring
    rw [e, abs_mul, abs_of_nonneg hx0]
    calc (x : ℚ) * |q - (1 - c * i)| ≤ 255 * (3 / 16777216) :=
          mul_le_mul hx1 hq' (abs_nonneg _) (by norm_num)
      _ = 765 / 16777216 := by ring
  have hpn : 0 ≤ (x : ℚ) * q := mul_nonneg hx0 qn
  have hpm : |(x : ℚ) * q| ≤ 256 := by
    rw [abs_of_nonneg hpn]
    calc (x : ℚ) * q ≤ 255 * (1 + 3 / 16777216) := mul_le_mul hx1 hqu qn (by norm_num)
      _ ≤ 256 := by norm_num
  have h := fl32_close ((x : ℚ) * q) ((x : ℚ) * (1 - c * i)) _ _ hp hpm
  exact le_trans h (by norm_num)

theorem rounded_channel (s E : ℚ) (hs : |s - E| ≤ 1 / 10000) (hE0 : 0 ≤ E) (hE1 : E ≤ 255) :
    ∃ n : Nat, n ≤ 255 ∧ qBound 0 (cRound s) 255 = (n : Int)
      ∧ |(n : ℚ) - E| ≤ 1 / 2 + 1 / 10000 := by
  have hr := cRound_err s
  rw [abs_le] at hs hr
  have hlo : (-1 : ℚ) < ((cRound s : Int) : ℚ) := by linarith [hs.1, hr.1]
  have hhi : ((cRound s : Int) : ℚ) < 256 := by linarith [hs.2, hr.2]
  have hlo' : -1 < cRound s := by exact_mod_cast hlo
  have hhi' : cRound s < 256 := by exact_mod_cast hhi
  refine ⟨(cRound s).toNat, by omega, ?_, ?_⟩
  · unfold qBound
    omega
  · have hcast : (((cRound s).toNat : Nat) : ℚ) = ((cRound s : Int) : ℚ) := by
      have : (((cRound s).toNat : Nat) : Int) = cRound s := Int.toNat_of_nonneg (by omega)
      exact_mod_cast this
    rw [hcast, abs_le]
    constructor <;> linarith [hs.1, hs.2, hr.1, hr.2]

theorem push_channel (c i : ℚ) (x : Nat) (hc0 : 0 ≤ c) (hc1 : c ≤ 1 / 2) (hi0 : 0 < i)
    (hi1 : i ≤ 1) (hx : x ≤ 255) :
    ∃ n : Nat, n ≤ 255
      ∧ qBound 0 (cRound (fl32 ((x : ℚ) + fl32 (((255 : ℚ) - x) * fl32 (fl32 c * i))))) 255
          = (n : Int)
      ∧ |(n : ℚ) - ((x : ℚ) + (255 - x) * (c * i))| ≤ 1 / 2 + 1 / 10000 := by
  have hx0 : (0 : ℚ) ≤ (x : ℚ) := by positivity
  have hx1 : (x : ℚ) ≤ 255 := by exact_mod_cast hx
  have hci0 : 0 ≤ c * i := mul_nonneg hc0 hi0.le
  have hci1 : c * i ≤ 1 := by
    calc c * i ≤ 1 / 2 * 1 := mul_le_mul hc1 hi1 hi0.le (by norm_num)
      _ ≤ 1 := by norm_num
  have hd0 : (0 : ℚ) ≤ 255 - (x : ℚ) := by linarith
  have hprod0 : 0 ≤ (255 - (x : ℚ)) * (c * i) := mul_nonneg hd0 hci0
  have hprod1 : (255 - (x : ℚ)) * (c * i) ≤ (255 - (x : ℚ)) * 1 :=
    mul_le_mul_of_nonneg_left hci1 hd0
  exact rounded_channel _ _ (push_err c i x hc0 hc1 hi0 hi1 hx) (by linarith) (by linarith)

theorem pull_channel (c i : ℚ) (x : Nat) (hc0 : 0 ≤ c) (hc1 : c ≤ 1 / 2) (hi0 : 0 < i)
    (hi1 : i ≤ 1) (hx : x ≤ 255) :
    ∃ n : Nat, n ≤ 255
      ∧ qBound 0 (cRound (fl32 ((x : ℚ) * fl32 (1 - fl32 (fl32 c * i))))) 255 = (n : Int)
      ∧ |(n : ℚ) - (x : ℚ) * (1 - c * i)| ≤ 1 / 2 + 1 / 10000 := by
  have hx0 : (0 : ℚ) ≤ (x : ℚ) := by positivity
  have hx1 : (x : ℚ) ≤ 255 := by exact_mod_cast hx
  have hci0 : 0 ≤ c * i := mul_nonneg hc0 hi0.le
  have hci1 : c * i ≤ 1 := by
    calc c * i ≤ 1 / 2 * 1 := mul_le_mul hc1 hi1 hi0.le (by norm_num)
      _ ≤ 1 := by norm_num
  have h0 : 0 ≤ (x : ℚ) * (1 - c * i) := mul_nonneg hx0 (by linarith)
  have h1 : (x : ℚ) * (1 - c * i) ≤ (x : ℚ) * 1 :=
    mul_le_mul_of_nonneg_left (by linarith) hx0
  exact rounded_channel _ _ (pull_err c i x hc0 hc1 hi0 hi1 hx) h0 (by linarith)

/-- The channels of a cold pixel: red pulled down by `0.30 * intensity`, green pushed up by
`0.12 * intensity`, blue pushed up by `0.45 * intensity`, each within rounding of the
exact value. -/
theorem coldFilterPixel_channels (i : ℚ) (p : QRgb) (hi0 : 0 < i) (hi1 : i ≤ 1) :
    ∃ nr ng nb : Nat, nr ≤ 255 ∧ ng ≤ 255 ∧ nb ≤ 255
      ∧ coldFilterPixel i p = qRgba nr ng nb (qAlpha p)
      ∧ |(nr : ℚ) - (qRed p : ℚ) * (1 - 30 / 100 * i)| ≤ 1 / 2 + 1 / 10000
      ∧ |(ng : ℚ) - ((qGreen p : ℚ) + (255 - qGreen p) * (12 / 100 * i))| ≤ 1 / 2 + 1 / 10000
      ∧ |(nb : ℚ) - ((qBlue p : ℚ) + (255 - qBlue p) * (45 / 100 * i))| ≤ 1 / 2 + 1 / 10000
      := by
  have hr : qRed p ≤ 255 := by have := qRed_lt p; omega
  have hg : qGreen p ≤ 255 := by have := qGreen_lt p; omega
  have hb : qBlue p ≤ 255 := by have := qBlue_lt p; omega
  obtain ⟨nr, hnr, er, br⟩ := pull_channel (30 / 100) i (qRed p) (by norm_num) (by norm_num)
    hi0 hi1 hr
  obtain ⟨ng, hng, eg, bg⟩ := push_channel (12 / 100) i (qGreen p) (by norm_num)
    (by norm_num) hi0 hi1 hg
  obtain ⟨nb, hnb, eb, bb⟩ := push_channel (45 / 100) i (qBlue p) (by norm_num)
    (by norm_num) hi0 hi1 hb
  refine ⟨nr, ng, nb, hnr, hng, hnb, ?_, br, bg, bb⟩
  unfold coldFilterPixel
  simp only
  rw [er, eg, eb]

/-- The channels of a warm pixel: red pushed up by `0.45 * intensity`, green pushed up by
`0.20 * intensity`, blue pulled down by `0.25 * intensity`. -/
theorem warmFilterPixel_channels (i : ℚ) (p : QRgb) (hi0 : 0 < i) (hi1 : i ≤ 1) :
    ∃ nr ng nb : Nat, nr ≤ 255 ∧ ng ≤ 255 ∧ nb ≤ 255
      ∧ warmFilterPixel i p = qRgba nr ng nb (qAlpha p)
      ∧ |(nr : ℚ) - ((qRed p : ℚ) + (255 - qRed p) * (45 / 100 * i))| ≤ 1 / 2 + 1 / 10000
      ∧ |(ng : ℚ) - ((qGreen p : ℚ) + (255 - qGreen p) * (20 / 100 * i))| ≤ 1 / 2 + 1 / 10000
      ∧ |(nb : ℚ) - (qBlue p : ℚ) * (1 - 25 / 100 * i)| ≤ 1 / 2 + 1 / 10000 := by
  have hr : qRed p ≤ 255 := by have := qRed_lt p; omega
  have hg : qGreen p ≤ 255 := by have := qGreen_lt p; omega
  have hb : qBlue p ≤ 255 := by have := qBlue_lt p; omega
  obtain ⟨nr, hnr, er, br⟩ := push_channel (45 / 100) i (qRed p) (by norm_num)
    (by norm_num) hi0 hi1 hr
  obtain ⟨ng, hng, eg, bg⟩ := push_channel (20 / 100) i (qGreen p) (by norm_num)
    (by norm_num) hi0 hi1 hg
  obtain ⟨nb, hnb, eb, bb⟩ := pull_channel (25 / 100) i (qBlue p) (by norm_num) (by norm_num)
    hi0 hi1 hb
  refine ⟨nr, ng, nb, hnr, hng, hnb, ?_, br, bg, bb⟩
  unfold warmFilterPixel
  simp only
  rw [er, eg, eb]

/-! ## Claims on the cold and the warm filter -/

theorem default_intensity_bounds :
    0 < fl32 (6 / 10) ∧ fl32 (6 / 10) ≤ 1
    ∧ (6 : ℚ) / 10 - 1 / 10000000 ≤ fl32 (6 / 10) ∧ fl32 (6 / 10) ≤ 6 / 10 + 1 / 10000000 := by
  have h := fl32_err (6 / 10)
  rw [abs_le] at h
  have e : |(6 : ℚ) / 10| / 16777216 ≤ 1 / 10000000 := by
    rw [abs_of_pos (by norm_num)]
    norm_num
  refine ⟨?_, ?_, ?_, ?_⟩ <;> linarith [h.1, h.2]

theorem nat_eq_of_near (n a : Nat) (h1 : (a : ℚ) - 1 < (n : ℚ)) (h2 : (n : ℚ) < (a : ℚ) + 1) :
    n = a := by
  have h1' : (a : ℚ) < (n : ℚ) + 1 := by linarith
  have h1'' : a < n + 1 := by exact_mod_cast h1'
  have h2' : n < a + 1 := by exact_mod_cast h2
  omega

theorem coldFilterPixel_default_gray :
    coldFilterPixel (fl32 (6 / 10)) 0xff646464 = 0xff526f8e := by
  obtain ⟨i0, i1, ilo, ihi⟩ := default_intensity_bounds
  obtain ⟨nr, ng, nb, _, _, _, hpix, br, bg, bb⟩ :=
    coldFilterPixel_channels (fl32 (6 / 10)) 0xff646464 i0 i1
  have e1 : qRed 0xff646464 = 100 := by decide
  have e2 : qGreen 0xff646464 = 100 := by decide
  have e3 : qBlue 0xff646464 = 100 := by decide
  have e4 : qAlpha 0xff646464 = 255 := by decide
  rw [e1] at br
  rw [e2] at bg
  rw [e3] at bb
  rw [abs_le] at br bg bb
  push_cast at br bg bb
  have hr : nr = 82 := nat_eq_of_near nr 82 (by push_cast; linarith [br.1])
    (by push_cast; linarith [br.2])
  have hg : ng = 111 := nat_eq_of_near ng 111 (by push_cast; linarith [bg.1])
    (by push_cast; linarith [bg.2])
  have hb : nb = 142 := nat_eq_of_near nb 142 (by push_cast; linarith [bb.1])
    (by push_cast; linarith [bb.2])
  rw [hpix, hr, hg, hb, e4]
  decide

theorem warmFilterPixel_default_gray :
    warmFilterPixel (fl32 (6 / 10)) 0xff646464 = 0xff8e7755 := by
  obtain ⟨i0, i1, ilo, ihi⟩ := default_intensity_bounds
  obtain ⟨nr, ng, nb, _, _, _, hpix, br, bg, bb⟩ :=
    warmFilterPixel_channels (fl32 (6 / 10)) 0xff646464 i0 i1
  have e1 : qRed 0xff646464 = 100 := by decide
  have e2 : qGreen 0xff646464 = 100 := by decide
  have e3 : qBlue 0xff646464 = 100 := by decide
  have e4 : qAlpha 0xff646464 = 255 := by decide
  rw [e1] at br
  rw [e2] at bg
  rw [e3] at bb
  rw [abs_le] at br bg bb
  push_cast at br bg bb
  have hr : nr = 142 := nat_eq_of_near nr 142 (by push_cast; linarith [br.1])
    (by push_cast; linarith [br.2])
  have hg : ng = 119 := nat_eq_of_near ng 119 (by push_cast; linarith [bg.1])
    (by push_cast; linarith [bg.2])
  have hb : nb = 85 := nat_eq_of_near nb 85 (by push_cast; linarith [bb.1])
    (by push_cast; linarith [bb.2])
  rw [hpix, hr, hg, hb, e4]
  decide

theorem coldFilter_data (src : QImage) (i : ℚ) (hi0 : 0 < i) :
    (coldFilter src i).data
      = (src.convertToFormat .ARGB32).data.map (coldFilterPixel (if i > 1 then 1 else i)) := by
  unfold coldFilter
  rw [if_neg (by linarith)]

theorem warmFilter_data (src : QImage) (i : ℚ) (hi0 : 0 < i) :
    (warmFilter src i).data
      = (src.convertToFormat .ARGB32).data.map (warmFilterPixel (if i > 1 then 1 else i)) := by
  unfold warmFilter
  rw [if_neg (by linarith)]

/-- C14 (as stated, refuted): at the default intensity `0.6f` the gray pixel
`(100, 100, 100)` becomes `(82, 111, 142)` under `coldFilter`, whereas `warmFilter` of the
channel-swapped pixel is `(142, 119, 85)`, whose mirror image is `(85, 119, 142)`. -/
theorem cold_is_not_mirrored_warm :
    swapRedBlue 0xff646464 = 0xff646464
    ∧ (coldFilter { width := 1, height := 1, format := .ARGB32, data := [0xff646464] }
        (fl32 (6 / 10))).data = [0xff526f8e]
    ∧ (warmFilter
        { width := 1, height := 1, format := .ARGB32, data := [swapRedBlue 0xff646464] }
        (fl32 (6 / 10))).data = [0xff8e7755]
    ∧ swapRedBlue 0xff8e7755 = 0xff55778e
    ∧ coldFilterPixel (fl32 (6 / 10)) 0xff646464
        ≠ swapRedBlue (warmFilterPixel (fl32 (6 / 10)) (swapRedBlue 0xff646464)) := by
  obtain ⟨i0, i1, _, _⟩ := default_intensity_bounds
  have hsw : swapRedBlue 0xff646464 = 0xff646464 := by decide
  have hif : (if fl32 (6 / 10) > 1 then (1 : ℚ) else fl32 (6 / 10)) = fl32 (6 / 10) := by
    rw [if_neg (by linarith)]
  refine ⟨hsw, ?_, ?_, by decide, ?_⟩
  · rw [coldFilter_data _ _ i0, hif]
    simp only [QImage.convertToFormat, List.map_cons, List.map_nil,
      coldFilterPixel_default_gray]
  · rw [warmFilter_data _ _ i0, hif, hsw]
    simp only [QImage.convertToFormat, List.map_cons, List.map_nil,
      warmFilterPixel_default_gray]
  · rw [hsw, coldFilterPixel_default_gray, warmFilterPixel_default_gray]
    decide

theorem qRed_swapRedBlue (p : QRgb) : qRed (swapRedBlue p) = qBlue p := by
  unfold swapRedBlue
  exact qRed_qRgba_nat _ _ _ _ (by have := qBlue_lt p; omega)

theorem qAlpha_swapRedBlue (p : QRgb) : qAlpha (swapRedBlue p) = qAlpha p := by
  unfold swapRedBlue
  exact qAlpha_qRgba_nat _ _ _ _ (by have := qAlpha_lt p; omega)

/-- C14 (amended): for every pixel and every intensity in `(0, 1]` (a larger one is taken
as 1, and with one that is not positive both filters return the source), `coldFilter`
mirrors `warmFilter` in one channel only: its blue value is the red value `warmFilter` gives the
channel-swapped pixel (blue moves 45%·intensity of the way toward 255).  Green moves
12%·intensity of the way toward 255 (20% in `warmFilter`) and red is reduced by
30%·intensity (blue by 25% in `warmFilter`); alpha is kept.  Each value is the exact one
rounded, up to the `float` error of at most `1 / 10000`. -/
theorem cold_mirrors_warm_in_blue_only (intensity : ℚ) (p : QRgb) (h0 : 0 < intensity)
    (h1 : intensity ≤ 1) :
    qBlue (coldFilterPixel intensity p) = qRed (warmFilterPixel intensity (swapRedBlue p))
    ∧ qAlpha (coldFilterPixel intensity p) = qAlpha p
    ∧ qAlpha (warmFilterPixel intensity p) = qAlpha p
    ∧ |(qBlue (coldFilterPixel intensity p) : ℚ)
        - ((qBlue p : ℚ) + (255 - qBlue p) * (45 / 100 * intensity))| ≤ 1 / 2 + 1 / 10000
    ∧ |(qGreen (coldFilterPixel intensity p) : ℚ)
        - ((qGreen p : ℚ) + (255 - qGreen p) * (12 / 100 * intensity))| ≤ 1 / 2 + 1 / 10000
    ∧ |(qRed (coldFilterPixel intensity p) : ℚ)
        - (qRed p : ℚ) * (1 - 30 / 100 * intensity)| ≤ 1 / 2 + 1 / 10000
    ∧ |(qRed (warmFilterPixel intensity p) : ℚ)
        - ((qRed p : ℚ) + (255 - qRed p) * (45 / 100 * intensity))| ≤ 1 / 2 + 1 / 10000
    ∧ |(qGreen (warmFilterPixel intensity p) : ℚ)
        - ((qGreen p : ℚ) + (255 - qGreen p) * (20 / 100 * intensity))| ≤ 1 / 2 + 1 / 10000
    ∧ |(qBlue (warmFilterPixel intensity p) : ℚ)
        - (qBlue p : ℚ) * (1 - 25 / 100 * intensity)| ≤ 1 / 2 + 1 / 10000
    ∧ (∀ src : QImage, (coldFilter src intensity).data
        = (src.convertToFormat .ARGB32).data.map (coldFilterPixel intensity))
    ∧ (∀ src : QImage, (warmFilter src intensity).data
        = (src.convertToFormat .ARGB32).data.map (warmFilterPixel intensity))
    ∧ (∀ (src : QImage) (j : ℚ), j ≤ 0 → coldFilter src j = src ∧ warmFilter src j = src)
    ∧ (∀ (src : QImage) (j : ℚ), 1 < j →
        coldFilter src j = coldFilter src 1 ∧ warmFilter src j = warmFilter src 1) := by
  have ha : qAlpha p ≤ 255 := by have := qAlpha_lt p; omega
  have hif : (if intensity > 1 then (1 : ℚ) else intensity) = intensity := by
    rw [if_neg (by linarith)]
  obtain ⟨cr, cg, cb, hcr, hcg, hcb, hc, bcr, bcg, bcb⟩ :=
    coldFilterPixel_channels intensity p h0 h1
  obtain ⟨wr, wg, wb, hwr, hwg, hwb, hw, bwr, bwg, bwb⟩ :=
    warmFilterPixel_channels intensity p h0 h1
  have cR : qRed (coldFilterPixel intensity p) = cr := by
    rw [hc]
    exact qRed_qRgba_nat _ _ _ _ hcr
  have cG : qGreen (coldFilterPixel intensity p) = cg := by
    rw [hc]
    exact qGreen_qRgba_nat _ _ _ _ hcg
  have cB : qBlue (coldFilterPixel intensity p) = cb := by
    rw [hc]
    exact qBlue_qRgba_nat _ _ _ _ hcb
  have wR : qRed (warmFilterPixel intensity p) = wr := by
    rw [hw]
    exact qRed_qRgba_nat _ _ _ _ hwr
  have wG : qGreen (warmFilterPixel intensity p) = wg := by
    rw [hw]
    exact qGreen_qRgba_nat _ _ _ _ hwg
  have wB : qBlue (warmFilterPixel intensity p) = wb := by
    rw [hw]
    exact qBlue_qRgba_nat _ _ _ _ hwb
  refine ⟨?_, ?_, ?_, ?_, ?_, ?_, ?_, ?_, ?_, ?_, ?_, ?_, ?_⟩
  · unfold coldFilterPixel warmFilterPixel
    simp only
    rw [qBlue_qRgba, qRed_qRgba, qRed_swapRedBlue]
  · rw [hc]
    exact qAlpha_qRgba_nat _ _ _ _ ha
  · rw [hw]
    exact qAlpha_qRgba_nat _ _ _ _ ha
  · rw [cB]
    exact bcb
  · rw [cG]
    exact bcg
  · rw [cR]
    exact bcr
  · rw [wR]
    exact bwr
  · rw [wG]
    exact bwg
  · rw [wB]
    exact bwb
  · intro src
    rw [coldFilter_data src intensity h0, hif]
  · intro src
    rw [warmFilter_data src intensity h0, hif]
  · intro src j hj
    unfold coldFilter warmFilter
    rw [if_pos hj, if_pos hj]
    exact ⟨rfl, rfl⟩
  · intro src j hj
    have hj0 : ¬ j ≤ 0 := by linarith
    have h10 : ¬ (1 : ℚ) ≤ 0 := by norm_num
    simp only [coldFilter, warmFilter, hj0, h10, if_false, hj, gt_iff_lt, if_true,
      lt_self_iff_false, and_self]

/-- Witness of C14 (amended): intensity one half on a bright gray pixel. -/
theorem cold_mirrors_warm_in_blue_only_witness :
    (0 : ℚ) < 1 / 2 ∧ (1 : ℚ) / 2 ≤ 1
    ∧ qBlue (coldFilterPixel (1 / 2) 0xffc8c8c8)
        = qRed (warmFilterPixel (1 / 2) (swapRedBlue 0xffc8c8c8)) :=
  ⟨by norm_num, by norm_num,
    (cold_mirrors_warm_in_blue_only (1 / 2) 0xffc8c8c8 (by norm_num) (by norm_num)).1⟩

/-! ## Size and alpha under `applyFilter` -/

theorem convertToFormat_format (img : QImage) (f : Format) :
    (img.convertToFormat f).format = f := by
  unfold QImage.convertToFormat
  cases h : img.format <;> cases f <;> simp [h]

theorem convertToFormat_self (img : QImage) (h : img.format = .ARGB32) :
    img.convertToFormat .ARGB32 = img := by
  unfold QImage.convertToFormat
  rw [h]

/-- A kernel that maps a pixel function over the `ARGB32` form of its source keeps the size,
and keeps alpha when the pixel function does. -/
theorem mapped_kernel (src : QImage) (f : QRgb → QRgb) (hf : ∀ p, qAlpha (f p) = qAlpha p) :
    let out : QImage :=
      { width := (src.convertToFormat .ARGB32).width,
        height := (src.convertToFormat .ARGB32).height,
        format := (src.convertToFormat .ARGB32).format,
        data := (src.convertToFormat .ARGB32).data.map f }
    out.width = src.width ∧ out.height = src.height ∧ alphaValues out = alphaValues src := by
  intro out
  refine ⟨convertToFormat_width _ _, convertToFormat_height _ _, ?_⟩
  unfold alphaValues
  have hfmt : out.format = .ARGB32 := convertToFormat_format src .ARGB32
  rw [convertToFormat_self out hfmt]
  simp only [out, List.map_map]
  apply List.map_congr_left
  intro p _
  exact hf p

theorem qAlpha_warmFilterPixel (i : ℚ) (p : QRgb) : qAlpha (warmFilterPixel i p) = qAlpha p := by
  unfold warmFilterPixel
  exact qAlpha_qRgba_nat _ _ _ _ (by have := qAlpha_lt p; omega)

theorem qAlpha_coldFilterPixel (i : ℚ) (p : QRgb) : qAlpha (coldFilterPixel i p) = qAlpha p := by
  unfold coldFilterPixel
  exact qAlpha_qRgba_nat _ _ _ _ (by have := qAlpha_lt p; omega)

theorem qAlpha_hardSolarizeInvertPixel (t : Int) (p : QRgb) :
    qAlpha (hardSolarizeInvertPixel t p) = qAlpha p := by
  unfold hardSolarizeInvertPixel
  simp only
  split
  · exact qAlpha_qRgba_nat _ _ _ _ (by have := qAlpha_lt p; omega)
  · rfl

theorem toSepia_keeps (src : QImage) :
    (toSepia src).width = src.width ∧ (toSepia src).height = src.height
    ∧ alphaValues (toSepia src) = alphaValues src :=
  mapped_kernel src toSepiaPixel (fun p => (toSepiaPixel_channels p).1)

theorem hardSolarizeInvert_keeps (src : QImage) (t : Int) :
    (hardSolarizeInvert src t).width = src.width ∧ (hardSolarizeInvert src t).height = src.height
    ∧ alphaValues (hardSolarizeInvert src t) = alphaValues src :=
  mapped_kernel src (hardSolarizeInvertPixel t) (qAlpha_hardSolarizeInvertPixel t)

theorem posterizeEffect_keeps (src : QImage) (levels : Int) :
    (posterizeEffect src levels false).width = src.width
    ∧ (posterizeEffect src levels false).height = src.height
    ∧ alphaValues (posterizeEffect src levels false) = alphaValues src :=
  mapped_kernel src _ (fun p => qAlpha_qRgba_nat _ _ _ _ (by have := qAlpha_lt p; omega))

theorem warmFilter_keeps (src : QImage) (i : ℚ) :
    (warmFilter src i).width = src.width ∧ (warmFilter src i).height = src.height
    ∧ alphaValues (warmFilter src i) = alphaValues src := by
  unfold warmFilter
  split
  · exact ⟨rfl, rfl, rfl⟩
  · exact mapped_kernel src _ (qAlpha_warmFilterPixel _)

theorem coldFilter_keeps (src : QImage) (i : ℚ) :
    (coldFilter src i).width = src.width ∧ (coldFilter src i).height = src.height
    ∧ alphaValues (coldFilter src i) = alphaValues src := by
  unfold coldFilter
  split
  · exact ⟨rfl, rfl, rfl⟩
  · exact mapped_kernel src _ (qAlpha_coldFilterPixel _)

theorem negative_keeps (src : QImage) :
    ((src.convertToFormat .ARGB32).invertPixels).width = src.width
    ∧ ((src.convertToFormat .ARGB32).invertPixels).height = src.height
    ∧ alphaValues ((src.convertToFormat .ARGB32).invertPixels) = alphaValues src := by
  have h : (src.convertToFormat .ARGB32).invertPixels
      = { width := (src.convertToFormat .ARGB32).width,
          height := (src.convertToFormat .ARGB32).height,
          format := (src.convertToFormat .ARGB32).format,
          data := (src.convertToFormat .ARGB32).data.map (fun p => p ^^^ 0x00ffffff) } := by
    unfold QImage.invertPixels
    rw [convertToFormat_format]
  rw [h]
  exact mapped_kernel src _ qAlpha_invert

theorem vintageFilter_keeps (V : VintageMath) (src : QImage) :
    (vintageFilter V src).width = src.width ∧ (vintageFilter V src).height = src.height
    ∧ alphaValues (vintageFilter V src) = alphaValues src := by
  refine ⟨convertToFormat_width _ _, convertToFormat_height _ _, ?_⟩
  unfold alphaValues
  have hfmt : (vintageFilter V src).format = .ARGB32 := convertToFormat_format src .ARGB32
  rw [convertToFormat_self _ hfmt]
  simp only [vintageFilter, List.map_map]
  have key : ∀ (l : List QRgb) (k : Nat) (g : Nat × QRgb → QRgb),
      (∀ ip, qAlpha (g ip) = qAlpha ip.2) →
      List.map (qAlpha ∘ g) (List.enumFrom k l) = List.map qAlpha l := by
    intro l
    induction l with
    | nil => intro k g _; rfl
    | cons a t ih =>
      intro k g hg
      simp only [List.enumFrom_cons, List.map_cons, Function.comp, hg]
      congr 1
      exact ih (k + 1) g hg
  apply key
  intro ip
  exact qAlpha_qRgba_nat _ _ _ _ (by have := qAlpha_lt ip.2; omega)

theorem grayscale_opaque (src : QImage) :
    (src.convertToFormat .Grayscale8).width = src.width
    ∧ (src.convertToFormat .Grayscale8).height = src.height
    ∧ (src.convertToFormat .Grayscale8).format = .Grayscale8
    ∧ alphaValues (src.convertToFormat .Grayscale8) = src.data.map (fun _ => 255) := by
  refine ⟨convertToFormat_width _ _, convertToFormat_height _ _, convertToFormat_format _ _, ?_⟩
  have h255 : ∀ g : Nat, qAlpha (qRgba g g g 255) = 255 := by
    intro g
    rw [qAlpha_qRgba]
    rfl
  unfold alphaValues QImage.convertToFormat
  cases hf : src.format
  · simp only [List.map_map]
    apply List.map_congr_left
    intro p _
    exact h255 _
  · simp only [hf, List.map_map]
    apply List.map_congr_left
    intro p _
    exact h255 _

/-- C16 (as stated, refuted): grayscale does not keep alpha.  The half-transparent pixel
`0x80102030` (alpha 128) of a one-pixel raster comes out of `applyFilter` as a sample of
the format `Grayscale8`, which has no alpha, and is opaque (alpha 255) once the export has
converted it back to `ARGB32`. -/
theorem grayscale_loses_alpha :
    (applyFilter (sourceKernels sampleVintage)
        { width := 1, height := 1, format := .ARGB32, data := [0x80102030] } (qs "чб")).format
      = Format.Grayscale8
    ∧ alphaValues { width := 1, height := 1, format := .ARGB32, data := [0x80102030] } = [128]
    ∧ alphaValues (applyFilter (sourceKernels sampleVintage)
        { width := 1, height := 1, format := .ARGB32, data := [0x80102030] } (qs "чб")) = [255]
    ∧ qs "чб" ∈ knownCodes := by
  refine ⟨by decide, by decide, by decide, by decide⟩

/-- C16 (amended): for every non-null raster and each of the nine identifiers `applyFilter`
returns a raster of the same width and height; for the eight identifiers other than
grayscale every pixel keeps the alpha of the source pixel at its position (solarize above
the threshold included); for grayscale the result is in the single-channel format and
every pixel is opaque, alpha 255, after the export has converted it to `ARGB32`. -/
theorem applyFilter_keeps_size_and_alpha (V : VintageMath) (source : QImage)
    (type : QString) (hnull : source.isNull = false) (hk : type ∈ knownCodes) :
    (applyFilter (sourceKernels V) source type).width = source.width
    ∧ (applyFilter (sourceKernels V) source type).height = source.height
    ∧ (type ≠ qs "чб" →
        alphaValues (applyFilter (sourceKernels V) source type) = alphaValues source)
    ∧ (type = qs "чб" →
        (applyFilter (sourceKernels V) source type).format = .Grayscale8
        ∧ alphaValues (applyFilter (sourceKernels V) source type)
            = source.data.map (fun _ => 255)) := by
  simp only [knownCodes, List.mem_cons, List.mem_singleton, List.not_mem_nil, or_false] at hk
  have hsplit : ∀ out : QImage,
      (out.width = source.width ∧ out.height = source.height
        ∧ alphaValues out = alphaValues source) → type ≠ qs "чб" →
      applyFilter (sourceKernels V) source type = out →
      (applyFilter (sourceKernels V) source type).width = source.width
      ∧ (applyFilter (sourceKernels V) source type).height = source.height
      ∧ (type ≠ qs "чб" →
          alphaValues (applyFilter (sourceKernels V) source type) = alphaValues source)
      ∧ (type = qs "чб" →
          (applyFilter (sourceKernels V) source type).format = .Grayscale8
          ∧ alphaValues (applyFilter (sourceKernels V) source type)
              = source.data.map (fun _ => 255)) := by
    intro out h hne heq
    rw [heq]
    exact ⟨h.1, h.2.1, fun _ => h.2.2, fun he => absurd he hne⟩
  rcases hk with h | h | h | h | h | h | h | h | h
  · subst h
    exact hsplit source ⟨rfl, rfl, rfl⟩ (by decide)
      (by simp only [applyFilter, hnull]; rfl)
  · subst h
    have heq : applyFilter (sourceKernels V) source (qs "чб")
        = source.convertToFormat .Grayscale8 := by
      simp only [applyFilter, hnull]
      rfl
    rw [heq]
    obtain ⟨h1, h2, h3, h4⟩ := grayscale_opaque source
    exact ⟨h1, h2, fun hne => absurd rfl hne, fun _ => ⟨h3, h4⟩⟩
  · subst h
    exact hsplit _ (negative_keeps source) (by decide)
      (by simp only [applyFilter, hnull]; rfl)
  · subst h
    exact hsplit _ (toSepia_keeps source) (by decide)
      (by simp only [applyFilter, hnull]; rfl)
  · subst h
    exact hsplit _ (posterizeEffect_keeps source 12) (by decide)
      (by simp only [applyFilter, hnull]; rfl)
  · subst h
    exact hsplit _ (hardSolarizeInvert_keeps source 128) (by decide)
      (by simp only [applyFilter, hnull]; rfl)
  · subst h
    exact hsplit _ (coldFilter_keeps source (fl32 (6 / 10))) (by decide)
      (by simp only [applyFilter, hnull]; rfl)
  · subst h
    exact hsplit _ (warmFilter_keeps source (fl32 (6 / 10))) (by decide)
      (by simp only [applyFilter, hnull]; rfl)
  · subst h
    exact hsplit _ (vintageFilter_keeps V source) (by decide)
      (by simp only [applyFilter, hnull]; rfl)

/-- Witness of C16 (amended): the negative of the sample raster. -/
theorem applyFilter_keeps_size_and_alpha_witness :
    sampleImage.isNull = false ∧ qs "нег" ∈ knownCodes
    ∧ alphaValues (applyFilter (sourceKernels sampleVintage) sampleImage (qs "нег"))
        = alphaValues sampleImage :=
  ⟨by decide, by decide,
    (applyFilter_keeps_size_and_alpha sampleVintage sampleImage (qs "нег") (by decide)
      (by decide)).2.2.1 (by decide)⟩

/-! ## The table at twelve levels -/

theorem buildLUT_eleven (v : Nat) (hv : v < 256) : (buildLUT (12 - 1)).getD v 0 = (lut12 v : Int) := by
  have h11 : (12 : Int) - 1 = ((11 : Nat) : Int) := by norm_num
  rw [h11, buildLUT_getD _ v hv, lutEntry_eq 11 v (by norm_num) (by omega)]
  rfl

set_option maxRecDepth 100000 in
theorem lut12_idempotent : ∀ v, v < 256 → lut12 (lut12 v) = lut12 v := by
  decide

theorem lut12_lt (v : Nat) (hv : v < 256) : lut12 v < 256 := by
  unfold lut12
  omega

theorem lut12_monotone (v v' : Nat) (h : v ≤ v') : lut12 v ≤ lut12 v' := by
  unfold lut12
  have h1 : v * 11 ≤ v' * 11 := Nat.mul_le_mul_right 11 h
  omega

/-- The pixel function of `posterizeEffect` without dithering at twelve levels. -/
theorem posterize12_pixel (p : QRgb) :
    qRgba ((buildLUT (12 - 1)).getD (qRed p) 0) ((buildLUT (12 - 1)).getD (qGreen p) 0)
        ((buildLUT (12 - 1)).getD (qBlue p) 0) (qAlpha p)
      = qRgba (lut12 (qRed p)) (lut12 (qGreen p)) (lut12 (qBlue p)) (qAlpha p) := by
  rw [buildLUT_eleven _ (qRed_lt p), buildLUT_eleven _ (qGreen_lt p),
    buildLUT_eleven _ (qBlue_lt p)]

theorem posterize12_pixel_idempotent (p : QRgb) :
    (fun q => qRgba (lut12 (qRed q)) (lut12 (qGreen q)) (lut12 (qBlue q)) (qAlpha q))
      (qRgba (lut12 (qRed p)) (lut12 (qGreen p)) (lut12 (qBlue p)) (qAlpha p))
      = qRgba (lut12 (qRed p)) (lut12 (qGreen p)) (lut12 (qBlue p)) (qAlpha p) := by
  have hr := lut12_lt _ (qRed_lt p)
  have hg := lut12_lt _ (qGreen_lt p)
  have hb := lut12_lt _ (qBlue_lt p)
  have ha := qAlpha_lt p
  simp only
  rw [qRed_qRgba_nat _ _ _ _ (by omega), qGreen_qRgba_nat _ _ _ _ (by omega),
    qBlue_qRgba_nat _ _ _ _ (by omega), qAlpha_qRgba_nat _ _ _ _ (by omega),
    lut12_idempotent _ (qRed_lt p), lut12_idempotent _ (qGreen_lt p),
    lut12_idempotent _ (qBlue_lt p)]

theorem posterize12_plain (src : QImage) :
    posterizeEffect src 12 false
      = { width := src.width, height := src.height, format := .ARGB32,
          data := (src.convertToFormat .ARGB32).data.map (fun q =>
            qRgba (lut12 (qRed q)) (lut12 (qGreen q)) (lut12 (qBlue q)) (qAlpha q)) } := by
  have hd := posterizeEffect_plain_data src 12 (by norm_num)
  have hw : (posterizeEffect src 12 false).width = src.width := (posterizeEffect_keeps src 12).1
  have hh : (posterizeEffect src 12 false).height = src.height :=
    (posterizeEffect_keeps src 12).2.1
  have hf : (posterizeEffect src 12 false).format = .ARGB32 := convertToFormat_format src _
  have hd' : (posterizeEffect src 12 false).data
      = (src.convertToFormat .ARGB32).data.map (fun q =>
          qRgba (lut12 (qRed q)) (lut12 (qGreen q)) (lut12 (qBlue q)) (qAlpha q)) := by
    rw [hd]
    apply List.map_congr_left
    intro p _
    exact posterize12_pixel p
  cases hP : posterizeEffect src 12 false with
  | mk w h f d =>
    rw [hP] at hw hh hf hd'
    simp only at hw hh hf hd'
    rw [hw, hh, hf, hd']

theorem posterize12_twice (src : QImage) :
    posterizeEffect (posterizeEffect src 12 false) 12 false = posterizeEffect src 12 false := by
  rw [posterize12_plain (posterizeEffect src 12 false), posterize12_plain src]
  simp only [QImage.convertToFormat, List.map_map, QImage.mk.injEq, true_and]
  apply List.map_congr_left
  intro p _
  exact posterize12_pixel_idempotent p

/-! ## Error diffusion without error -/

theorem posterizeEffect_dither_eq (src : QImage) (levels : Int) (h2 : 2 ≤ levels) :
    posterizeEffect src levels true
      = { width := src.width, height := src.height, format := .ARGB32,
          data := (ditherLoop src.width src.height (buildLUT (levels - 1))
            (seedBuffer src src.width src.height)).2 } := by
  have hlev : (if levels < 2 then (2 : Int) else levels) = levels := by
    rw [if_neg (by omega)]
  simp only [posterizeEffect, hlev, Bool.not_true, Bool.false_eq_true, if_false,
    convertToFormat_width, convertToFormat_height, seedBuffer, seedPixel]

theorem modify_of_fix {α : Type} (f : α → α) (hf : ∀ a, f a = a) (n : Nat) (l : List α) :
    List.modify f n l = l := by
  have hid : f = id := funext hf
  subst hid
  induction l generalizing n with
  | nil => simp
  | cons a t ih =>
    cases n with
    | zero => simp
    | succ n => simp [ih]

theorem addError_zero (w h : Nat) (buf : List RGBf) (nx ny : Int) (factor : ℚ) :
    addError w h 0 0 0 buf nx ny factor = buf := by
  unfold addError
  split
  · rfl
  · apply modify_of_fix
    intro nc
    cases nc
    simp

theorem ditherStep_zero (w h : Nat) (lut : List Int) (buf : List RGBf) (dst : List QRgb)
    (y x : Nat)
    (hz : ZeroError lut (buf.getD (y * w + x) { r := 0, g := 0, b := 0, a := 0 })) :
    ditherStep w h lut (buf, dst) y x
      = (buf, dst ++ [ditherOut lut (buf.getD (y * w + x) { r := 0, g := 0, b := 0, a := 0 })])
      := by
  obtain ⟨hr, hg, hb⟩ := hz
  unfold ditherStep
  simp only [hr, hg, hb, sub_self, addError_zero, ditherOut]

theorem ditherRow_zero (w h : Nat) (lut : List Int) (buf : List RGBf) (y : Nat)
    (hz : ∀ idx, ZeroError lut (buf.getD idx { r := 0, g := 0, b := 0, a := 0 })) :
    ∀ (l : List Nat) (dst : List QRgb),
      l.foldl (fun st x => ditherStep w h lut st y x) (buf, dst)
        = (buf, dst ++ l.map (fun x =>
            ditherOut lut (buf.getD (y * w + x) { r := 0, g := 0, b := 0, a := 0 })))
  | [], dst => by simp
  | x :: l, dst => by
    rw [List.foldl_cons, ditherStep_zero w h lut buf dst y x (hz _),
      ditherRow_zero w h lut buf y hz l]
    simp

theorem ditherRows_zero (w h : Nat) (lut : List Int) (buf : List RGBf)
    (hz : ∀ idx, ZeroError lut (buf.getD idx { r := 0, g := 0, b := 0, a := 0 })) :
    ∀ (l : List Nat) (dst : List QRgb),
      l.foldl (fun st y => (List.range w).foldl (fun st x => ditherStep w h lut st y x) st)
          (buf, dst)
        = (buf, dst ++ l.flatMap (fun y => (List.range w).map (fun x =>
            ditherOut lut (buf.getD (y * w + x) { r := 0, g := 0, b := 0, a := 0 }))))
  | [], dst => by simp
  | y :: l, dst => by
    rw [List.foldl_cons, ditherRow_zero w h lut buf y hz (List.range w) dst,
      ditherRows_zero w h lut buf hz l]
    simp

theorem scan_order (w : Nat) (g : Nat → QRgb) : ∀ h : Nat,
    (List.range h).flatMap (fun y => (List.range w).map (fun x => g (y * w + x)))
      = (List.range (w * h)).map g
  | 0 => by simp
  | h + 1 => by
    rw [List.range_succ, List.flatMap_append, scan_order w g h, Nat.mul_succ, List.range_add,
      List.map_append, List.map_map]
    simp only [List.flatMap_cons, List.flatMap_nil, List.append_nil]
    congr 1
    apply List.map_congr_left
    intro x _
    simp only [Function.comp]
    rw [Nat.mul_comm h w]

theorem ditherLoop_zero (w h : Nat) (lut : List Int) (buf : List RGBf)
    (hz : ∀ idx, ZeroError lut (buf.getD idx { r := 0, g := 0, b := 0, a := 0 })) :
    ditherLoop w h lut buf
      = (buf, (List.range (w * h)).map (fun i =>
          ditherOut lut (buf.getD i { r := 0, g := 0, b := 0, a := 0 }))) := by
  unfold ditherLoop
  rw [ditherRows_zero w h lut buf hz (List.range h) [], List.nil_append,
    scan_order w (fun i => ditherOut lut (buf.getD i { r := 0, g := 0, b := 0, a := 0 })) h]

theorem cRound_natCast (n : Nat) : cRound (n : ℚ) = (n : Int) := by
  apply cRound_eq_of_abs_lt
  simp

theorem quantizeChannel_natCast (n : Nat) (hn : n < 256) :
    quantizeChannel (n : ℚ) (buildLUT (12 - 1)) = (lut12 n : Int)
    ∧ clampInt (cRound (n : ℚ)) = (n : Int) := by
  have hc : clampInt (cRound (n : ℚ)) = (n : Int) := by
    rw [cRound_natCast]
    unfold clampInt
    rw [if_neg (by omega), if_neg (by omega)]
  refine ⟨?_, hc⟩
  unfold quantizeChannel
  simp only
  rw [hc, Int.toNat_ofNat, buildLUT_eleven n hn]

theorem zeroError_seedPixel (p : QRgb) (hr : lut12 (qRed p) = qRed p)
    (hg : lut12 (qGreen p) = qGreen p) (hb : lut12 (qBlue p) = qBlue p) :
    ZeroError (buildLUT (12 - 1)) (seedPixel p) := by
  unfold ZeroError seedPixel
  simp only
  obtain ⟨q1, c1⟩ := quantizeChannel_natCast (qRed p) (qRed_lt p)
  obtain ⟨q2, c2⟩ := quantizeChannel_natCast (qGreen p) (qGreen_lt p)
  obtain ⟨q3, c3⟩ := quantizeChannel_natCast (qBlue p) (qBlue_lt p)
  rw [q1, q2, q3, c1, c2, c3, hr, hg, hb]
  exact ⟨rfl, rfl, rfl⟩

theorem zeroError_default :
    ZeroError (buildLUT (12 - 1)) { r := 0, g := 0, b := 0, a := 0 } := by
  have h := zeroError_seedPixel 0 (by decide) (by decide) (by decide)
  have e : seedPixel 0 = { r := 0, g := 0, b := 0, a := 0 } := by
    unfold seedPixel
    have e1 : qRed 0 = 0 := by decide
    have e2 : qGreen 0 = 0 := by decide
    have e3 : qBlue 0 = 0 := by decide
    have e4 : qAlpha 0 % 256 = 0 := by decide
    rw [e1, e2, e3, e4]
    simp
  rw [e] at h
  exact h

theorem ditherOut_seedPixel (p : QRgb) :
    ditherOut (buildLUT (12 - 1)) (seedPixel p)
      = qRgba (lut12 (qRed p)) (lut12 (qGreen p)) (lut12 (qBlue p)) (qAlpha p) := by
  unfold ditherOut seedPixel
  simp only
  rw [(quantizeChannel_natCast (qRed p) (qRed_lt p)).1,
    (quantizeChannel_natCast (qGreen p) (qGreen_lt p)).1,
    (quantizeChannel_natCast (qBlue p) (qBlue_lt p)).1,
    Nat.mod_eq_of_lt (qAlpha_lt p)]

theorem lut12_fix_of_inTable (p : QRgb) (h : InTable (12 - 1) p) :
    lut12 (qRed p) = qRed p ∧ lut12 (qGreen p) = qGreen p ∧ lut12 (qBlue p) = qBlue p := by
  obtain ⟨⟨v1, hv1, e1⟩, ⟨v2, hv2, e2⟩, ⟨v3, hv3, e3⟩⟩ := h
  rw [buildLUT_eleven v1 hv1] at e1
  rw [buildLUT_eleven v2 hv2] at e2
  rw [buildLUT_eleven v3 hv3] at e3
  have f1 : qRed p = lut12 v1 := by exact_mod_cast e1
  have f2 : qGreen p = lut12 v2 := by exact_mod_cast e2
  have f3 : qBlue p = lut12 v3 := by exact_mod_cast e3
  rw [f1, f2, f3]
  exact ⟨lut12_idempotent v1 hv1, lut12_idempotent v2 hv2, lut12_idempotent v3 hv3⟩

theorem map_range_getD {β : Type} (l : List Nat) (F : Nat → β) :
    (List.range l.length).map (fun i => F (l.getD i 0)) = l.map F := by
  apply List.ext_getElem?
  intro i
  by_cases hi : i < l.length
  · simp [List.getElem?_map, List.getElem?_range hi, List.getD_eq_getElem?_getD,
      List.getElem?_eq_getElem hi]
  · have h1 : l[i]? = none := List.getElem?_eq_none (by omega)
    have h2 : (List.range l.length)[i]? = none :=
      List.getElem?_eq_none (by simp; omega)
    simp [List.getElem?_map, h1, h2]

theorem seedBuffer_getD (src : QImage) (w h : Nat) (idx : Nat) :
    (seedBuffer src w h).getD idx { r := 0, g := 0, b := 0, a := 0 }
      = if idx < w * h then seedPixel (src.data.getD idx 0)
        else { r := 0, g := 0, b := 0, a := 0 } := by
  unfold seedBuffer
  rw [List.getD_eq_getElem?_getD, List.getElem?_map]
  by_cases hi : idx < w * h
  · rw [List.getElem?_range hi, if_pos hi]
    rfl
  · have : (List.range (w * h))[idx]? = none := List.getElem?_eq_none (by simp; omega)
    rw [this, if_neg hi]
    rfl

theorem seedBuffer_zeroError (src : QImage) (hwf : src.WellFormed)
    (htab : ∀ p ∈ src.data, InTable (12 - 1) p) (idx : Nat) :
    ZeroError (buildLUT (12 - 1))
      ((seedBuffer src src.width src.height).getD idx { r := 0, g := 0, b := 0, a := 0 }) := by
  rw [seedBuffer_getD src _ _]
  split
  · rename_i hi
    have hlt : idx < src.data.length := by rw [hwf]; exact hi
    have hmem : src.data.getD idx 0 ∈ src.data := by
      rw [List.getD_eq_getElem?_getD, List.getElem?_eq_getElem hlt]
      exact List.getElem_mem hlt
    obtain ⟨h1, h2, h3⟩ := lut12_fix_of_inTable _ (htab _ hmem)
    exact zeroError_seedPixel _ h1 h2 h3
  · exact zeroError_default

/-! ## Claims on the table at twelve levels -/

/-- C17: at the default twelve levels the table is idempotent and monotone on `0..255`;
so `posterizeEffect` without dithering applied twice is the same as applied once, and on a
raster whose channel values are all table values the dithered variant leaves its buffer as
seeded (it diffuses no error) and returns the same raster as the variant without
dithering. -/
theorem posterize_default_table_idempotent :
    (∀ v, v < 256 →
      (buildLUT (12 - 1)).getD ((buildLUT (12 - 1)).getD v 0).toNat 0
        = (buildLUT (12 - 1)).getD v 0)
    ∧ (∀ v v', v ≤ v' → v' < 256 →
      (buildLUT (12 - 1)).getD v 0 ≤ (buildLUT (12 - 1)).getD v' 0)
    ∧ (∀ src : QImage,
      posterizeEffect (posterizeEffect src 12 false) 12 false = posterizeEffect src 12 false)
    ∧ (∀ src : QImage, src.format = .ARGB32 → src.WellFormed →
      (∀ p ∈ src.data, InTable (12 - 1) p) →
      (ditherLoop src.width src.height (buildLUT (12 - 1))
          (seedBuffer src src.width src.height)).1 = seedBuffer src src.width src.height
      ∧ posterizeEffect src 12 true = posterizeEffect src 12 false) := by
  refine ⟨?_, ?_, posterize12_twice, ?_⟩
  · intro v hv
    rw [buildLUT_eleven v hv, Int.toNat_ofNat, buildLUT_eleven _ (lut12_lt v hv),
      lut12_idempotent v hv]
  · intro v v' hle hv'
    rw [buildLUT_eleven v (by omega), buildLUT_eleven v' hv']
    exact_mod_cast lut12_monotone v v' hle
  · intro src hfmt hwf htab
    have hloop := ditherLoop_zero src.width src.height (buildLUT (12 - 1))
      (seedBuffer src src.width src.height) (seedBuffer_zeroError src hwf htab)
    refine ⟨by rw [hloop], ?_⟩
    rw [posterizeEffect_dither_eq src 12 (by norm_num), posterize12_plain src, hloop,
      convertToFormat_self src hfmt]
    simp only [QImage.mk.injEq, true_and]
    have hwf' : src.width * src.height = src.data.length := hwf.symm
    rw [hwf']
    have e : (fun i => ditherOut (buildLUT (12 - 1))
          ((seedBuffer src src.width src.height).getD i { r := 0, g := 0, b := 0, a := 0 }))
        = fun i => if i < src.data.length
            then qRgba (lut12 (qRed (src.data.getD i 0))) (lut12 (qGreen (src.data.getD i 0)))
              (lut12 (qBlue (src.data.getD i 0))) (qAlpha (src.data.getD i 0))
            else ditherOut (buildLUT (12 - 1)) { r := 0, g := 0, b := 0, a := 0 } := by
      funext i
      rw [seedBuffer_getD, hwf']
      split
      · exact ditherOut_seedPixel _
      · rfl
    rw [e]
    rw [← map_range_getD src.data (fun q =>
      qRgba (lut12 (qRed q)) (lut12 (qGreen q)) (lut12 (qBlue q)) (qAlpha q))]
    apply List.map_congr_left
    intro i hi
    rw [if_pos (by simpa using hi)]

theorem tableImage_inTable : ∀ p ∈ tableImage.data, InTable (12 - 1) p := by
  intro p hp
  simp only [tableImage, List.mem_cons, List.mem_singleton, List.not_mem_nil, or_false] at hp
  rcases hp with rfl | rfl
  · refine ⟨⟨0, by decide, ?_⟩, ⟨46, by decide, ?_⟩, ⟨255, by decide, ?_⟩⟩
    · rw [buildLUT_eleven 0 (by decide)]
      decide
    · rw [buildLUT_eleven 46 (by decide)]
      decide
    · rw [buildLUT_eleven 255 (by decide)]
      decide
  · refine ⟨⟨23, by decide, ?_⟩, ⟨23, by decide, ?_⟩, ⟨23, by decide, ?_⟩⟩
    · rw [buildLUT_eleven 23 (by decide)]
      decide
    · rw [buildLUT_eleven 23 (by decide)]
      decide
    · rw [buildLUT_eleven 23 (by decide)]
      decide

/-- Witness of C17: on the sample raster of table values the dithered variant returns what
the variant without dithering returns. -/
theorem posterize_default_table_idempotent_witness :
    tableImage.format = Format.ARGB32 ∧ tableImage.WellFormed
    ∧ (∀ p ∈ tableImage.data, InTable (12 - 1) p)
    ∧ posterizeEffect tableImage 12 true = posterizeEffect tableImage 12 false :=
  ⟨rfl, rfl, tableImage_inTable,
    (posterize_default_table_idempotent.2.2.2 tableImage rfl rfl tableImage_inTable).2⟩
end FilterEngine
